import Mathlib

/-!
# go-fastly: BigQuery logging client and version client

A shallow embedding of `bigquery.go` and `version.go`, and of the parts of the Go
standard library they call (`fmt.Sprintf` for the two verbs used, `sort.Stable`).

* Go `string` is a sequence of bytes; `<` on strings is byte-wise lexicographic.
* Go `uint` / `int` values are natural numbers: slice lengths are far below the word
  size, so no index computation of `sort.Stable` wraps around and the midpoint
  `int(uint(i+j) >> 1)` is `(i + j) / 2`; subtraction is truncated at zero.
* A pointer `*T` is an `Option T` (`none` is `nil`); a slice `[]T` is an
  `Option (List T)` (`none` is the nil slice).
* A run-time panic is an `Except.error`; loops carry a fuel argument that the caller
  computes from the loop variant, and running out of it is the error `Panic.diverges`.
* The client (`c.client`: `NewRequest`, `NewJSONRequest`, `Do`) is not part of the two
  files; it is a parameter, a record of state transformers over a world `ω`.
-/

/-! ## Strings and `fmt.Sprintf` -/

/-- One byte of a Go string. -/
abbrev Byte := Fin 256

/-- A Go `string`: an immutable sequence of bytes. The order `<` on it is the
lexicographic order of the bytes. -/
abbrev GoString := List Byte

/-- The bytes of an ASCII string constant of the source. -/
def ascii (s : String) : GoString := s.toList.map (fun c => Fin.ofNat c.toNat)

/-- An ASCII decimal digit: `'0' + d`. -/
def digitByte (d : Nat) : Byte := Fin.ofNat (48 + d)

/-- The digit loop of `fmt`'s integer formatting in base 10:
`for u >= 10 { i--; next := u / 10; buf[i] = byte('0' + u - next*10); u = next }`
followed by `i--; buf[i] = digits[u]`; `acc` is the part of the buffer already
written. -/
def fmtIntegerLoop : Nat → Nat → GoString → GoString
  | 0, u, acc => digitByte u :: acc
  | fuel + 1, u, acc =>
    if u ≥ 10 then fmtIntegerLoop fuel (u / 10) (digitByte (u - (u / 10) * 10) :: acc)
    else digitByte u :: acc

/-- The rendering of an unsigned integer by the verb `%d`: base 10, no sign, no padding. -/
def decimal (u : Nat) : GoString := fmtIntegerLoop u u []

namespace fmt

/-- An operand of `Sprintf`; the two files pass only strings and `uint`s. -/
inductive Arg where
  | str (s : GoString)
  | uint (n : Nat)

/-- The `%v` rendering of an operand. -/
def Arg.value : Arg → GoString
  | .str s => s
  | .uint n => decimal n

/-- The Go type name of an operand, as printed in a bad-verb report. -/
def Arg.typeName : Arg → GoString
  | .str _ => ascii "string"
  | .uint _ => ascii "uint"

/-- One verb applied to one operand. `%s` copies a string operand byte for byte, `%d`
prints a `uint` in decimal, `%v` prints either; any other pairing is reported in Go's
`%!verb(type=value)` form. -/
def printArg (verb : Byte) (a : Arg) : GoString :=
  match a with
  | .str s =>
    if verb = 115 ∨ verb = 118 then s
    else ascii "%!" ++ [verb] ++ ascii "(string=" ++ s ++ ascii ")"
  | .uint n =>
    if verb = 100 ∨ verb = 118 then decimal n
    else ascii "%!" ++ [verb] ++ ascii "(uint=" ++ decimal n ++ ascii ")"

/-- The operands left over when the format is exhausted: `type=value` separated by `, `. -/
def extraArgs : List Arg → GoString
  | [] => []
  | [a] => a.typeName ++ ascii "=" ++ a.value
  | a :: b :: rest => a.typeName ++ ascii "=" ++ a.value ++ ascii ", " ++ extraArgs (b :: rest)

/-- The tail of the output once the format is exhausted. -/
def finish (args : List Arg) : GoString :=
  match args with
  | [] => []
  | _ :: _ => ascii "%!(EXTRA " ++ extraArgs args ++ ascii ")"

/-- The scanning loop of `fmt.Sprintf`, for formats without flags, width or precision:
bytes other than `%` are copied, `%%` prints `%`, `%` followed by a verb consumes the
next operand. -/
def doPrintf : GoString → List Arg → GoString
  | [], args => finish args
  | [c], args => if c = 37 then ascii "%!(NOVERB)" ++ finish args else c :: finish args
  | c :: v :: rest, args =>
    if c = 37 then
      if v = 37 then 37 :: doPrintf rest args
      else
        match args with
        | [] => ascii "%!" ++ [v] ++ ascii "(MISSING)" ++ doPrintf rest []
        | a :: args => printArg v a ++ doPrintf rest args
    else c :: doPrintf (v :: rest) args

/-- The function `fmt.Sprintf(format, args...)`, for the formats described at `doPrintf`. -/
def Sprintf (format : String) (args : List Arg) : GoString := doPrintf (ascii format) args

end fmt

/-! ## Run-time failures -/

/-- The ways a computation of the model can fail to return. -/
inductive Panic where
  /-- index out of range -/
  | indexOutOfRange
  /-- invalid memory address or nil pointer dereference -/
  | nilDereference
  /-- a loop did not finish within its fuel -/
  | diverges
  deriving DecidableEq, Repr

/-- The slice element `s[i]`; panics when `i` is out of range. -/
def index {α : Type} (s : List α) (i : Nat) : Except Panic α :=
  match s[i]? with
  | some x => .ok x
  | none => .error .indexOutOfRange

/-- The pointer dereference `*p` (a field selection `p.f` starts with it). -/
def deref {α : Type} (p : Option α) : Except Panic α :=
  match p with
  | some x => .ok x
  | none => .error .nilDereference

/-! ## `sort.Stable` -/

namespace sort

/-- The interface `sort.Interface` over a collection whose state has type `σ`. -/
structure Interface (σ : Type) where
  /-- The number of elements. -/
  Len : σ → Nat
  /-- Whether the element with index `i` must sort before the element with index `j`. -/
  Less : σ → Nat → Nat → Except Panic Bool
  /-- The collection after swapping the elements with indexes `i` and `j`. -/
  Swap : σ → Nat → Nat → Except Panic σ

variable {σ : Type}

/-- The inner loop of `insertionSort`:
`for j := i; j > a && data.Less(j, j-1); j-- { data.Swap(j, j-1) }`. -/
def insertionSortInner (data : Interface σ) : Nat → σ → Nat → Nat → Except Panic σ
  | 0, _, _, _ => .error .diverges
  | fuel + 1, s, a, j =>
    if j > a then do
      let lt ← data.Less s j (j - 1)
      if lt then do
        let s ← data.Swap s j (j - 1)
        insertionSortInner data fuel s a (j - 1)
      else pure s
    else pure s

/-- The outer loop of `insertionSort`: `for i := a + 1; i < b; i++ { ... }`. -/
def insertionSortOuter (data : Interface σ) : Nat → σ → Nat → Nat → Nat → Except Panic σ
  | 0, _, _, _, _ => .error .diverges
  | fuel + 1, s, a, b, i =>
    if i < b then do
      let s ← insertionSortInner data (i - a + 1) s a i
      insertionSortOuter data fuel s a b (i + 1)
    else pure s

/-- The function `insertionSort(data, a, b)`: sorts `data[a:b]` by insertion. -/
def insertionSort (data : Interface σ) (s : σ) (a b : Nat) : Except Panic σ :=
  insertionSortOuter data (b - a + 1) s a b (a + 1)

/-- The loop of `swapRange`: `for i := 0; i < n; i++ { data.Swap(a+i, b+i) }`,
entered at `i`. -/
def swapRangeLoop (data : Interface σ) : Nat → σ → Nat → Nat → Nat → Nat → Except Panic σ
  | 0, _, _, _, _, _ => .error .diverges
  | fuel + 1, s, a, b, n, i =>
    if i < n then do
      let s ← data.Swap s (a + i) (b + i)
      swapRangeLoop data fuel s a b n (i + 1)
    else pure s

/-- The function `swapRange(data, a, b, n)`. -/
def swapRange (data : Interface σ) (s : σ) (a b n : Nat) : Except Panic σ :=
  swapRangeLoop data (n + 1) s a b n 0

/-- The loop of `rotate`, with its closing `swapRange(data, m-i, m, i)`:
`for i != j { if i > j { swapRange(data, m-i, m, j); i -= j } else
{ swapRange(data, m-i, m+j-i, i); j -= i } }`. -/
def rotateLoop (data : Interface σ) : Nat → σ → Nat → Nat → Nat → Except Panic σ
  | 0, _, _, _, _ => .error .diverges
  | fuel + 1, s, m, i, j =>
    if i ≠ j then
      if i > j then do
        let s ← swapRange data s (m - i) m j
        rotateLoop data fuel s m (i - j) j
      else do
        let s ← swapRange data s (m - i) (m + j - i) i
        rotateLoop data fuel s m i (j - i)
    else swapRange data s (m - i) m i

/-- The function `rotate(data, a, m, b)`: exchanges the blocks `data[a:m]` and `data[m:b]`. -/
def rotate (data : Interface σ) (s : σ) (a m b : Nat) : Except Panic σ :=
  rotateLoop data ((m - a) + (b - m) + 1) s m (m - a) (b - m)

/-- The first binary search of `symMerge` (`m-a == 1`):
`for i < j { h := int(uint(i+j) >> 1); if data.Less(h, a) { i = h + 1 } else { j = h } }`. -/
def searchLow (data : Interface σ) : Nat → σ → Nat → Nat → Nat → Except Panic Nat
  | 0, _, _, _, _ => .error .diverges
  | fuel + 1, s, a, i, j =>
    if i < j then do
      let h := (i + j) / 2
      let lt ← data.Less s h a
      if lt then searchLow data fuel s a (h + 1) j
      else searchLow data fuel s a i h
    else pure i

/-- The loop `for k := a; k < i-1; k++ { data.Swap(k, k+1) }` of `symMerge`, entered at `k`. -/
def swapUp (data : Interface σ) : Nat → σ → Nat → Nat → Except Panic σ
  | 0, _, _, _ => .error .diverges
  | fuel + 1, s, k, i =>
    if k < i - 1 then do
      let s ← data.Swap s k (k + 1)
      swapUp data fuel s (k + 1) i
    else pure s

/-- The second binary search of `symMerge` (`b-m == 1`):
`for i < j { h := int(uint(i+j) >> 1); if !data.Less(m, h) { i = h + 1 } else { j = h } }`. -/
def searchHigh (data : Interface σ) : Nat → σ → Nat → Nat → Nat → Except Panic Nat
  | 0, _, _, _, _ => .error .diverges
  | fuel + 1, s, m, i, j =>
    if i < j then do
      let h := (i + j) / 2
      let lt ← data.Less s m h
      if !lt then searchHigh data fuel s m (h + 1) j
      else searchHigh data fuel s m i h
    else pure i

/-- The loop `for k := m; k > i; k-- { data.Swap(k, k-1) }` of `symMerge`, entered at `k`. -/
def swapDown (data : Interface σ) : Nat → σ → Nat → Nat → Except Panic σ
  | 0, _, _, _ => .error .diverges
  | fuel + 1, s, k, i =>
    if k > i then do
      let s ← data.Swap s k (k - 1)
      swapDown data fuel s (k - 1) i
    else pure s

/-- The third binary search of `symMerge`:
`for start < r { c := int(uint(start+r) >> 1); if !data.Less(p-c, c) { start = c + 1 }
else { r = c } }`. -/
def searchSym (data : Interface σ) : Nat → σ → Nat → Nat → Nat → Except Panic Nat
  | 0, _, _, _, _ => .error .diverges
  | fuel + 1, s, p, start, r =>
    if start < r then do
      let c := (start + r) / 2
      let lt ← data.Less s (p - c) c
      if !lt then searchSym data fuel s p (c + 1) r
      else searchSym data fuel s p start c
    else pure start

/-- The function `symMerge(data, a, m, b)`: merges the sorted blocks `data[a:m]` and
`data[m:b]` in place. The fuel bounds the depth of the recursion. -/
def symMerge (data : Interface σ) : Nat → σ → Nat → Nat → Nat → Except Panic σ
  | 0, _, _, _, _ => .error .diverges
  | fuel + 1, s, a, m, b =>
    if m - a = 1 then do
      let i ← searchLow data (b - m + 1) s a m b
      swapUp data (i - a + 1) s a i
    else if b - m = 1 then do
      let i ← searchHigh data (m - a + 1) s m a m
      swapDown data (m - i + 1) s m i
    else do
      let mid := (a + b) / 2
      let n := mid + m
      let start := if m > mid then n - b else a
      let r := if m > mid then mid else m
      let p := n - 1
      let start ← searchSym data (r - start + 1) s p start r
      let end_ := n - start
      let s ← if start < m ∧ m < end_ then rotate data s start m end_ else pure s
      let s ← if a < start ∧ start < mid then symMerge data fuel s a start mid else pure s
      if mid < end_ ∧ end_ < b then symMerge data fuel s mid end_ b else pure s

/-- The first loop of `stable`:
`for b <= n { insertionSort(data, a, b); a = b; b += blockSize }`; returns the final `a`. -/
def stableBlocks (data : Interface σ) (blockSize n : Nat) :
    Nat → σ → Nat → Nat → Except Panic (σ × Nat)
  | 0, _, _, _ => .error .diverges
  | fuel + 1, s, a, b =>
    if b ≤ n then do
      let s ← insertionSort data s a b
      stableBlocks data blockSize n fuel s b (b + blockSize)
    else pure (s, a)

/-- The inner loop of the merge phase of `stable`:
`for b <= n { symMerge(data, a, a+blockSize, b); a = b; b += 2 * blockSize }`;
returns the final `a`. -/
def stableMergePass (data : Interface σ) (blockSize n : Nat) :
    Nat → σ → Nat → Nat → Except Panic (σ × Nat)
  | 0, _, _, _ => .error .diverges
  | fuel + 1, s, a, b =>
    if b ≤ n then do
      let s ← symMerge data (b - a + 1) s a (a + blockSize) b
      stableMergePass data blockSize n fuel s b (b + 2 * blockSize)
    else pure (s, a)

/-- The outer loop of the merge phase of `stable`:
`for blockSize < n { a, b = 0, 2*blockSize; (inner loop);
if m := a + blockSize; m < n { symMerge(data, a, m, n) }; blockSize *= 2 }`. -/
def stableMerge (data : Interface σ) (n : Nat) : Nat → σ → Nat → Except Panic σ
  | 0, _, _ => .error .diverges
  | fuel + 1, s, blockSize =>
    if blockSize < n then do
      let (s, a) ← stableMergePass data blockSize n (n + 1) s 0 (2 * blockSize)
      let m := a + blockSize
      let s ← if m < n then symMerge data (n - a + 1) s a m n else pure s
      stableMerge data n fuel s (blockSize * 2)
    else pure s

/-- The function `stable(data, n)`. -/
def stable (data : Interface σ) (s : σ) (n : Nat) : Except Panic σ := do
  let blockSize := 20
  let (s, a) ← stableBlocks data blockSize n (n + 1) s 0 blockSize
  let s ← insertionSort data s a n
  stableMerge data n (n + 1) s blockSize

/-- The function `sort.Stable(data)`: `stable(data, data.Len())`. -/
def Stable (data : Interface σ) (s : σ) : Except Panic σ :=
  stable data s (data.Len s)

end sort

/-! ## `bigquery.go` -/

/-- The record `BigQuery`. -/
structure BigQuery where
  ServiceID : GoString
  Version : Nat
  Name : GoString
  Format : GoString
  User : GoString
  SecretKey : GoString
  ProjectID : GoString
  Dataset : GoString
  Table : GoString
  TemplateSuffix : GoString
  ResponseCondition : GoString
  deriving DecidableEq

/-- The zero value `new(BigQuery)` points to. -/
def BigQuery.zero : BigQuery :=
  { ServiceID := [], Version := 0, Name := [], Format := [], User := [], SecretKey := [],
    ProjectID := [], Dataset := [], Table := [], TemplateSuffix := [],
    ResponseCondition := [] }

/-- The type `bqsByName []*BigQuery` with its methods `Len`, `Swap` and `Less`, over the
element sequence of the slice. -/
def bqsByName : sort.Interface (List (Option BigQuery)) where
  Len s := s.length
  Swap s i j := do
    let x ← index s j
    let y ← index s i
    pure ((s.set i x).set j y)
  Less s i j := do
    let p ← index s i
    let x ← deref p
    let q ← index s j
    let y ← deref q
    pure (decide (x.Name < y.Name))

/-! ## `version.go` -/

/-- The record `Version`. -/
structure Version where
  ServiceID : GoString
  Number : Nat
  Active : Bool
  Comment : GoString
  Deployed : Bool
  Locked : Bool
  Staging : Bool
  Testing : Bool
  Created : GoString
  Updated : GoString
  deriving DecidableEq

/-- The zero value `new(Version)` points to. -/
def Version.zero : Version :=
  { ServiceID := [], Number := 0, Active := false, Comment := [], Deployed := false,
    Locked := false, Staging := false, Testing := false, Created := [], Updated := [] }

/-- The type `versionsByNumber []*Version` with its methods `Len`, `Swap` and `Less`. -/
def versionsByNumber : sort.Interface (List (Option Version)) where
  Len s := s.length
  Swap s i j := do
    let x ← index s j
    let y ← index s i
    pure ((s.set i x).set j y)
  Less s i j := do
    let p ← index s i
    let x ← deref p
    let q ← index s j
    let y ← deref q
    pure (decide (x.Number < y.Number))

/-! ## The client -/

/-- A Go slice `[]T`: `none` is the nil slice, `some l` a non-nil slice with elements `l`. -/
abbrev Slice (α : Type) := Option (List α)

/-- The element sequence of a slice (empty for the nil slice). -/
def Slice.elems {α : Type} : Slice α → List α
  | none => []
  | some l => l

/-- The slice after its elements were rearranged in place: same header, new contents. -/
def Slice.withElems {α : Type} (s : Slice α) (l : List α) : Slice α :=
  match s with
  | none => none
  | some _ => some l

/-- The static types of the second argument of `Do` in the two files. -/
inductive Kind where
  /-- the untyped `nil` -/
  | nil
  /-- a `*BigQuery` -/
  | bigQuery
  /-- a `*[]*BigQuery` -/
  | bigQueries
  /-- a `*Version` -/
  | version
  /-- a `*[]*Version` -/
  | versions
  deriving DecidableEq

/-- What the second argument of `Do` points to. -/
abbrev Kind.Pointee : Kind → Type
  | .nil => Unit
  | .bigQuery => BigQuery
  | .bigQueries => Slice (Option BigQuery)
  | .version => Version
  | .versions => Slice (Option Version)

/-- The `body interface{}` argument of `NewJSONRequest` in the two files. -/
inductive JSONBody where
  | bigQuery (bq : Option BigQuery)
  | version (version : Option Version)
  deriving DecidableEq

/-- The methods of `c.client` the two files call, as transformers of a world `ω`.
`Req`, `Resp`, `Err` and `Rd` stand for `http.Request`, `http.Response`, the values of
`error` and the values of `io.Reader`.

* `NewRequest method urlStr body` returns `(*http.Request, error)`.
* `NewJSONRequest method urlStr body` returns `(*http.Request, error)`.
* `Do req k v`, for a target `v` of kind `k`, returns what the target holds after the
  call and `(*http.Response, error)`. -/
structure Client (Req Resp Err Rd ω : Type) where
  NewRequest : GoString → GoString → Option Rd → ω → (Option Req × Option Err) × ω
  NewJSONRequest : GoString → GoString → JSONBody → ω → (Option Req × Option Err) × ω
  Do : Option Req → (k : Kind) → k.Pointee → ω → (k.Pointee × Option Resp × Option Err) × ω

/-- One call of a client method, with its arguments and its results. -/
inductive Event (Req Resp Err Rd : Type) where
  | NewRequest (method urlStr : GoString) (body : Option Rd)
      (req : Option Req) (err : Option Err)
  | NewJSONRequest (method urlStr : GoString) (body : JSONBody)
      (req : Option Req) (err : Option Err)
  | Do (req : Option Req) (k : Kind) (v : k.Pointee)
      (out : k.Pointee) (resp : Option Resp) (err : Option Err)

/-- Whether the event is a call of a request builder. -/
def Event.isBuild {Req Resp Err Rd : Type} : Event Req Resp Err Rd → Bool
  | .NewRequest .. => true
  | .NewJSONRequest .. => true
  | .Do .. => false

/-- Whether the event is a call of the transport. -/
def Event.isDo {Req Resp Err Rd : Type} : Event Req Resp Err Rd → Bool
  | .Do .. => true
  | _ => false

/-- The same client, recording every call at the end of a log kept beside the world. -/
def Client.traced {Req Resp Err Rd ω : Type} (c : Client Req Resp Err Rd ω) :
    Client Req Resp Err Rd (ω × List (Event Req Resp Err Rd)) where
  NewRequest method urlStr body := fun (w, log) =>
    let r := c.NewRequest method urlStr body w
    (r.1, (r.2, log ++ [Event.NewRequest method urlStr body r.1.1 r.1.2]))
  NewJSONRequest method urlStr body := fun (w, log) =>
    let r := c.NewJSONRequest method urlStr body w
    (r.1, (r.2, log ++ [Event.NewJSONRequest method urlStr body r.1.1 r.1.2]))
  Do req k v := fun (w, log) =>
    let r := c.Do req k v w
    (r.1, (r.2, log ++ [Event.Do req k v r.1.1 r.1.2.1 r.1.2.2]))

section Operations

variable {Req Resp Err Rd ω : Type}

/-! ## `bigquery.go`: the operations -/

namespace BigQueryConfig

/-- The method `BigQueryConfig.List`. -/
def List (c : Client Req Resp Err Rd ω) (serviceID : GoString) (version : Nat) (w : ω) :
    Except Panic (Slice (Option BigQuery) × Option Resp × Option Err) × ω :=
  let u := fmt.Sprintf "/service/%s/version/%d/logging/bigquery"
    [.str serviceID, .uint version]
  match c.NewRequest (ascii "GET") u none w with
  | ((_, some err), w) => (.ok (none, none, some err), w)
  | ((req, none), w) =>
    let bqs : Slice (Option BigQuery) := none
    match c.Do req .bigQueries bqs w with
    | ((_, resp, some err), w) => (.ok (none, resp, some err), w)
    | ((bqs, resp, none), w) =>
      match sort.Stable bqsByName bqs.elems with
      | .error p => (.error p, w)
      | .ok sorted => (.ok (bqs.withElems sorted, resp, none), w)

/-- The method `BigQueryConfig.Get`. -/
def Get (c : Client Req Resp Err Rd ω) (serviceID : GoString) (version : Nat)
    (name : GoString) (w : ω) : (Option BigQuery × Option Resp × Option Err) × ω :=
  let u := fmt.Sprintf "/service/%s/version/%d/logging/bigquery/%s"
    [.str serviceID, .uint version, .str name]
  match c.NewRequest (ascii "GET") u none w with
  | ((_, some err), w) => ((none, none, some err), w)
  | ((req, none), w) =>
    let bq := BigQuery.zero
    match c.Do req .bigQuery bq w with
    | ((_, resp, some err), w) => ((none, resp, some err), w)
    | ((bq, resp, none), w) => ((some bq, resp, none), w)

/-- The method `BigQueryConfig.Create`. -/
def Create (c : Client Req Resp Err Rd ω) (serviceID : GoString) (version : Nat)
    (bq : Option BigQuery) (w : ω) : (Option BigQuery × Option Resp × Option Err) × ω :=
  let u := fmt.Sprintf "/service/%s/version/%d/logging/bigquery"
    [.str serviceID, .uint version]
  match c.NewJSONRequest (ascii "POST") u (.bigQuery bq) w with
  | ((_, some err), w) => ((none, none, some err), w)
  | ((req, none), w) =>
    let b := BigQuery.zero
    match c.Do req .bigQuery b w with
    | ((_, resp, some err), w) => ((none, resp, some err), w)
    | ((b, resp, none), w) => ((some b, resp, none), w)

/-- The method `BigQueryConfig.Update`. -/
def Update (c : Client Req Resp Err Rd ω) (serviceID : GoString) (version : Nat)
    (name : GoString) (bq : Option BigQuery) (w : ω) :
    (Option BigQuery × Option Resp × Option Err) × ω :=
  let u := fmt.Sprintf "/service/%s/version/%d/logging/bigquery/%s"
    [.str serviceID, .uint version, .str name]
  match c.NewJSONRequest (ascii "PUT") u (.bigQuery bq) w with
  | ((_, some err), w) => ((none, none, some err), w)
  | ((req, none), w) =>
    let b := BigQuery.zero
    match c.Do req .bigQuery b w with
    | ((_, resp, some err), w) => ((none, resp, some err), w)
    | ((b, resp, none), w) => ((some b, resp, none), w)

/-- The method `BigQueryConfig.Delete`. -/
def Delete (c : Client Req Resp Err Rd ω) (serviceID : GoString) (version : Nat)
    (name : GoString) (w : ω) : (Option Resp × Option Err) × ω :=
  let u := fmt.Sprintf "/service/%s/version/%d/logging/bigquery/%s"
    [.str serviceID, .uint version, .str name]
  match c.NewRequest (ascii "DELETE") u none w with
  | ((_, some err), w) => ((none, some err), w)
  | ((req, none), w) =>
    match c.Do req .nil () w with
    | ((_, resp, some err), w) => ((resp, some err), w)
    | ((_, resp, none), w) => ((resp, none), w)

end BigQueryConfig

/-! ## `version.go`: the operations -/

namespace VersionConfig

/-- The method `VersionConfig.List`. -/
def List (c : Client Req Resp Err Rd ω) (serviceID : GoString) (w : ω) :
    Except Panic (Slice (Option Version) × Option Resp × Option Err) × ω :=
  let u := fmt.Sprintf "/service/%s/version" [.str serviceID]
  match c.NewRequest (ascii "GET") u none w with
  | ((_, some err), w) => (.ok (none, none, some err), w)
  | ((req, none), w) =>
    let versions : Slice (Option Version) := none
    match c.Do req .versions versions w with
    | ((_, resp, some err), w) => (.ok (none, resp, some err), w)
    | ((versions, resp, none), w) =>
      match sort.Stable versionsByNumber versions.elems with
      | .error p => (.error p, w)
      | .ok sorted => (.ok (versions.withElems sorted, resp, none), w)

/-- The method `VersionConfig.Get`. -/
def Get (c : Client Req Resp Err Rd ω) (serviceID : GoString) (versionNumber : Nat) (w : ω) :
    (Option Version × Option Resp × Option Err) × ω :=
  let u := fmt.Sprintf "/service/%s/version/%d" [.str serviceID, .uint versionNumber]
  match c.NewRequest (ascii "GET") u none w with
  | ((_, some err), w) => ((none, none, some err), w)
  | ((req, none), w) =>
    let v := Version.zero
    match c.Do req .version v w with
    | ((_, resp, some err), w) => ((none, resp, some err), w)
    | ((v, resp, none), w) => ((some v, resp, none), w)

/-- The method `VersionConfig.Validate`. -/
def Validate (c : Client Req Resp Err Rd ω) (serviceID : GoString) (versionNumber : Nat)
    (w : ω) : (Option Resp × Option Err) × ω :=
  let u := fmt.Sprintf "/service/%s/version/%d/validate" [.str serviceID, .uint versionNumber]
  match c.NewRequest (ascii "GET") u none w with
  | ((_, some err), w) => ((none, some err), w)
  | ((req, none), w) =>
    match c.Do req .nil () w with
    | ((_, resp, some err), w) => ((resp, some err), w)
    | ((_, resp, none), w) => ((resp, none), w)

/-- The method `VersionConfig.Activate`. -/
def Activate (c : Client Req Resp Err Rd ω) (serviceID : GoString) (versionNumber : Nat)
    (w : ω) : (Option Version × Option Resp × Option Err) × ω :=
  let u := fmt.Sprintf "/service/%s/version/%d/activate" [.str serviceID, .uint versionNumber]
  match c.NewRequest (ascii "PUT") u none w with
  | ((_, some err), w) => ((none, none, some err), w)
  | ((req, none), w) =>
    let version := Version.zero
    match c.Do req .version version w with
    | ((_, resp, some err), w) => ((none, resp, some err), w)
    | ((version, resp, none), w) => ((some version, resp, none), w)

/-- The method `VersionConfig.Deactivate`. -/
def Deactivate (c : Client Req Resp Err Rd ω) (serviceID : GoString) (versionNumber : Nat)
    (w : ω) : (Option Version × Option Resp × Option Err) × ω :=
  let u := fmt.Sprintf "/service/%s/version/%d/deactivate"
    [.str serviceID, .uint versionNumber]
  match c.NewRequest (ascii "PUT") u none w with
  | ((_, some err), w) => ((none, none, some err), w)
  | ((req, none), w) =>
    let version := Version.zero
    match c.Do req .version version w with
    | ((_, resp, some err), w) => ((none, resp, some err), w)
    | ((version, resp, none), w) => ((some version, resp, none), w)

/-- The method `VersionConfig.Clone`. -/
def Clone (c : Client Req Resp Err Rd ω) (serviceID : GoString) (versionNumber : Nat)
    (w : ω) : (Option Version × Option Resp × Option Err) × ω :=
  let u := fmt.Sprintf "/service/%s/version/%d/clone" [.str serviceID, .uint versionNumber]
  match c.NewRequest (ascii "PUT") u none w with
  | ((_, some err), w) => ((none, none, some err), w)
  | ((req, none), w) =>
    let version := Version.zero
    match c.Do req .version version w with
    | ((_, resp, some err), w) => ((none, resp, some err), w)
    | ((version, resp, none), w) => ((some version, resp, none), w)

/-- The method `VersionConfig.Lock`. -/
def Lock (c : Client Req Resp Err Rd ω) (serviceID : GoString) (versionNumber : Nat)
    (w : ω) : (Option Version × Option Resp × Option Err) × ω :=
  let u := fmt.Sprintf "/service/%s/version/%d/lock" [.str serviceID, .uint versionNumber]
  match c.NewRequest (ascii "PUT") u none w with
  | ((_, some err), w) => ((none, none, some err), w)
  | ((req, none), w) =>
    let version := Version.zero
    match c.Do req .version version w with
    | ((_, resp, some err), w) => ((none, resp, some err), w)
    | ((version, resp, none), w) => ((some version, resp, none), w)

/-- The method `VersionConfig.Create`. -/
def Create (c : Client Req Resp Err Rd ω) (serviceID : GoString) (w : ω) :
    (Option Version × Option Resp × Option Err) × ω :=
  let u := fmt.Sprintf "/service/%s/version" [.str serviceID]
  match c.NewRequest (ascii "POST") u none w with
  | ((_, some err), w) => ((none, none, some err), w)
  | ((req, none), w) =>
    let version := Version.zero
    match c.Do req .version version w with
    | ((_, resp, some err), w) => ((none, resp, some err), w)
    | ((version, resp, none), w) => ((some version, resp, none), w)

/-- The method `VersionConfig.Update`. -/
def Update (c : Client Req Resp Err Rd ω) (serviceID : GoString) (versionNumber : Nat)
    (version : Option Version) (w : ω) : (Option Version × Option Resp × Option Err) × ω :=
  let u := fmt.Sprintf "/service/%s/version/%d" [.str serviceID, .uint versionNumber]
  match c.NewJSONRequest (ascii "PUT") u (.version version) w with
  | ((_, some err), w) => ((none, none, some err), w)
  | ((req, none), w) =>
    let b := Version.zero
    match c.Do req .version b w with
    | ((_, resp, some err), w) => ((none, resp, some err), w)
    | ((b, resp, none), w) => ((some b, resp, none), w)

end VersionConfig

end Operations

/-! ## Vocabulary of the statements -/

section Vocabulary

variable {Req Resp Err Rd ω : Type}

/-- The request of an event: the one a builder returned, or the one handed to `Do`. -/
def Event.req : Event Req Resp Err Rd → Option Req
  | .NewRequest _ _ _ req _ => req
  | .NewJSONRequest _ _ _ req _ => req
  | .Do req _ _ _ _ _ => req

/-- The error a call returned. -/
def Event.err : Event Req Resp Err Rd → Option Err
  | .NewRequest _ _ _ _ err => err
  | .NewJSONRequest _ _ _ _ err => err
  | .Do _ _ _ _ _ err => err

/-- The log of a single attempt: one builder call, followed, exactly when the builder
returned no error, by one transport call on the request the builder returned. -/
def SingleAttempt (log : List (Event Req Resp Err Rd)) : Prop :=
  ∃ b, b.isBuild = true ∧
    ((b.err ≠ none ∧ log = [b]) ∨
     (b.err = none ∧ ∃ d, d.isDo = true ∧ d.req = b.req ∧ log = [b, d]))

/-- The run of a method that decodes one record, on the recording client started with an
empty log, computed from what the builder (`b`) and the transport (`d`) returned; `ev` is
the builder event without its results. -/
def recordRun (ev : Option Req → Option Err → Event Req Resp Err Rd) (k : Kind) (v : k.Pointee)
    (b : (Option Req × Option Err) × ω) (d : (k.Pointee × Option Resp × Option Err) × ω) :
    (Option k.Pointee × Option Resp × Option Err) × (ω × List (Event Req Resp Err Rd)) :=
  match b.1.2 with
  | some e => ((none, none, some e), (b.2, [ev b.1.1 (some e)]))
  | none =>
    match d.1.2.2 with
    | some e => ((none, d.1.2.1, some e),
        (d.2, [ev b.1.1 none, Event.Do b.1.1 k v d.1.1 d.1.2.1 (some e)]))
    | none => ((some d.1.1, d.1.2.1, none),
        (d.2, [ev b.1.1 none, Event.Do b.1.1 k v d.1.1 d.1.2.1 none]))

/-- The run of a method that decodes nothing (`Delete`, `Validate`), as `recordRun`. -/
def statusRun (ev : Option Req → Option Err → Event Req Resp Err Rd)
    (b : (Option Req × Option Err) × ω) (d : (Unit × Option Resp × Option Err) × ω) :
    (Option Resp × Option Err) × (ω × List (Event Req Resp Err Rd)) :=
  match b.1.2 with
  | some e => ((none, some e), (b.2, [ev b.1.1 (some e)]))
  | none => ((d.1.2.1, d.1.2.2),
      (d.2, [ev b.1.1 none, Event.Do b.1.1 .nil () d.1.1 d.1.2.1 d.1.2.2]))

/-- The run of a `List` method, as `recordRun`; `srt` is the in-place sort of the decoded
slice, `nilSlice` the nil slice returned with an error. -/
def listRun (ev : Option Req → Option Err → Event Req Resp Err Rd) (k : Kind) (v : k.Pointee)
    (nilSlice : k.Pointee) (srt : k.Pointee → Except Panic k.Pointee)
    (b : (Option Req × Option Err) × ω) (d : (k.Pointee × Option Resp × Option Err) × ω) :
    Except Panic (k.Pointee × Option Resp × Option Err) × (ω × List (Event Req Resp Err Rd)) :=
  match b.1.2 with
  | some e => (.ok (nilSlice, none, some e), (b.2, [ev b.1.1 (some e)]))
  | none =>
    match d.1.2.2 with
    | some e => (.ok (nilSlice, d.1.2.1, some e),
        (d.2, [ev b.1.1 none, Event.Do b.1.1 k v d.1.1 d.1.2.1 (some e)]))
    | none =>
      (match srt d.1.1 with
        | .error p => .error p
        | .ok sorted => .ok (sorted, d.1.2.1, none),
       (d.2, [ev b.1.1 none, Event.Do b.1.1 k v d.1.1 d.1.2.1 none]))

/-- The in-place stable sort of a slice of pointers: the header is kept, the elements
are rearranged. -/
def sortSlice {α : Type} (data : sort.Interface (List α)) (s : Slice α) :
    Except Panic (Slice α) :=
  match sort.Stable data s.elems with
  | .error p => .error p
  | .ok sorted => .ok (s.withElems sorted)

/-- The result and final world of a run on the recording client, without the log. -/
def unlogged {ρ : Type} (r : ρ × (ω × List (Event Req Resp Err Rd))) : ρ × ω := (r.1, r.2.1)

end Vocabulary

section Vocabulary2

variable {Req Resp Err Rd : Type}

/-- The function `ev` makes builder events out of a builder's results. -/
def IsBuilder (ev : Option Req → Option Err → Event Req Resp Err Rd) : Prop :=
  ∀ r e, (ev r e).isBuild = true ∧ (ev r e).isDo = false ∧ (ev r e).req = r ∧ (ev r e).err = e

/-- The URL of the request the log starts with: the `urlStr` argument of its first
event when that is a call of a request builder. -/
def requestedURL (log : List (Event Req Resp Err Rd)) : Option GoString :=
  match log.head? with
  | some (.NewRequest _ urlStr _ _ _) => some urlStr
  | some (.NewJSONRequest _ urlStr _ _ _) => some urlStr
  | _ => none

/-- The log consists of the builder call `first` and of at most one transport call, made
with the request the builder returned and with the target `v` of kind `k`. -/
def LogIs (log : List (Event Req Resp Err Rd))
    (first : Option Req → Option Err → Event Req Resp Err Rd) (k : Kind) (v : k.Pointee) : Prop :=
  ∃ req err, log = [first req err] ∨
    ∃ out resp err2, log = [first req err, Event.Do req k v out resp err2]

end Vocabulary2

/-! ## Concrete clients -/

/-- A client whose request builders succeed and whose transport returns response `2`
with error `3`, leaving the target as it was. -/
def failingTransport : Client Nat Nat Nat Nat Unit where
  NewRequest _ _ _ w := ((some 1, none), w)
  NewJSONRequest _ _ _ w := ((some 1, none), w)
  Do _ _ v w := ((v, some 2, some 3), w)

/-- A client whose request builders return the error `4`. -/
def failingBuilder : Client Nat Nat Nat Nat Unit where
  NewRequest _ _ _ w := ((none, some 4), w)
  NewJSONRequest _ _ _ w := ((none, some 4), w)
  Do _ _ v w := ((v, none, none), w)

/-! ## Vocabulary of the sorting statements -/

section SortVocabulary

variable {ε κ : Type}

/-- The list `out` is the list `inp` stably sorted by the key `k`: a permutation of it,
with keys non-decreasing along it, in which the elements of each key appear in the same
order as in `inp`. -/
def StableSorted [LinearOrder κ] (k : ε → κ) (out inp : List ε) : Prop :=
  out.Perm inp ∧ out.Pairwise (fun x y => k x ≤ k y) ∧
    ∀ c : κ, out.filter (fun x => decide (k x = c)) = inp.filter (fun x => decide (k x = c))

/-- The interface `data` is a slice ordered by the key `k`: `Len` is the length, `Swap`
exchanges two elements that exist, and `Less` compares the keys of two elements that exist
and are `good` (can be dereferenced). -/
structure ListModel [LinearOrder κ] (data : sort.Interface (List ε)) (k : ε → κ)
    (good : ε → Prop) : Prop where
  len : ∀ s, data.Len s = s.length
  swap : ∀ s i j x y, s[i]? = some x → s[j]? = some y →
    data.Swap s i j = .ok ((s.set i y).set j x)
  less : ∀ s i j x y, s[i]? = some x → s[j]? = some y → good x → good y →
    data.Less s i j = .ok (decide (k x < k y))

/-- The elements with indexes `p` and `q` exist and the key of the first is smaller. -/
def LtAt [LinearOrder κ] (k : ε → κ) (s : List ε) (p q : Nat) : Prop :=
  ∃ x y, s[p]? = some x ∧ s[q]? = some y ∧ k x < k y

/-- The elements with indexes `p` and `q` exist and the key of the first is not larger. -/
def LeAt [LinearOrder κ] (k : ε → κ) (s : List ε) (p q : Nat) : Prop :=
  ∃ x y, s[p]? = some x ∧ s[q]? = some y ∧ k x ≤ k y

/-- The lists `cur` and `orig` are cut into the same blocks of `bs` elements (the last one
may be shorter), and every block of `cur` is the block of `orig` stably sorted. -/
inductive Blocked [LinearOrder κ] (k : ε → κ) (bs : Nat) : List ε → List ε → Prop where
  | last (c o : List ε) : c.length ≤ bs → StableSorted k c o → Blocked k bs c o
  | cons (c o cs os : List ε) : c.length = bs → StableSorted k c o → Blocked k bs cs os →
      Blocked k bs (c ++ cs) (o ++ os)

end SortVocabulary

section PointerKeys

/-- The sort key of a pointer: the key of the record it points to, `d` for the nil
pointer (which has no key: comparing it panics). -/
def ptrKey {ρ κ : Type} (key : ρ → κ) (d : κ) : Option ρ → κ
  | some r => key r
  | none => d

/-- A client whose transport decodes, for `BigQueryConfig.List`, three records named
`b`, `a`, `b` (the two `b` told apart by their `Format`), and for `VersionConfig.List`
nothing. -/
def babClient : Client Nat Nat Nat Nat Unit where
  NewRequest _ _ _ w := ((some 1, none), w)
  NewJSONRequest _ _ _ w := ((some 1, none), w)
  Do _ k v w :=
    match k, v with
    | .bigQueries, _ =>
      ((some [some { BigQuery.zero with Name := ascii "b", Format := ascii "first" },
              some { BigQuery.zero with Name := ascii "a" },
              some { BigQuery.zero with Name := ascii "b", Format := ascii "second" }],
        some 2, none), w)
    | _, v => ((v, some 2, none), w)

/-- A client whose transport decodes, for `BigQueryConfig.List`, a record followed by a
nil pointer (the JSON array `[{"name":"a"}, null]`). -/
def nilElementClient : Client Nat Nat Nat Nat Unit where
  NewRequest _ _ _ w := ((some 1, none), w)
  NewJSONRequest _ _ _ w := ((some 1, none), w)
  Do _ k v w :=
    match k, v with
    | .bigQueries, _ =>
      ((some [some { BigQuery.zero with Name := ascii "a" }, none], some 2, none), w)
    | _, v => ((v, some 2, none), w)

end PointerKeys

/-! ## Paths: what `fmt.Sprintf` builds for each format of the two files -/

section Paths

theorem path_bigquery_collection (serviceID : GoString) (version : Nat) :
    fmt.Sprintf "/service/%s/version/%d/logging/bigquery"
        [.str serviceID, .uint version] =
      ascii "/service/" ++ serviceID ++ ascii "/version/" ++ decimal version
        ++ ascii "/logging/bigquery" := by
  have h : fmt.Sprintf "/service/%s/version/%d/logging/bigquery"
        [.str serviceID, .uint version] =
      ascii "/service/" ++ (serviceID ++ (ascii "/version/" ++ (decimal version ++ ascii "/logging/bigquery"))) := rfl
  simpa only [List.append_assoc, List.append_nil] using h

theorem path_bigquery_item (serviceID : GoString) (version : Nat) (name : GoString) :
    fmt.Sprintf "/service/%s/version/%d/logging/bigquery/%s"
        [.str serviceID, .uint version, .str name] =
      ascii "/service/" ++ serviceID ++ ascii "/version/" ++ decimal version
        ++ ascii "/logging/bigquery/" ++ name := by
  have h : fmt.Sprintf "/service/%s/version/%d/logging/bigquery/%s"
        [.str serviceID, .uint version, .str name] =
      ascii "/service/" ++ (serviceID ++ (ascii "/version/" ++ (decimal version ++ (ascii "/logging/bigquery/" ++ (name ++ []))))) := rfl
  simpa only [List.append_assoc, List.append_nil] using h

theorem path_versions (serviceID : GoString) :
    fmt.Sprintf "/service/%s/version"
        [.str serviceID] =
      ascii "/service/" ++ serviceID ++ ascii "/version" := by
  have h : fmt.Sprintf "/service/%s/version"
        [.str serviceID] =
      ascii "/service/" ++ (serviceID ++ ascii "/version") := rfl
  simpa only [List.append_assoc, List.append_nil] using h

theorem path_version (serviceID : GoString) (versionNumber : Nat) :
    fmt.Sprintf "/service/%s/version/%d"
        [.str serviceID, .uint versionNumber] =
      ascii "/service/" ++ serviceID ++ ascii "/version/" ++ decimal versionNumber := by
  have h : fmt.Sprintf "/service/%s/version/%d"
        [.str serviceID, .uint versionNumber] =
      ascii "/service/" ++ (serviceID ++ (ascii "/version/" ++ (decimal versionNumber ++ []))) := rfl
  simpa only [List.append_assoc, List.append_nil] using h

theorem path_version_validate (serviceID : GoString) (versionNumber : Nat) :
    fmt.Sprintf "/service/%s/version/%d/validate"
        [.str serviceID, .uint versionNumber] =
      ascii "/service/" ++ serviceID ++ ascii "/version/" ++ decimal versionNumber
        ++ ascii "/validate" := by
  have h : fmt.Sprintf "/service/%s/version/%d/validate"
        [.str serviceID, .uint versionNumber] =
      ascii "/service/" ++ (serviceID ++ (ascii "/version/" ++ (decimal versionNumber ++ ascii "/validate"))) := rfl
  simpa only [List.append_assoc, List.append_nil] using h

theorem path_version_activate (serviceID : GoString) (versionNumber : Nat) :
    fmt.Sprintf "/service/%s/version/%d/activate"
        [.str serviceID, .uint versionNumber] =
      ascii "/service/" ++ serviceID ++ ascii "/version/" ++ decimal versionNumber
        ++ ascii "/activate" := by
  have h : fmt.Sprintf "/service/%s/version/%d/activate"
        [.str serviceID, .uint versionNumber] =
      ascii "/service/" ++ (serviceID ++ (ascii "/version/" ++ (decimal versionNumber ++ ascii "/activate"))) := rfl
  simpa only [List.append_assoc, List.append_nil] using h

theorem path_version_deactivate (serviceID : GoString) (versionNumber : Nat) :
    fmt.Sprintf "/service/%s/version/%d/deactivate"
        [.str serviceID, .uint versionNumber] =
      ascii "/service/" ++ serviceID ++ ascii "/version/" ++ decimal versionNumber
        ++ ascii "/deactivate" := by
  have h : fmt.Sprintf "/service/%s/version/%d/deactivate"
        [.str serviceID, .uint versionNumber] =
      ascii "/service/" ++ (serviceID ++ (ascii "/version/" ++ (decimal versionNumber ++ ascii "/deactivate"))) := rfl
  simpa only [List.append_assoc, List.append_nil] using h

theorem path_version_clone (serviceID : GoString) (versionNumber : Nat) :
    fmt.Sprintf "/service/%s/version/%d/clone"
        [.str serviceID, .uint versionNumber] =
      ascii "/service/" ++ serviceID ++ ascii "/version/" ++ decimal versionNumber
        ++ ascii "/clone" := by
  have h : fmt.Sprintf "/service/%s/version/%d/clone"
        [.str serviceID, .uint versionNumber] =
      ascii "/service/" ++ (serviceID ++ (ascii "/version/" ++ (decimal versionNumber ++ ascii "/clone"))) := rfl
  simpa only [List.append_assoc, List.append_nil] using h

theorem path_version_lock (serviceID : GoString) (versionNumber : Nat) :
    fmt.Sprintf "/service/%s/version/%d/lock"
        [.str serviceID, .uint versionNumber] =
      ascii "/service/" ++ serviceID ++ ascii "/version/" ++ decimal versionNumber
        ++ ascii "/lock" := by
  have h : fmt.Sprintf "/service/%s/version/%d/lock"
        [.str serviceID, .uint versionNumber] =
      ascii "/service/" ++ (serviceID ++ (ascii "/version/" ++ (decimal versionNumber ++ ascii "/lock"))) := rfl
  simpa only [List.append_assoc, List.append_nil] using h

end Paths

/-! ## The run of each method on the recording client -/

section Runs

variable {Req Resp Err Rd ω : Type}

theorem run_BigQueryConfig_List (c : Client Req Resp Err Rd ω) (serviceID : GoString) (version : Nat) (w : ω) :
    ∃ b d,
      b = c.NewRequest (ascii "GET")
          (ascii "/service/" ++ serviceID ++ ascii "/version/" ++ decimal version
              ++ ascii "/logging/bigquery") none w ∧
      d = c.Do b.1.1 .bigQueries none b.2 ∧
      BigQueryConfig.List c.traced serviceID version (w, []) =
        listRun (Event.NewRequest (ascii "GET")
          (ascii "/service/" ++ serviceID ++ ascii "/version/" ++ decimal version
              ++ ascii "/logging/bigquery") none)
          .bigQueries none none (sortSlice bqsByName) b d ∧
      BigQueryConfig.List c serviceID version w = unlogged (BigQueryConfig.List c.traced serviceID version (w, [])) := by
  refine ⟨_, _, rfl, rfl, ?_, ?_⟩ <;>
  · simp only [BigQueryConfig.List, path_bigquery_collection, Client.traced, recordRun, statusRun, listRun,
      sortSlice, unlogged]
    generalize c.NewRequest _ _ _ w = b
    obtain ⟨⟨req, _ | e1⟩, w1⟩ := b
    · simp only []
      generalize c.Do req _ _ w1 = d
      obtain ⟨⟨t, r1, _ | e2⟩, w2⟩ := d
      · simp only []
        cases sort.Stable _ (Slice.elems t) <;> rfl
      · rfl
    · rfl

theorem run_BigQueryConfig_Get (c : Client Req Resp Err Rd ω) (serviceID : GoString) (version : Nat) (name : GoString) (w : ω) :
    ∃ b d,
      b = c.NewRequest (ascii "GET")
          (ascii "/service/" ++ serviceID ++ ascii "/version/" ++ decimal version
              ++ ascii "/logging/bigquery/" ++ name) none w ∧
      d = c.Do b.1.1 .bigQuery BigQuery.zero b.2 ∧
      BigQueryConfig.Get c.traced serviceID version name (w, []) =
        recordRun (Event.NewRequest (ascii "GET")
          (ascii "/service/" ++ serviceID ++ ascii "/version/" ++ decimal version
              ++ ascii "/logging/bigquery/" ++ name) none)
          .bigQuery BigQuery.zero b d ∧
      BigQueryConfig.Get c serviceID version name w = unlogged (BigQueryConfig.Get c.traced serviceID version name (w, [])) := by
  refine ⟨_, _, rfl, rfl, ?_, ?_⟩ <;>
  · simp only [BigQueryConfig.Get, path_bigquery_item, Client.traced, recordRun, statusRun, listRun,
      sortSlice, unlogged]
    generalize c.NewRequest _ _ _ w = b
    obtain ⟨⟨req, _ | e1⟩, w1⟩ := b
    · simp only []
      generalize c.Do req _ _ w1 = d
      obtain ⟨⟨t, r1, _ | e2⟩, w2⟩ := d <;> rfl
    · rfl

theorem run_BigQueryConfig_Create (c : Client Req Resp Err Rd ω) (serviceID : GoString) (version : Nat) (bq : Option BigQuery) (w : ω) :
    ∃ b d,
      b = c.NewJSONRequest (ascii "POST")
          (ascii "/service/" ++ serviceID ++ ascii "/version/" ++ decimal version
              ++ ascii "/logging/bigquery") (.bigQuery bq) w ∧
      d = c.Do b.1.1 .bigQuery BigQuery.zero b.2 ∧
      BigQueryConfig.Create c.traced serviceID version bq (w, []) =
        recordRun (Event.NewJSONRequest (ascii "POST")
          (ascii "/service/" ++ serviceID ++ ascii "/version/" ++ decimal version
              ++ ascii "/logging/bigquery") (.bigQuery bq))
          .bigQuery BigQuery.zero b d ∧
      BigQueryConfig.Create c serviceID version bq w = unlogged (BigQueryConfig.Create c.traced serviceID version bq (w, [])) := by
  refine ⟨_, _, rfl, rfl, ?_, ?_⟩ <;>
  · simp only [BigQueryConfig.Create, path_bigquery_collection, Client.traced, recordRun, statusRun, listRun,
      sortSlice, unlogged]
    generalize c.NewJSONRequest _ _ _ w = b
    obtain ⟨⟨req, _ | e1⟩, w1⟩ := b
    · simp only []
      generalize c.Do req _ _ w1 = d
      obtain ⟨⟨t, r1, _ | e2⟩, w2⟩ := d <;> rfl
    · rfl

theorem run_BigQueryConfig_Update (c : Client Req Resp Err Rd ω) (serviceID : GoString) (version : Nat) (name : GoString) (bq : Option BigQuery) (w : ω) :
    ∃ b d,
      b = c.NewJSONRequest (ascii "PUT")
          (ascii "/service/" ++ serviceID ++ ascii "/version/" ++ decimal version
              ++ ascii "/logging/bigquery/" ++ name) (.bigQuery bq) w ∧
      d = c.Do b.1.1 .bigQuery BigQuery.zero b.2 ∧
      BigQueryConfig.Update c.traced serviceID version name bq (w, []) =
        recordRun (Event.NewJSONRequest (ascii "PUT")
          (ascii "/service/" ++ serviceID ++ ascii "/version/" ++ decimal version
              ++ ascii "/logging/bigquery/" ++ name) (.bigQuery bq))
          .bigQuery BigQuery.zero b d ∧
      BigQueryConfig.Update c serviceID version name bq w = unlogged (BigQueryConfig.Update c.traced serviceID version name bq (w, [])) := by
  refine ⟨_, _, rfl, rfl, ?_, ?_⟩ <;>
  · simp only [BigQueryConfig.Update, path_bigquery_item, Client.traced, recordRun, statusRun, listRun,
      sortSlice, unlogged]
    generalize c.NewJSONRequest _ _ _ w = b
    obtain ⟨⟨req, _ | e1⟩, w1⟩ := b
    · simp only []
      generalize c.Do req _ _ w1 = d
      obtain ⟨⟨t, r1, _ | e2⟩, w2⟩ := d <;> rfl
    · rfl

theorem run_BigQueryConfig_Delete (c : Client Req Resp Err Rd ω) (serviceID : GoString) (version : Nat) (name : GoString) (w : ω) :
    ∃ b d,
      b = c.NewRequest (ascii "DELETE")
          (ascii "/service/" ++ serviceID ++ ascii "/version/" ++ decimal version
              ++ ascii "/logging/bigquery/" ++ name) none w ∧
      d = c.Do b.1.1 .nil () b.2 ∧
      BigQueryConfig.Delete c.traced serviceID version name (w, []) =
        statusRun (Event.NewRequest (ascii "DELETE")
          (ascii "/service/" ++ serviceID ++ ascii "/version/" ++ decimal version
              ++ ascii "/logging/bigquery/" ++ name) none) b d ∧
      BigQueryConfig.Delete c serviceID version name w = unlogged (BigQueryConfig.Delete c.traced serviceID version name (w, [])) := by
  refine ⟨_, _, rfl, rfl, ?_, ?_⟩ <;>
  · simp only [BigQueryConfig.Delete, path_bigquery_item, Client.traced, recordRun, statusRun, listRun,
      sortSlice, unlogged]
    generalize c.NewRequest _ _ _ w = b
    obtain ⟨⟨req, _ | e1⟩, w1⟩ := b
    · simp only []
      generalize c.Do req _ _ w1 = d
      obtain ⟨⟨t, r1, _ | e2⟩, w2⟩ := d <;> rfl
    · rfl

theorem run_VersionConfig_List (c : Client Req Resp Err Rd ω) (serviceID : GoString) (w : ω) :
    ∃ b d,
      b = c.NewRequest (ascii "GET")
          (ascii "/service/" ++ serviceID ++ ascii "/version") none w ∧
      d = c.Do b.1.1 .versions none b.2 ∧
      VersionConfig.List c.traced serviceID (w, []) =
        listRun (Event.NewRequest (ascii "GET")
          (ascii "/service/" ++ serviceID ++ ascii "/version") none)
          .versions none none (sortSlice versionsByNumber) b d ∧
      VersionConfig.List c serviceID w = unlogged (VersionConfig.List c.traced serviceID (w, [])) := by
  refine ⟨_, _, rfl, rfl, ?_, ?_⟩ <;>
  · simp only [VersionConfig.List, path_versions, Client.traced, recordRun, statusRun, listRun,
      sortSlice, unlogged]
    generalize c.NewRequest _ _ _ w = b
    obtain ⟨⟨req, _ | e1⟩, w1⟩ := b
    · simp only []
      generalize c.Do req _ _ w1 = d
      obtain ⟨⟨t, r1, _ | e2⟩, w2⟩ := d
      · simp only []
        cases sort.Stable _ (Slice.elems t) <;> rfl
      · rfl
    · rfl

theorem run_VersionConfig_Get (c : Client Req Resp Err Rd ω) (serviceID : GoString) (versionNumber : Nat) (w : ω) :
    ∃ b d,
      b = c.NewRequest (ascii "GET")
          (ascii "/service/" ++ serviceID ++ ascii "/version/" ++ decimal versionNumber) none w ∧
      d = c.Do b.1.1 .version Version.zero b.2 ∧
      VersionConfig.Get c.traced serviceID versionNumber (w, []) =
        recordRun (Event.NewRequest (ascii "GET")
          (ascii "/service/" ++ serviceID ++ ascii "/version/" ++ decimal versionNumber) none)
          .version Version.zero b d ∧
      VersionConfig.Get c serviceID versionNumber w = unlogged (VersionConfig.Get c.traced serviceID versionNumber (w, [])) := by
  refine ⟨_, _, rfl, rfl, ?_, ?_⟩ <;>
  · simp only [VersionConfig.Get, path_version, Client.traced, recordRun, statusRun, listRun,
      sortSlice, unlogged]
    generalize c.NewRequest _ _ _ w = b
    obtain ⟨⟨req, _ | e1⟩, w1⟩ := b
    · simp only []
      generalize c.Do req _ _ w1 = d
      obtain ⟨⟨t, r1, _ | e2⟩, w2⟩ := d <;> rfl
    · rfl

theorem run_VersionConfig_Validate (c : Client Req Resp Err Rd ω) (serviceID : GoString) (versionNumber : Nat) (w : ω) :
    ∃ b d,
      b = c.NewRequest (ascii "GET")
          (ascii "/service/" ++ serviceID ++ ascii "/version/" ++ decimal versionNumber
              ++ ascii "/validate") none w ∧
      d = c.Do b.1.1 .nil () b.2 ∧
      VersionConfig.Validate c.traced serviceID versionNumber (w, []) =
        statusRun (Event.NewRequest (ascii "GET")
          (ascii "/service/" ++ serviceID ++ ascii "/version/" ++ decimal versionNumber
              ++ ascii "/validate") none) b d ∧
      VersionConfig.Validate c serviceID versionNumber w = unlogged (VersionConfig.Validate c.traced serviceID versionNumber (w, [])) := by
  refine ⟨_, _, rfl, rfl, ?_, ?_⟩ <;>
  · simp only [VersionConfig.Validate, path_version_validate, Client.traced, recordRun, statusRun, listRun,
      sortSlice, unlogged]
    generalize c.NewRequest _ _ _ w = b
    obtain ⟨⟨req, _ | e1⟩, w1⟩ := b
    · simp only []
      generalize c.Do req _ _ w1 = d
      obtain ⟨⟨t, r1, _ | e2⟩, w2⟩ := d <;> rfl
    · rfl

theorem run_VersionConfig_Activate (c : Client Req Resp Err Rd ω) (serviceID : GoString) (versionNumber : Nat) (w : ω) :
    ∃ b d,
      b = c.NewRequest (ascii "PUT")
          (ascii "/service/" ++ serviceID ++ ascii "/version/" ++ decimal versionNumber
              ++ ascii "/activate") none w ∧
      d = c.Do b.1.1 .version Version.zero b.2 ∧
      VersionConfig.Activate c.traced serviceID versionNumber (w, []) =
        recordRun (Event.NewRequest (ascii "PUT")
          (ascii "/service/" ++ serviceID ++ ascii "/version/" ++ decimal versionNumber
              ++ ascii "/activate") none)
          .version Version.zero b d ∧
      VersionConfig.Activate c serviceID versionNumber w = unlogged (VersionConfig.Activate c.traced serviceID versionNumber (w, [])) := by
  refine ⟨_, _, rfl, rfl, ?_, ?_⟩ <;>
  · simp only [VersionConfig.Activate, path_version_activate, Client.traced, recordRun, statusRun, listRun,
      sortSlice, unlogged]
    generalize c.NewRequest _ _ _ w = b
    obtain ⟨⟨req, _ | e1⟩, w1⟩ := b
    · simp only []
      generalize c.Do req _ _ w1 = d
      obtain ⟨⟨t, r1, _ | e2⟩, w2⟩ := d <;> rfl
    · rfl

theorem run_VersionConfig_Deactivate (c : Client Req Resp Err Rd ω) (serviceID : GoString) (versionNumber : Nat) (w : ω) :
    ∃ b d,
      b = c.NewRequest (ascii "PUT")
          (ascii "/service/" ++ serviceID ++ ascii "/version/" ++ decimal versionNumber
              ++ ascii "/deactivate") none w ∧
      d = c.Do b.1.1 .version Version.zero b.2 ∧
      VersionConfig.Deactivate c.traced serviceID versionNumber (w, []) =
        recordRun (Event.NewRequest (ascii "PUT")
          (ascii "/service/" ++ serviceID ++ ascii "/version/" ++ decimal versionNumber
              ++ ascii "/deactivate") none)
          .version Version.zero b d ∧
      VersionConfig.Deactivate c serviceID versionNumber w = unlogged (VersionConfig.Deactivate c.traced serviceID versionNumber (w, [])) := by
  refine ⟨_, _, rfl, rfl, ?_, ?_⟩ <;>
  · simp only [VersionConfig.Deactivate, path_version_deactivate, Client.traced, recordRun, statusRun, listRun,
      sortSlice, unlogged]
    generalize c.NewRequest _ _ _ w = b
    obtain ⟨⟨req, _ | e1⟩, w1⟩ := b
    · simp only []
      generalize c.Do req _ _ w1 = d
      obtain ⟨⟨t, r1, _ | e2⟩, w2⟩ := d <;> rfl
    · rfl

theorem run_VersionConfig_Clone (c : Client Req Resp Err Rd ω) (serviceID : GoString) (versionNumber : Nat) (w : ω) :
    ∃ b d,
      b = c.NewRequest (ascii "PUT")
          (ascii "/service/" ++ serviceID ++ ascii "/version/" ++ decimal versionNumber
              ++ ascii "/clone") none w ∧
      d = c.Do b.1.1 .version Version.zero b.2 ∧
      VersionConfig.Clone c.traced serviceID versionNumber (w, []) =
        recordRun (Event.NewRequest (ascii "PUT")
          (ascii "/service/" ++ serviceID ++ ascii "/version/" ++ decimal versionNumber
              ++ ascii "/clone") none)
          .version Version.zero b d ∧
      VersionConfig.Clone c serviceID versionNumber w = unlogged (VersionConfig.Clone c.traced serviceID versionNumber (w, [])) := by
  refine ⟨_, _, rfl, rfl, ?_, ?_⟩ <;>
  · simp only [VersionConfig.Clone, path_version_clone, Client.traced, recordRun, statusRun, listRun,
      sortSlice, unlogged]
    generalize c.NewRequest _ _ _ w = b
    obtain ⟨⟨req, _ | e1⟩, w1⟩ := b
    · simp only []
      generalize c.Do req _ _ w1 = d
      obtain ⟨⟨t, r1, _ | e2⟩, w2⟩ := d <;> rfl
    · rfl

theorem run_VersionConfig_Lock (c : Client Req Resp Err Rd ω) (serviceID : GoString) (versionNumber : Nat) (w : ω) :
    ∃ b d,
      b = c.NewRequest (ascii "PUT")
          (ascii "/service/" ++ serviceID ++ ascii "/version/" ++ decimal versionNumber
              ++ ascii "/lock") none w ∧
      d = c.Do b.1.1 .version Version.zero b.2 ∧
      VersionConfig.Lock c.traced serviceID versionNumber (w, []) =
        recordRun (Event.NewRequest (ascii "PUT")
          (ascii "/service/" ++ serviceID ++ ascii "/version/" ++ decimal versionNumber
              ++ ascii "/lock") none)
          .version Version.zero b d ∧
      VersionConfig.Lock c serviceID versionNumber w = unlogged (VersionConfig.Lock c.traced serviceID versionNumber (w, [])) := by
  refine ⟨_, _, rfl, rfl, ?_, ?_⟩ <;>
  · simp only [VersionConfig.Lock, path_version_lock, Client.traced, recordRun, statusRun, listRun,
      sortSlice, unlogged]
    generalize c.NewRequest _ _ _ w = b
    obtain ⟨⟨req, _ | e1⟩, w1⟩ := b
    · simp only []
      generalize c.Do req _ _ w1 = d
      obtain ⟨⟨t, r1, _ | e2⟩, w2⟩ := d <;> rfl
    · rfl

theorem run_VersionConfig_Create (c : Client Req Resp Err Rd ω) (serviceID : GoString) (w : ω) :
    ∃ b d,
      b = c.NewRequest (ascii "POST")
          (ascii "/service/" ++ serviceID ++ ascii "/version") none w ∧
      d = c.Do b.1.1 .version Version.zero b.2 ∧
      VersionConfig.Create c.traced serviceID (w, []) =
        recordRun (Event.NewRequest (ascii "POST")
          (ascii "/service/" ++ serviceID ++ ascii "/version") none)
          .version Version.zero b d ∧
      VersionConfig.Create c serviceID w = unlogged (VersionConfig.Create c.traced serviceID (w, [])) := by
  refine ⟨_, _, rfl, rfl, ?_, ?_⟩ <;>
  · simp only [VersionConfig.Create, path_versions, Client.traced, recordRun, statusRun, listRun,
      sortSlice, unlogged]
    generalize c.NewRequest _ _ _ w = b
    obtain ⟨⟨req, _ | e1⟩, w1⟩ := b
    · simp only []
      generalize c.Do req _ _ w1 = d
      obtain ⟨⟨t, r1, _ | e2⟩, w2⟩ := d <;> rfl
    · rfl

theorem run_VersionConfig_Update (c : Client Req Resp Err Rd ω) (serviceID : GoString) (versionNumber : Nat) (version : Option Version) (w : ω) :
    ∃ b d,
      b = c.NewJSONRequest (ascii "PUT")
          (ascii "/service/" ++ serviceID ++ ascii "/version/" ++ decimal versionNumber) (.version version) w ∧
      d = c.Do b.1.1 .version Version.zero b.2 ∧
      VersionConfig.Update c.traced serviceID versionNumber version (w, []) =
        recordRun (Event.NewJSONRequest (ascii "PUT")
          (ascii "/service/" ++ serviceID ++ ascii "/version/" ++ decimal versionNumber) (.version version))
          .version Version.zero b d ∧
      VersionConfig.Update c serviceID versionNumber version w = unlogged (VersionConfig.Update c.traced serviceID versionNumber version (w, [])) := by
  refine ⟨_, _, rfl, rfl, ?_, ?_⟩ <;>
  · simp only [VersionConfig.Update, path_version, Client.traced, recordRun, statusRun, listRun,
      sortSlice, unlogged]
    generalize c.NewJSONRequest _ _ _ w = b
    obtain ⟨⟨req, _ | e1⟩, w1⟩ := b
    · simp only []
      generalize c.Do req _ _ w1 = d
      obtain ⟨⟨t, r1, _ | e2⟩, w2⟩ := d <;> rfl
    · rfl

end Runs

/-! ## What every run satisfies -/

section RunFacts

variable {Req Resp Err Rd ω : Type}

theorem isBuilder_NewRequest (method urlStr : GoString) (body : Option Rd) :
    IsBuilder (Event.NewRequest method urlStr body : _ → _ → Event Req Resp Err Rd) :=
  fun _ _ => ⟨rfl, rfl, rfl, rfl⟩

theorem isBuilder_NewJSONRequest (method urlStr : GoString) (body : JSONBody) :
    IsBuilder (Event.NewJSONRequest method urlStr body : _ → _ → Event Req Resp Err Rd) :=
  fun _ _ => ⟨rfl, rfl, rfl, rfl⟩

theorem recordRun_singleAttempt {ev : Option Req → Option Err → Event Req Resp Err Rd}
    (hev : IsBuilder ev) (k : Kind) (v : k.Pointee) (b : (Option Req × Option Err) × ω)
    (d : (k.Pointee × Option Resp × Option Err) × ω) :
    SingleAttempt (recordRun ev k v b d).2.2 ∧ LogIs (recordRun ev k v b d).2.2 ev k v := by
  obtain ⟨⟨req, _ | e1⟩, w1⟩ := b
  · obtain ⟨⟨t, r1, _ | e2⟩, w2⟩ := d
    · exact ⟨⟨ev req none, (hev _ _).1, Or.inr ⟨(hev _ _).2.2.2,
          Event.Do req k v t r1 none, rfl, (hev _ _).2.2.1.symm, rfl⟩⟩,
        ⟨req, none, Or.inr ⟨_, _, _, rfl⟩⟩⟩
    · exact ⟨⟨ev req none, (hev _ _).1, Or.inr ⟨(hev _ _).2.2.2,
          Event.Do req k v t r1 (some e2), rfl, (hev _ _).2.2.1.symm, rfl⟩⟩,
        ⟨req, none, Or.inr ⟨_, _, _, rfl⟩⟩⟩
  · refine ⟨⟨ev req (some e1), (hev _ _).1, Or.inl ⟨?_, rfl⟩⟩, ⟨req, some e1, Or.inl rfl⟩⟩
    rw [(hev _ _).2.2.2]; exact Option.some_ne_none _

theorem statusRun_singleAttempt {ev : Option Req → Option Err → Event Req Resp Err Rd}
    (hev : IsBuilder ev) (b : (Option Req × Option Err) × ω)
    (d : (Unit × Option Resp × Option Err) × ω) :
    SingleAttempt (statusRun ev b d).2.2 ∧ LogIs (statusRun ev b d).2.2 ev .nil () := by
  obtain ⟨⟨req, _ | e1⟩, w1⟩ := b
  · obtain ⟨⟨t, r1, e2⟩, w2⟩ := d
    exact ⟨⟨ev req none, (hev _ _).1, Or.inr ⟨(hev _ _).2.2.2,
        Event.Do req .nil () t r1 e2, rfl, (hev _ _).2.2.1.symm, rfl⟩⟩,
      ⟨req, none, Or.inr ⟨_, _, _, rfl⟩⟩⟩
  · refine ⟨⟨ev req (some e1), (hev _ _).1, Or.inl ⟨?_, rfl⟩⟩, ⟨req, some e1, Or.inl rfl⟩⟩
    rw [(hev _ _).2.2.2]; exact Option.some_ne_none _

theorem listRun_singleAttempt {ev : Option Req → Option Err → Event Req Resp Err Rd}
    (hev : IsBuilder ev) (k : Kind) (v nilSlice : k.Pointee)
    (srt : k.Pointee → Except Panic k.Pointee) (b : (Option Req × Option Err) × ω)
    (d : (k.Pointee × Option Resp × Option Err) × ω) :
    SingleAttempt (listRun ev k v nilSlice srt b d).2.2 ∧
      LogIs (listRun ev k v nilSlice srt b d).2.2 ev k v := by
  obtain ⟨⟨req, _ | e1⟩, w1⟩ := b
  · obtain ⟨⟨t, r1, _ | e2⟩, w2⟩ := d
    · exact ⟨⟨ev req none, (hev _ _).1, Or.inr ⟨(hev _ _).2.2.2,
          Event.Do req k v t r1 none, rfl, (hev _ _).2.2.1.symm, rfl⟩⟩,
        ⟨req, none, Or.inr ⟨_, _, _, rfl⟩⟩⟩
    · exact ⟨⟨ev req none, (hev _ _).1, Or.inr ⟨(hev _ _).2.2.2,
          Event.Do req k v t r1 (some e2), rfl, (hev _ _).2.2.1.symm, rfl⟩⟩,
        ⟨req, none, Or.inr ⟨_, _, _, rfl⟩⟩⟩
  · refine ⟨⟨ev req (some e1), (hev _ _).1, Or.inl ⟨?_, rfl⟩⟩, ⟨req, some e1, Or.inl rfl⟩⟩
    rw [(hev _ _).2.2.2]; exact Option.some_ne_none _

theorem requestedURL_recordRun_NewRequest (method urlStr : GoString) (body : Option Rd)
    (k : Kind) (v : k.Pointee) (b : (Option Req × Option Err) × ω)
    (d : (k.Pointee × Option Resp × Option Err) × ω) :
    requestedURL (recordRun (Event.NewRequest method urlStr body :
        _ → _ → Event Req Resp Err Rd) k v b d).2.2 = some urlStr := by
  obtain ⟨⟨req, _ | e1⟩, w1⟩ := b
  · obtain ⟨⟨t, r1, _ | e2⟩, w2⟩ := d <;> rfl
  · rfl

theorem requestedURL_recordRun_NewJSONRequest (method urlStr : GoString) (body : JSONBody)
    (k : Kind) (v : k.Pointee) (b : (Option Req × Option Err) × ω)
    (d : (k.Pointee × Option Resp × Option Err) × ω) :
    requestedURL (recordRun (Event.NewJSONRequest method urlStr body :
        _ → _ → Event Req Resp Err Rd) k v b d).2.2 = some urlStr := by
  obtain ⟨⟨req, _ | e1⟩, w1⟩ := b
  · obtain ⟨⟨t, r1, _ | e2⟩, w2⟩ := d <;> rfl
  · rfl

theorem requestedURL_statusRun_NewRequest (method urlStr : GoString) (body : Option Rd)
    (b : (Option Req × Option Err) × ω) (d : (Unit × Option Resp × Option Err) × ω) :
    requestedURL (statusRun (Event.NewRequest method urlStr body :
        _ → _ → Event Req Resp Err Rd) b d).2.2 = some urlStr := by
  obtain ⟨⟨req, _ | e1⟩, w1⟩ := b
  · rfl
  · rfl

end RunFacts

/-! ## Error propagation and single attempt -/

section Propagation

variable {Req Resp Err Rd ω : Type}


/-- Claim C2. In every operation of `BigQueryConfig` and `VersionConfig`, for every input:
when the request builder of the client returns no error and the transport `Do`, called on
the built request, returns the response `r` with a non-nil error `e`, the operation returns
exactly `e` as its error, exactly `r` as its response and a nil record or nil sequence,
whatever `Do` wrote into the decode target (`out`); `List` returns no decoded data. -/
theorem transport_error_returned (c : Client Req Resp Err Rd ω) (w : ω) (e : Err) :
    (∀ (serviceID : GoString) (version : Nat) (req : Option Req) (w1 : ω)
        (out : Slice (Option BigQuery)) (r : Option Resp) (w2 : ω),
      c.NewRequest (ascii "GET")
          (ascii "/service/" ++ serviceID ++ ascii "/version/" ++ decimal version
              ++ ascii "/logging/bigquery") none w = ((req, none), w1) →
      c.Do req .bigQueries none w1 = ((out, r, some e), w2) →
      BigQueryConfig.List c serviceID version w = (.ok (none, r, some e), w2)) ∧
    (∀ (serviceID : GoString) (version : Nat) (name : GoString) (req : Option Req) (w1 : ω)
        (out : BigQuery) (r : Option Resp) (w2 : ω),
      c.NewRequest (ascii "GET")
          (ascii "/service/" ++ serviceID ++ ascii "/version/" ++ decimal version
              ++ ascii "/logging/bigquery/" ++ name) none w = ((req, none), w1) →
      c.Do req .bigQuery BigQuery.zero w1 = ((out, r, some e), w2) →
      BigQueryConfig.Get c serviceID version name w = ((none, r, some e), w2)) ∧
    (∀ (serviceID : GoString) (version : Nat) (bq : Option BigQuery) (req : Option Req) (w1 : ω)
        (out : BigQuery) (r : Option Resp) (w2 : ω),
      c.NewJSONRequest (ascii "POST")
          (ascii "/service/" ++ serviceID ++ ascii "/version/" ++ decimal version
              ++ ascii "/logging/bigquery") (.bigQuery bq) w = ((req, none), w1) →
      c.Do req .bigQuery BigQuery.zero w1 = ((out, r, some e), w2) →
      BigQueryConfig.Create c serviceID version bq w = ((none, r, some e), w2)) ∧
    (∀ (serviceID : GoString) (version : Nat) (name : GoString) (bq : Option BigQuery) (req : Option Req) (w1 : ω)
        (out : BigQuery) (r : Option Resp) (w2 : ω),
      c.NewJSONRequest (ascii "PUT")
          (ascii "/service/" ++ serviceID ++ ascii "/version/" ++ decimal version
              ++ ascii "/logging/bigquery/" ++ name) (.bigQuery bq) w = ((req, none), w1) →
      c.Do req .bigQuery BigQuery.zero w1 = ((out, r, some e), w2) →
      BigQueryConfig.Update c serviceID version name bq w = ((none, r, some e), w2)) ∧
    (∀ (serviceID : GoString) (version : Nat) (name : GoString) (req : Option Req) (w1 : ω)
        (out : Unit) (r : Option Resp) (w2 : ω),
      c.NewRequest (ascii "DELETE")
          (ascii "/service/" ++ serviceID ++ ascii "/version/" ++ decimal version
              ++ ascii "/logging/bigquery/" ++ name) none w = ((req, none), w1) →
      c.Do req .nil () w1 = ((out, r, some e), w2) →
      BigQueryConfig.Delete c serviceID version name w = ((r, some e), w2)) ∧
    (∀ (serviceID : GoString) (req : Option Req) (w1 : ω)
        (out : Slice (Option Version)) (r : Option Resp) (w2 : ω),
      c.NewRequest (ascii "GET")
          (ascii "/service/" ++ serviceID ++ ascii "/version") none w = ((req, none), w1) →
      c.Do req .versions none w1 = ((out, r, some e), w2) →
      VersionConfig.List c serviceID w = (.ok (none, r, some e), w2)) ∧
    (∀ (serviceID : GoString) (versionNumber : Nat) (req : Option Req) (w1 : ω)
        (out : Version) (r : Option Resp) (w2 : ω),
      c.NewRequest (ascii "GET")
          (ascii "/service/" ++ serviceID ++ ascii "/version/" ++ decimal versionNumber) none w = ((req, none), w1) →
      c.Do req .version Version.zero w1 = ((out, r, some e), w2) →
      VersionConfig.Get c serviceID versionNumber w = ((none, r, some e), w2)) ∧
    (∀ (serviceID : GoString) (versionNumber : Nat) (req : Option Req) (w1 : ω)
        (out : Unit) (r : Option Resp) (w2 : ω),
      c.NewRequest (ascii "GET")
          (ascii "/service/" ++ serviceID ++ ascii "/version/" ++ decimal versionNumber
              ++ ascii "/validate") none w = ((req, none), w1) →
      c.Do req .nil () w1 = ((out, r, some e), w2) →
      VersionConfig.Validate c serviceID versionNumber w = ((r, some e), w2)) ∧
    (∀ (serviceID : GoString) (versionNumber : Nat) (req : Option Req) (w1 : ω)
        (out : Version) (r : Option Resp) (w2 : ω),
      c.NewRequest (ascii "PUT")
          (ascii "/service/" ++ serviceID ++ ascii "/version/" ++ decimal versionNumber
              ++ ascii "/activate") none w = ((req, none), w1) →
      c.Do req .version Version.zero w1 = ((out, r, some e), w2) →
      VersionConfig.Activate c serviceID versionNumber w = ((none, r, some e), w2)) ∧
    (∀ (serviceID : GoString) (versionNumber : Nat) (req : Option Req) (w1 : ω)
        (out : Version) (r : Option Resp) (w2 : ω),
      c.NewRequest (ascii "PUT")
          (ascii "/service/" ++ serviceID ++ ascii "/version/" ++ decimal versionNumber
              ++ ascii "/deactivate") none w = ((req, none), w1) →
      c.Do req .version Version.zero w1 = ((out, r, some e), w2) →
      VersionConfig.Deactivate c serviceID versionNumber w = ((none, r, some e), w2)) ∧
    (∀ (serviceID : GoString) (versionNumber : Nat) (req : Option Req) (w1 : ω)
        (out : Version) (r : Option Resp) (w2 : ω),
      c.NewRequest (ascii "PUT")
          (ascii "/service/" ++ serviceID ++ ascii "/version/" ++ decimal versionNumber
              ++ ascii "/clone") none w = ((req, none), w1) →
      c.Do req .version Version.zero w1 = ((out, r, some e), w2) →
      VersionConfig.Clone c serviceID versionNumber w = ((none, r, some e), w2)) ∧
    (∀ (serviceID : GoString) (versionNumber : Nat) (req : Option Req) (w1 : ω)
        (out : Version) (r : Option Resp) (w2 : ω),
      c.NewRequest (ascii "PUT")
          (ascii "/service/" ++ serviceID ++ ascii "/version/" ++ decimal versionNumber
              ++ ascii "/lock") none w = ((req, none), w1) →
      c.Do req .version Version.zero w1 = ((out, r, some e), w2) →
      VersionConfig.Lock c serviceID versionNumber w = ((none, r, some e), w2)) ∧
    (∀ (serviceID : GoString) (req : Option Req) (w1 : ω)
        (out : Version) (r : Option Resp) (w2 : ω),
      c.NewRequest (ascii "POST")
          (ascii "/service/" ++ serviceID ++ ascii "/version") none w = ((req, none), w1) →
      c.Do req .version Version.zero w1 = ((out, r, some e), w2) →
      VersionConfig.Create c serviceID w = ((none, r, some e), w2)) ∧
    (∀ (serviceID : GoString) (versionNumber : Nat) (version : Option Version) (req : Option Req) (w1 : ω)
        (out : Version) (r : Option Resp) (w2 : ω),
      c.NewJSONRequest (ascii "PUT")
          (ascii "/service/" ++ serviceID ++ ascii "/version/" ++ decimal versionNumber) (.version version) w = ((req, none), w1) →
      c.Do req .version Version.zero w1 = ((out, r, some e), w2) →
      VersionConfig.Update c serviceID versionNumber version w = ((none, r, some e), w2)) := by
  refine ⟨?_, ?_, ?_, ?_, ?_, ?_, ?_, ?_, ?_, ?_, ?_, ?_, ?_, ?_⟩
  · intro serviceID version req w1 out r w2 hb hd
    obtain ⟨b, d, hbe, hde, ht, hu⟩ := run_BigQueryConfig_List c serviceID version w
    rw [hb] at hbe
    subst hbe
    have hde' := hde.trans hd
    subst hde'
    rw [hu, ht]
    rfl
  · intro serviceID version name req w1 out r w2 hb hd
    obtain ⟨b, d, hbe, hde, ht, hu⟩ := run_BigQueryConfig_Get c serviceID version name w
    rw [hb] at hbe
    subst hbe
    have hde' := hde.trans hd
    subst hde'
    rw [hu, ht]
    rfl
  · intro serviceID version bq req w1 out r w2 hb hd
    obtain ⟨b, d, hbe, hde, ht, hu⟩ := run_BigQueryConfig_Create c serviceID version bq w
    rw [hb] at hbe
    subst hbe
    have hde' := hde.trans hd
    subst hde'
    rw [hu, ht]
    rfl
  · intro serviceID version name bq req w1 out r w2 hb hd
    obtain ⟨b, d, hbe, hde, ht, hu⟩ := run_BigQueryConfig_Update c serviceID version name bq w
    rw [hb] at hbe
    subst hbe
    have hde' := hde.trans hd
    subst hde'
    rw [hu, ht]
    rfl
  · intro serviceID version name req w1 out r w2 hb hd
    obtain ⟨b, d, hbe, hde, ht, hu⟩ := run_BigQueryConfig_Delete c serviceID version name w
    rw [hb] at hbe
    subst hbe
    have hde' := hde.trans hd
    subst hde'
    rw [hu, ht]
    rfl
  · intro serviceID req w1 out r w2 hb hd
    obtain ⟨b, d, hbe, hde, ht, hu⟩ := run_VersionConfig_List c serviceID w
    rw [hb] at hbe
    subst hbe
    have hde' := hde.trans hd
    subst hde'
    rw [hu, ht]
    rfl
  · intro serviceID versionNumber req w1 out r w2 hb hd
    obtain ⟨b, d, hbe, hde, ht, hu⟩ := run_VersionConfig_Get c serviceID versionNumber w
    rw [hb] at hbe
    subst hbe
    have hde' := hde.trans hd
    subst hde'
    rw [hu, ht]
    rfl
  · intro serviceID versionNumber req w1 out r w2 hb hd
    obtain ⟨b, d, hbe, hde, ht, hu⟩ := run_VersionConfig_Validate c serviceID versionNumber w
    rw [hb] at hbe
    subst hbe
    have hde' := hde.trans hd
    subst hde'
    rw [hu, ht]
    rfl
  · intro serviceID versionNumber req w1 out r w2 hb hd
    obtain ⟨b, d, hbe, hde, ht, hu⟩ := run_VersionConfig_Activate c serviceID versionNumber w
    rw [hb] at hbe
    subst hbe
    have hde' := hde.trans hd
    subst hde'
    rw [hu, ht]
    rfl
  · intro serviceID versionNumber req w1 out r w2 hb hd
    obtain ⟨b, d, hbe, hde, ht, hu⟩ := run_VersionConfig_Deactivate c serviceID versionNumber w
    rw [hb] at hbe
    subst hbe
    have hde' := hde.trans hd
    subst hde'
    rw [hu, ht]
    rfl
  · intro serviceID versionNumber req w1 out r w2 hb hd
    obtain ⟨b, d, hbe, hde, ht, hu⟩ := run_VersionConfig_Clone c serviceID versionNumber w
    rw [hb] at hbe
    subst hbe
    have hde' := hde.trans hd
    subst hde'
    rw [hu, ht]
    rfl
  · intro serviceID versionNumber req w1 out r w2 hb hd
    obtain ⟨b, d, hbe, hde, ht, hu⟩ := run_VersionConfig_Lock c serviceID versionNumber w
    rw [hb] at hbe
    subst hbe
    have hde' := hde.trans hd
    subst hde'
    rw [hu, ht]
    rfl
  · intro serviceID req w1 out r w2 hb hd
    obtain ⟨b, d, hbe, hde, ht, hu⟩ := run_VersionConfig_Create c serviceID w
    rw [hb] at hbe
    subst hbe
    have hde' := hde.trans hd
    subst hde'
    rw [hu, ht]
    rfl
  · intro serviceID versionNumber version req w1 out r w2 hb hd
    obtain ⟨b, d, hbe, hde, ht, hu⟩ := run_VersionConfig_Update c serviceID versionNumber version w
    rw [hb] at hbe
    subst hbe
    have hde' := hde.trans hd
    subst hde'
    rw [hu, ht]
    rfl

/-- Claim C2 at a client whose transport fails: `Get` returns the nil record, the
response and the error of the transport. -/
theorem transport_error_returned_witness :
    failingTransport.NewRequest (ascii "GET")
        (ascii "/service/" ++ [] ++ ascii "/version/" ++ decimal 0 ++
          ascii "/logging/bigquery/" ++ []) none () = ((some 1, none), ()) ∧
      failingTransport.Do (some 1) .bigQuery BigQuery.zero () =
        ((BigQuery.zero, some 2, some 3), ()) ∧
      BigQueryConfig.Get failingTransport [] 0 [] () = ((none, some 2, some 3), ()) :=
  ⟨rfl, rfl,
    (transport_error_returned failingTransport () 3).2.1 [] 0 [] (some 1) () BigQuery.zero
      (some 2) () rfl rfl⟩

/-- Claim C3. In every operation of `BigQueryConfig` and `VersionConfig`, for every input:
when the request builder of the client (`NewRequest` or `NewJSONRequest`) returns an error
`e`, the operation returns `e` unchanged as its error, a nil response and a nil record or
sequence, and the transport `Do` is not invoked at all: the log of the run is the builder
call alone. -/
theorem builder_error_returned (c : Client Req Resp Err Rd ω) (w : ω) (e : Err) :
    (∀ (serviceID : GoString) (version : Nat) (req : Option Req) (w1 : ω),
      c.NewRequest (ascii "GET")
          (ascii "/service/" ++ serviceID ++ ascii "/version/" ++ decimal version
              ++ ascii "/logging/bigquery") none w = ((req, some e), w1) →
      BigQueryConfig.List c serviceID version w = (.ok (none, none, some e), w1) ∧
      (BigQueryConfig.List c.traced serviceID version (w, [])).2.2 =
        [Event.NewRequest (ascii "GET")
          (ascii "/service/" ++ serviceID ++ ascii "/version/" ++ decimal version
              ++ ascii "/logging/bigquery") none req (some e)]) ∧
    (∀ (serviceID : GoString) (version : Nat) (name : GoString) (req : Option Req) (w1 : ω),
      c.NewRequest (ascii "GET")
          (ascii "/service/" ++ serviceID ++ ascii "/version/" ++ decimal version
              ++ ascii "/logging/bigquery/" ++ name) none w = ((req, some e), w1) →
      BigQueryConfig.Get c serviceID version name w = ((none, none, some e), w1) ∧
      (BigQueryConfig.Get c.traced serviceID version name (w, [])).2.2 =
        [Event.NewRequest (ascii "GET")
          (ascii "/service/" ++ serviceID ++ ascii "/version/" ++ decimal version
              ++ ascii "/logging/bigquery/" ++ name) none req (some e)]) ∧
    (∀ (serviceID : GoString) (version : Nat) (bq : Option BigQuery) (req : Option Req) (w1 : ω),
      c.NewJSONRequest (ascii "POST")
          (ascii "/service/" ++ serviceID ++ ascii "/version/" ++ decimal version
              ++ ascii "/logging/bigquery") (.bigQuery bq) w = ((req, some e), w1) →
      BigQueryConfig.Create c serviceID version bq w = ((none, none, some e), w1) ∧
      (BigQueryConfig.Create c.traced serviceID version bq (w, [])).2.2 =
        [Event.NewJSONRequest (ascii "POST")
          (ascii "/service/" ++ serviceID ++ ascii "/version/" ++ decimal version
              ++ ascii "/logging/bigquery") (.bigQuery bq) req (some e)]) ∧
    (∀ (serviceID : GoString) (version : Nat) (name : GoString) (bq : Option BigQuery) (req : Option Req) (w1 : ω),
      c.NewJSONRequest (ascii "PUT")
          (ascii "/service/" ++ serviceID ++ ascii "/version/" ++ decimal version
              ++ ascii "/logging/bigquery/" ++ name) (.bigQuery bq) w = ((req, some e), w1) →
      BigQueryConfig.Update c serviceID version name bq w = ((none, none, some e), w1) ∧
      (BigQueryConfig.Update c.traced serviceID version name bq (w, [])).2.2 =
        [Event.NewJSONRequest (ascii "PUT")
          (ascii "/service/" ++ serviceID ++ ascii "/version/" ++ decimal version
              ++ ascii "/logging/bigquery/" ++ name) (.bigQuery bq) req (some e)]) ∧
    (∀ (serviceID : GoString) (version : Nat) (name : GoString) (req : Option Req) (w1 : ω),
      c.NewRequest (ascii "DELETE")
          (ascii "/service/" ++ serviceID ++ ascii "/version/" ++ decimal version
              ++ ascii "/logging/bigquery/" ++ name) none w = ((req, some e), w1) →
      BigQueryConfig.Delete c serviceID version name w = ((none, some e), w1) ∧
      (BigQueryConfig.Delete c.traced serviceID version name (w, [])).2.2 =
        [Event.NewRequest (ascii "DELETE")
          (ascii "/service/" ++ serviceID ++ ascii "/version/" ++ decimal version
              ++ ascii "/logging/bigquery/" ++ name) none req (some e)]) ∧
    (∀ (serviceID : GoString) (req : Option Req) (w1 : ω),
      c.NewRequest (ascii "GET")
          (ascii "/service/" ++ serviceID ++ ascii "/version") none w = ((req, some e), w1) →
      VersionConfig.List c serviceID w = (.ok (none, none, some e), w1) ∧
      (VersionConfig.List c.traced serviceID (w, [])).2.2 =
        [Event.NewRequest (ascii "GET")
          (ascii "/service/" ++ serviceID ++ ascii "/version") none req (some e)]) ∧
    (∀ (serviceID : GoString) (versionNumber : Nat) (req : Option Req) (w1 : ω),
      c.NewRequest (ascii "GET")
          (ascii "/service/" ++ serviceID ++ ascii "/version/" ++ decimal versionNumber) none w = ((req, some e), w1) →
      VersionConfig.Get c serviceID versionNumber w = ((none, none, some e), w1) ∧
      (VersionConfig.Get c.traced serviceID versionNumber (w, [])).2.2 =
        [Event.NewRequest (ascii "GET")
          (ascii "/service/" ++ serviceID ++ ascii "/version/" ++ decimal versionNumber) none req (some e)]) ∧
    (∀ (serviceID : GoString) (versionNumber : Nat) (req : Option Req) (w1 : ω),
      c.NewRequest (ascii "GET")
          (ascii "/service/" ++ serviceID ++ ascii "/version/" ++ decimal versionNumber
              ++ ascii "/validate") none w = ((req, some e), w1) →
      VersionConfig.Validate c serviceID versionNumber w = ((none, some e), w1) ∧
      (VersionConfig.Validate c.traced serviceID versionNumber (w, [])).2.2 =
        [Event.NewRequest (ascii "GET")
          (ascii "/service/" ++ serviceID ++ ascii "/version/" ++ decimal versionNumber
              ++ ascii "/validate") none req (some e)]) ∧
    (∀ (serviceID : GoString) (versionNumber : Nat) (req : Option Req) (w1 : ω),
      c.NewRequest (ascii "PUT")
          (ascii "/service/" ++ serviceID ++ ascii "/version/" ++ decimal versionNumber
              ++ ascii "/activate") none w = ((req, some e), w1) →
      VersionConfig.Activate c serviceID versionNumber w = ((none, none, some e), w1) ∧
      (VersionConfig.Activate c.traced serviceID versionNumber (w, [])).2.2 =
        [Event.NewRequest (ascii "PUT")
          (ascii "/service/" ++ serviceID ++ ascii "/version/" ++ decimal versionNumber
              ++ ascii "/activate") none req (some e)]) ∧
    (∀ (serviceID : GoString) (versionNumber : Nat) (req : Option Req) (w1 : ω),
      c.NewRequest (ascii "PUT")
          (ascii "/service/" ++ serviceID ++ ascii "/version/" ++ decimal versionNumber
              ++ ascii "/deactivate") none w = ((req, some e), w1) →
      VersionConfig.Deactivate c serviceID versionNumber w = ((none, none, some e), w1) ∧
      (VersionConfig.Deactivate c.traced serviceID versionNumber (w, [])).2.2 =
        [Event.NewRequest (ascii "PUT")
          (ascii "/service/" ++ serviceID ++ ascii "/version/" ++ decimal versionNumber
              ++ ascii "/deactivate") none req (some e)]) ∧
    (∀ (serviceID : GoString) (versionNumber : Nat) (req : Option Req) (w1 : ω),
      c.NewRequest (ascii "PUT")
          (ascii "/service/" ++ serviceID ++ ascii "/version/" ++ decimal versionNumber
              ++ ascii "/clone") none w = ((req, some e), w1) →
      VersionConfig.Clone c serviceID versionNumber w = ((none, none, some e), w1) ∧
      (VersionConfig.Clone c.traced serviceID versionNumber (w, [])).2.2 =
        [Event.NewRequest (ascii "PUT")
          (ascii "/service/" ++ serviceID ++ ascii "/version/" ++ decimal versionNumber
              ++ ascii "/clone") none req (some e)]) ∧
    (∀ (serviceID : GoString) (versionNumber : Nat) (req : Option Req) (w1 : ω),
      c.NewRequest (ascii "PUT")
          (ascii "/service/" ++ serviceID ++ ascii "/version/" ++ decimal versionNumber
              ++ ascii "/lock") none w = ((req, some e), w1) →
      VersionConfig.Lock c serviceID versionNumber w = ((none, none, some e), w1) ∧
      (VersionConfig.Lock c.traced serviceID versionNumber (w, [])).2.2 =
        [Event.NewRequest (ascii "PUT")
          (ascii "/service/" ++ serviceID ++ ascii "/version/" ++ decimal versionNumber
              ++ ascii "/lock") none req (some e)]) ∧
    (∀ (serviceID : GoString) (req : Option Req) (w1 : ω),
      c.NewRequest (ascii "POST")
          (ascii "/service/" ++ serviceID ++ ascii "/version") none w = ((req, some e), w1) →
      VersionConfig.Create c serviceID w = ((none, none, some e), w1) ∧
      (VersionConfig.Create c.traced serviceID (w, [])).2.2 =
        [Event.NewRequest (ascii "POST")
          (ascii "/service/" ++ serviceID ++ ascii "/version") none req (some e)]) ∧
    (∀ (serviceID : GoString) (versionNumber : Nat) (version : Option Version) (req : Option Req) (w1 : ω),
      c.NewJSONRequest (ascii "PUT")
          (ascii "/service/" ++ serviceID ++ ascii "/version/" ++ decimal versionNumber) (.version version) w = ((req, some e), w1) →
      VersionConfig.Update c serviceID versionNumber version w = ((none, none, some e), w1) ∧
      (VersionConfig.Update c.traced serviceID versionNumber version (w, [])).2.2 =
        [Event.NewJSONRequest (ascii "PUT")
          (ascii "/service/" ++ serviceID ++ ascii "/version/" ++ decimal versionNumber) (.version version) req (some e)]) := by
  refine ⟨?_, ?_, ?_, ?_, ?_, ?_, ?_, ?_, ?_, ?_, ?_, ?_, ?_, ?_⟩
  · intro serviceID version req w1 hb
    obtain ⟨b, d, hbe, -, ht, hu⟩ := run_BigQueryConfig_List c serviceID version w
    rw [hb] at hbe
    subst hbe
    rw [hu, ht]
    exact ⟨rfl, rfl⟩
  · intro serviceID version name req w1 hb
    obtain ⟨b, d, hbe, -, ht, hu⟩ := run_BigQueryConfig_Get c serviceID version name w
    rw [hb] at hbe
    subst hbe
    rw [hu, ht]
    exact ⟨rfl, rfl⟩
  · intro serviceID version bq req w1 hb
    obtain ⟨b, d, hbe, -, ht, hu⟩ := run_BigQueryConfig_Create c serviceID version bq w
    rw [hb] at hbe
    subst hbe
    rw [hu, ht]
    exact ⟨rfl, rfl⟩
  · intro serviceID version name bq req w1 hb
    obtain ⟨b, d, hbe, -, ht, hu⟩ := run_BigQueryConfig_Update c serviceID version name bq w
    rw [hb] at hbe
    subst hbe
    rw [hu, ht]
    exact ⟨rfl, rfl⟩
  · intro serviceID version name req w1 hb
    obtain ⟨b, d, hbe, -, ht, hu⟩ := run_BigQueryConfig_Delete c serviceID version name w
    rw [hb] at hbe
    subst hbe
    rw [hu, ht]
    exact ⟨rfl, rfl⟩
  · intro serviceID req w1 hb
    obtain ⟨b, d, hbe, -, ht, hu⟩ := run_VersionConfig_List c serviceID w
    rw [hb] at hbe
    subst hbe
    rw [hu, ht]
    exact ⟨rfl, rfl⟩
  · intro serviceID versionNumber req w1 hb
    obtain ⟨b, d, hbe, -, ht, hu⟩ := run_VersionConfig_Get c serviceID versionNumber w
    rw [hb] at hbe
    subst hbe
    rw [hu, ht]
    exact ⟨rfl, rfl⟩
  · intro serviceID versionNumber req w1 hb
    obtain ⟨b, d, hbe, -, ht, hu⟩ := run_VersionConfig_Validate c serviceID versionNumber w
    rw [hb] at hbe
    subst hbe
    rw [hu, ht]
    exact ⟨rfl, rfl⟩
  · intro serviceID versionNumber req w1 hb
    obtain ⟨b, d, hbe, -, ht, hu⟩ := run_VersionConfig_Activate c serviceID versionNumber w
    rw [hb] at hbe
    subst hbe
    rw [hu, ht]
    exact ⟨rfl, rfl⟩
  · intro serviceID versionNumber req w1 hb
    obtain ⟨b, d, hbe, -, ht, hu⟩ := run_VersionConfig_Deactivate c serviceID versionNumber w
    rw [hb] at hbe
    subst hbe
    rw [hu, ht]
    exact ⟨rfl, rfl⟩
  · intro serviceID versionNumber req w1 hb
    obtain ⟨b, d, hbe, -, ht, hu⟩ := run_VersionConfig_Clone c serviceID versionNumber w
    rw [hb] at hbe
    subst hbe
    rw [hu, ht]
    exact ⟨rfl, rfl⟩
  · intro serviceID versionNumber req w1 hb
    obtain ⟨b, d, hbe, -, ht, hu⟩ := run_VersionConfig_Lock c serviceID versionNumber w
    rw [hb] at hbe
    subst hbe
    rw [hu, ht]
    exact ⟨rfl, rfl⟩
  · intro serviceID req w1 hb
    obtain ⟨b, d, hbe, -, ht, hu⟩ := run_VersionConfig_Create c serviceID w
    rw [hb] at hbe
    subst hbe
    rw [hu, ht]
    exact ⟨rfl, rfl⟩
  · intro serviceID versionNumber version req w1 hb
    obtain ⟨b, d, hbe, -, ht, hu⟩ := run_VersionConfig_Update c serviceID versionNumber version w
    rw [hb] at hbe
    subst hbe
    rw [hu, ht]
    exact ⟨rfl, rfl⟩

/-- Claim C3 at a client whose builders fail: `Update` returns the builder's error and
the transport is not called. -/
theorem builder_error_returned_witness :
    failingBuilder.NewJSONRequest (ascii "PUT")
        (ascii "/service/" ++ [] ++ ascii "/version/" ++ decimal 0 ++
          ascii "/logging/bigquery/" ++ []) (.bigQuery none) () = ((none, some 4), ()) ∧
      BigQueryConfig.Update failingBuilder [] 0 [] none () = ((none, none, some 4), ()) ∧
      (BigQueryConfig.Update failingBuilder.traced [] 0 [] none ((), [])).2.2 =
        [Event.NewJSONRequest (ascii "PUT")
          (ascii "/service/" ++ [] ++ ascii "/version/" ++ decimal 0 ++
            ascii "/logging/bigquery/" ++ []) (.bigQuery none) none (some 4)] :=
  ⟨rfl, (builder_error_returned failingBuilder () 4).2.2.2.1 [] 0 [] none none () rfl⟩

/-- Claim C8. Every operation of `BigQueryConfig` and `VersionConfig` is a single attempt:
its log is one call of the request builder, followed, exactly when the builder returned no
error, by one call of the transport `Do` on the request the builder returned, whether the
transport succeeds or fails; there is never a second transport call. -/
theorem single_attempt (c : Client Req Resp Err Rd ω) (w : ω) :
    (∀ (serviceID : GoString) (version : Nat),
      SingleAttempt (BigQueryConfig.List c.traced serviceID version (w, [])).2.2) ∧
    (∀ (serviceID : GoString) (version : Nat) (name : GoString),
      SingleAttempt (BigQueryConfig.Get c.traced serviceID version name (w, [])).2.2) ∧
    (∀ (serviceID : GoString) (version : Nat) (bq : Option BigQuery),
      SingleAttempt (BigQueryConfig.Create c.traced serviceID version bq (w, [])).2.2) ∧
    (∀ (serviceID : GoString) (version : Nat) (name : GoString) (bq : Option BigQuery),
      SingleAttempt (BigQueryConfig.Update c.traced serviceID version name bq (w, [])).2.2) ∧
    (∀ (serviceID : GoString) (version : Nat) (name : GoString),
      SingleAttempt (BigQueryConfig.Delete c.traced serviceID version name (w, [])).2.2) ∧
    (∀ (serviceID : GoString),
      SingleAttempt (VersionConfig.List c.traced serviceID (w, [])).2.2) ∧
    (∀ (serviceID : GoString) (versionNumber : Nat),
      SingleAttempt (VersionConfig.Get c.traced serviceID versionNumber (w, [])).2.2) ∧
    (∀ (serviceID : GoString) (versionNumber : Nat),
      SingleAttempt (VersionConfig.Validate c.traced serviceID versionNumber (w, [])).2.2) ∧
    (∀ (serviceID : GoString) (versionNumber : Nat),
      SingleAttempt (VersionConfig.Activate c.traced serviceID versionNumber (w, [])).2.2) ∧
    (∀ (serviceID : GoString) (versionNumber : Nat),
      SingleAttempt (VersionConfig.Deactivate c.traced serviceID versionNumber (w, [])).2.2) ∧
    (∀ (serviceID : GoString) (versionNumber : Nat),
      SingleAttempt (VersionConfig.Clone c.traced serviceID versionNumber (w, [])).2.2) ∧
    (∀ (serviceID : GoString) (versionNumber : Nat),
      SingleAttempt (VersionConfig.Lock c.traced serviceID versionNumber (w, [])).2.2) ∧
    (∀ (serviceID : GoString),
      SingleAttempt (VersionConfig.Create c.traced serviceID (w, [])).2.2) ∧
    (∀ (serviceID : GoString) (versionNumber : Nat) (version : Option Version),
      SingleAttempt (VersionConfig.Update c.traced serviceID versionNumber version (w, [])).2.2) := by
  refine ⟨?_, ?_, ?_, ?_, ?_, ?_, ?_, ?_, ?_, ?_, ?_, ?_, ?_, ?_⟩
  · intro serviceID version
    obtain ⟨b, d, -, -, ht, -⟩ := run_BigQueryConfig_List c serviceID version w
    rw [ht]
    exact (listRun_singleAttempt (isBuilder_NewRequest _ _ _) _ _ _ _ b d).1
  · intro serviceID version name
    obtain ⟨b, d, -, -, ht, -⟩ := run_BigQueryConfig_Get c serviceID version name w
    rw [ht]
    exact (recordRun_singleAttempt (isBuilder_NewRequest _ _ _) _ _ b d).1
  · intro serviceID version bq
    obtain ⟨b, d, -, -, ht, -⟩ := run_BigQueryConfig_Create c serviceID version bq w
    rw [ht]
    exact (recordRun_singleAttempt (isBuilder_NewJSONRequest _ _ _) _ _ b d).1
  · intro serviceID version name bq
    obtain ⟨b, d, -, -, ht, -⟩ := run_BigQueryConfig_Update c serviceID version name bq w
    rw [ht]
    exact (recordRun_singleAttempt (isBuilder_NewJSONRequest _ _ _) _ _ b d).1
  · intro serviceID version name
    obtain ⟨b, d, -, -, ht, -⟩ := run_BigQueryConfig_Delete c serviceID version name w
    rw [ht]
    exact (statusRun_singleAttempt (isBuilder_NewRequest _ _ _) b d).1
  · intro serviceID
    obtain ⟨b, d, -, -, ht, -⟩ := run_VersionConfig_List c serviceID w
    rw [ht]
    exact (listRun_singleAttempt (isBuilder_NewRequest _ _ _) _ _ _ _ b d).1
  · intro serviceID versionNumber
    obtain ⟨b, d, -, -, ht, -⟩ := run_VersionConfig_Get c serviceID versionNumber w
    rw [ht]
    exact (recordRun_singleAttempt (isBuilder_NewRequest _ _ _) _ _ b d).1
  · intro serviceID versionNumber
    obtain ⟨b, d, -, -, ht, -⟩ := run_VersionConfig_Validate c serviceID versionNumber w
    rw [ht]
    exact (statusRun_singleAttempt (isBuilder_NewRequest _ _ _) b d).1
  · intro serviceID versionNumber
    obtain ⟨b, d, -, -, ht, -⟩ := run_VersionConfig_Activate c serviceID versionNumber w
    rw [ht]
    exact (recordRun_singleAttempt (isBuilder_NewRequest _ _ _) _ _ b d).1
  · intro serviceID versionNumber
    obtain ⟨b, d, -, -, ht, -⟩ := run_VersionConfig_Deactivate c serviceID versionNumber w
    rw [ht]
    exact (recordRun_singleAttempt (isBuilder_NewRequest _ _ _) _ _ b d).1
  · intro serviceID versionNumber
    obtain ⟨b, d, -, -, ht, -⟩ := run_VersionConfig_Clone c serviceID versionNumber w
    rw [ht]
    exact (recordRun_singleAttempt (isBuilder_NewRequest _ _ _) _ _ b d).1
  · intro serviceID versionNumber
    obtain ⟨b, d, -, -, ht, -⟩ := run_VersionConfig_Lock c serviceID versionNumber w
    rw [ht]
    exact (recordRun_singleAttempt (isBuilder_NewRequest _ _ _) _ _ b d).1
  · intro serviceID
    obtain ⟨b, d, -, -, ht, -⟩ := run_VersionConfig_Create c serviceID w
    rw [ht]
    exact (recordRun_singleAttempt (isBuilder_NewRequest _ _ _) _ _ b d).1
  · intro serviceID versionNumber version
    obtain ⟨b, d, -, -, ht, -⟩ := run_VersionConfig_Update c serviceID versionNumber version w
    rw [ht]
    exact (recordRun_singleAttempt (isBuilder_NewJSONRequest _ _ _) _ _ b d).1


/-- Claim C6. In `BigQueryConfig.Create`, `BigQueryConfig.Update` and
`VersionConfig.Update`, called with a record `x`, the body handed to `NewJSONRequest` is
exactly `x`, whatever the path arguments are (they go into the path only), and the reply is
decoded into a fresh zero record, not into `x`: the caller's record is left as it was. -/
theorem json_body_is_record (c : Client Req Resp Err Rd ω) (w : ω) :
    (∀ (serviceID : GoString) (version : Nat) (bq : Option BigQuery),
      LogIs (BigQueryConfig.Create c.traced serviceID version bq (w, [])).2.2
        (Event.NewJSONRequest (ascii "POST")
          (ascii "/service/" ++ serviceID ++ ascii "/version/" ++ decimal version
            ++ ascii "/logging/bigquery") (.bigQuery bq))
        .bigQuery BigQuery.zero) ∧
    (∀ (serviceID : GoString) (version : Nat) (name : GoString) (bq : Option BigQuery),
      LogIs (BigQueryConfig.Update c.traced serviceID version name bq (w, [])).2.2
        (Event.NewJSONRequest (ascii "PUT")
          (ascii "/service/" ++ serviceID ++ ascii "/version/" ++ decimal version
            ++ ascii "/logging/bigquery/" ++ name) (.bigQuery bq))
        .bigQuery BigQuery.zero) ∧
    (∀ (serviceID : GoString) (versionNumber : Nat) (version : Option Version),
      LogIs (VersionConfig.Update c.traced serviceID versionNumber version (w, [])).2.2
        (Event.NewJSONRequest (ascii "PUT")
          (ascii "/service/" ++ serviceID ++ ascii "/version/" ++ decimal versionNumber) (.version version))
        .version Version.zero) := by
  refine ⟨?_, ?_, ?_⟩
  · intro serviceID version bq
    obtain ⟨b, d, -, -, ht, -⟩ := run_BigQueryConfig_Create c serviceID version bq w
    rw [ht]
    exact (recordRun_singleAttempt (isBuilder_NewJSONRequest _ _ _) _ _ b d).2
  · intro serviceID version name bq
    obtain ⟨b, d, -, -, ht, -⟩ := run_BigQueryConfig_Update c serviceID version name bq w
    rw [ht]
    exact (recordRun_singleAttempt (isBuilder_NewJSONRequest _ _ _) _ _ b d).2
  · intro serviceID versionNumber version
    obtain ⟨b, d, -, -, ht, -⟩ := run_VersionConfig_Update c serviceID versionNumber version w
    rw [ht]
    exact (recordRun_singleAttempt (isBuilder_NewJSONRequest _ _ _) _ _ b d).2


/-- Claim C7. For every service identifier and every version number (the empty identifier
and version 0 included: nothing is checked locally) `VersionConfig.Validate` calls the
builder for a `GET` request for `/service/{id}/version/{v}/validate`, and `Activate`,
`Deactivate`, `Clone` and `Lock` each for a `PUT` request for the same prefix followed by
`/activate`, `/deactivate`, `/clone` and `/lock`, all with no request body; whenever the
builder returns no error the built request is sent (the log of the run is the builder call
followed by the `Do` call; the builder call is made whatever it returns), and an error the
transport then reports is returned unchanged, with the transport's response and a nil
record. -/
theorem version_actions (c : Client Req Resp Err Rd ω) (w : ω) (serviceID : GoString)
    (versionNumber : Nat) :
    (LogIs (VersionConfig.Validate c.traced serviceID versionNumber (w, [])).2.2
        (Event.NewRequest (ascii "GET")
          (ascii "/service/" ++ serviceID ++ ascii "/version/" ++ decimal versionNumber
              ++ ascii "/validate") none)
        .nil () ∧
      ∀ (req : Option Req) (w1 : ω) (out : Unit) (resp : Option Resp)
        (err : Option Err) (w2 : ω),
      c.NewRequest (ascii "GET")
          (ascii "/service/" ++ serviceID ++ ascii "/version/" ++ decimal versionNumber
              ++ ascii "/validate") none w = ((req, none), w1) →
      c.Do req .nil () w1 = ((out, resp, err), w2) →
      (VersionConfig.Validate c.traced serviceID versionNumber (w, [])).2.2 =
        [Event.NewRequest (ascii "GET")
          (ascii "/service/" ++ serviceID ++ ascii "/version/" ++ decimal versionNumber
              ++ ascii "/validate") none req none,
         Event.Do req .nil () out resp err] ∧
      ∀ e : Err, err = some e →
        VersionConfig.Validate c serviceID versionNumber w = ((resp, some e), w2)) ∧
    (LogIs (VersionConfig.Activate c.traced serviceID versionNumber (w, [])).2.2
        (Event.NewRequest (ascii "PUT")
          (ascii "/service/" ++ serviceID ++ ascii "/version/" ++ decimal versionNumber
              ++ ascii "/activate") none)
        .version Version.zero ∧
      ∀ (req : Option Req) (w1 : ω) (out : Version) (resp : Option Resp)
        (err : Option Err) (w2 : ω),
      c.NewRequest (ascii "PUT")
          (ascii "/service/" ++ serviceID ++ ascii "/version/" ++ decimal versionNumber
              ++ ascii "/activate") none w = ((req, none), w1) →
      c.Do req .version Version.zero w1 = ((out, resp, err), w2) →
      (VersionConfig.Activate c.traced serviceID versionNumber (w, [])).2.2 =
        [Event.NewRequest (ascii "PUT")
          (ascii "/service/" ++ serviceID ++ ascii "/version/" ++ decimal versionNumber
              ++ ascii "/activate") none req none,
         Event.Do req .version Version.zero out resp err] ∧
      ∀ e : Err, err = some e →
        VersionConfig.Activate c serviceID versionNumber w = ((none, resp, some e), w2)) ∧
    (LogIs (VersionConfig.Deactivate c.traced serviceID versionNumber (w, [])).2.2
        (Event.NewRequest (ascii "PUT")
          (ascii "/service/" ++ serviceID ++ ascii "/version/" ++ decimal versionNumber
              ++ ascii "/deactivate") none)
        .version Version.zero ∧
      ∀ (req : Option Req) (w1 : ω) (out : Version) (resp : Option Resp)
        (err : Option Err) (w2 : ω),
      c.NewRequest (ascii "PUT")
          (ascii "/service/" ++ serviceID ++ ascii "/version/" ++ decimal versionNumber
              ++ ascii "/deactivate") none w = ((req, none), w1) →
      c.Do req .version Version.zero w1 = ((out, resp, err), w2) →
      (VersionConfig.Deactivate c.traced serviceID versionNumber (w, [])).2.2 =
        [Event.NewRequest (ascii "PUT")
          (ascii "/service/" ++ serviceID ++ ascii "/version/" ++ decimal versionNumber
              ++ ascii "/deactivate") none req none,
         Event.Do req .version Version.zero out resp err] ∧
      ∀ e : Err, err = some e →
        VersionConfig.Deactivate c serviceID versionNumber w = ((none, resp, some e), w2)) ∧
    (LogIs (VersionConfig.Clone c.traced serviceID versionNumber (w, [])).2.2
        (Event.NewRequest (ascii "PUT")
          (ascii "/service/" ++ serviceID ++ ascii "/version/" ++ decimal versionNumber
              ++ ascii "/clone") none)
        .version Version.zero ∧
      ∀ (req : Option Req) (w1 : ω) (out : Version) (resp : Option Resp)
        (err : Option Err) (w2 : ω),
      c.NewRequest (ascii "PUT")
          (ascii "/service/" ++ serviceID ++ ascii "/version/" ++ decimal versionNumber
              ++ ascii "/clone") none w = ((req, none), w1) →
      c.Do req .version Version.zero w1 = ((out, resp, err), w2) →
      (VersionConfig.Clone c.traced serviceID versionNumber (w, [])).2.2 =
        [Event.NewRequest (ascii "PUT")
          (ascii "/service/" ++ serviceID ++ ascii "/version/" ++ decimal versionNumber
              ++ ascii "/clone") none req none,
         Event.Do req .version Version.zero out resp err] ∧
      ∀ e : Err, err = some e →
        VersionConfig.Clone c serviceID versionNumber w = ((none, resp, some e), w2)) ∧
    (LogIs (VersionConfig.Lock c.traced serviceID versionNumber (w, [])).2.2
        (Event.NewRequest (ascii "PUT")
          (ascii "/service/" ++ serviceID ++ ascii "/version/" ++ decimal versionNumber
              ++ ascii "/lock") none)
        .version Version.zero ∧
      ∀ (req : Option Req) (w1 : ω) (out : Version) (resp : Option Resp)
        (err : Option Err) (w2 : ω),
      c.NewRequest (ascii "PUT")
          (ascii "/service/" ++ serviceID ++ ascii "/version/" ++ decimal versionNumber
              ++ ascii "/lock") none w = ((req, none), w1) →
      c.Do req .version Version.zero w1 = ((out, resp, err), w2) →
      (VersionConfig.Lock c.traced serviceID versionNumber (w, [])).2.2 =
        [Event.NewRequest (ascii "PUT")
          (ascii "/service/" ++ serviceID ++ ascii "/version/" ++ decimal versionNumber
              ++ ascii "/lock") none req none,
         Event.Do req .version Version.zero out resp err] ∧
      ∀ e : Err, err = some e →
        VersionConfig.Lock c serviceID versionNumber w = ((none, resp, some e), w2)) := by
  refine ⟨?_, ?_, ?_, ?_, ?_⟩
  · refine ⟨?_, ?_⟩
    · obtain ⟨b, d, -, -, ht, -⟩ := run_VersionConfig_Validate c serviceID versionNumber w
      rw [ht]
      exact (statusRun_singleAttempt (isBuilder_NewRequest _ _ _) b d).2
    intro req w1 out resp err w2 hb hd
    obtain ⟨b, d, hbe, hde, ht, hu⟩ := run_VersionConfig_Validate c serviceID versionNumber w
    rw [hb] at hbe
    subst hbe
    have hde' := hde.trans hd
    subst hde'
    rw [hu, ht]
    refine ⟨?_, ?_⟩
    · cases err <;> rfl
    · rintro e rfl
      rfl
  · refine ⟨?_, ?_⟩
    · obtain ⟨b, d, -, -, ht, -⟩ := run_VersionConfig_Activate c serviceID versionNumber w
      rw [ht]
      exact (recordRun_singleAttempt (isBuilder_NewRequest _ _ _) _ _ b d).2
    intro req w1 out resp err w2 hb hd
    obtain ⟨b, d, hbe, hde, ht, hu⟩ := run_VersionConfig_Activate c serviceID versionNumber w
    rw [hb] at hbe
    subst hbe
    have hde' := hde.trans hd
    subst hde'
    rw [hu, ht]
    refine ⟨?_, ?_⟩
    · cases err <;> rfl
    · rintro e rfl
      rfl
  · refine ⟨?_, ?_⟩
    · obtain ⟨b, d, -, -, ht, -⟩ := run_VersionConfig_Deactivate c serviceID versionNumber w
      rw [ht]
      exact (recordRun_singleAttempt (isBuilder_NewRequest _ _ _) _ _ b d).2
    intro req w1 out resp err w2 hb hd
    obtain ⟨b, d, hbe, hde, ht, hu⟩ := run_VersionConfig_Deactivate c serviceID versionNumber w
    rw [hb] at hbe
    subst hbe
    have hde' := hde.trans hd
    subst hde'
    rw [hu, ht]
    refine ⟨?_, ?_⟩
    · cases err <;> rfl
    · rintro e rfl
      rfl
  · refine ⟨?_, ?_⟩
    · obtain ⟨b, d, -, -, ht, -⟩ := run_VersionConfig_Clone c serviceID versionNumber w
      rw [ht]
      exact (recordRun_singleAttempt (isBuilder_NewRequest _ _ _) _ _ b d).2
    intro req w1 out resp err w2 hb hd
    obtain ⟨b, d, hbe, hde, ht, hu⟩ := run_VersionConfig_Clone c serviceID versionNumber w
    rw [hb] at hbe
    subst hbe
    have hde' := hde.trans hd
    subst hde'
    rw [hu, ht]
    refine ⟨?_, ?_⟩
    · cases err <;> rfl
    · rintro e rfl
      rfl
  · refine ⟨?_, ?_⟩
    · obtain ⟨b, d, -, -, ht, -⟩ := run_VersionConfig_Lock c serviceID versionNumber w
      rw [ht]
      exact (recordRun_singleAttempt (isBuilder_NewRequest _ _ _) _ _ b d).2
    intro req w1 out resp err w2 hb hd
    obtain ⟨b, d, hbe, hde, ht, hu⟩ := run_VersionConfig_Lock c serviceID versionNumber w
    rw [hb] at hbe
    subst hbe
    have hde' := hde.trans hd
    subst hde'
    rw [hu, ht]
    refine ⟨?_, ?_⟩
    · cases err <;> rfl
    · rintro e rfl
      rfl

/-- Claim C7 at the empty service identifier and version 0, on a client whose transport
fails: `Activate` sends `PUT /service//version/0/activate` and returns the transport's
error. -/
theorem version_actions_witness :
    failingTransport.NewRequest (ascii "PUT")
        (ascii "/service/" ++ [] ++ ascii "/version/" ++ decimal 0 ++ ascii "/activate")
        none () = ((some 1, none), ()) ∧
      failingTransport.Do (some 1) .version Version.zero () =
        ((Version.zero, some 2, some 3), ()) ∧
      (VersionConfig.Activate failingTransport.traced [] 0 ((), [])).2.2 =
        [Event.NewRequest (ascii "PUT") (ascii "/service//version/0/activate") none
          (some 1) none,
         Event.Do (some 1) .version Version.zero Version.zero (some 2) (some 3)] ∧
      VersionConfig.Activate failingTransport [] 0 () = ((none, some 2, some 3), ()) :=
  have h := (version_actions failingTransport () [] 0).2.1.2 (some 1) () Version.zero
    (some 2) (some 3) () rfl rfl
  ⟨rfl, rfl, h.1, h.2 3 rfl⟩

end Propagation

/-! ## Decimal rendering and the shape of the paths -/

section Decimal

theorem fmtIntegerLoop_eq (fuel u : Nat) (acc : GoString) (hu : u ≠ 0) (hf : u ≤ fuel) :
    fmtIntegerLoop fuel u acc = (Nat.digits 10 u).reverse.map digitByte ++ acc := by
  induction fuel generalizing u acc with
  | zero => omega
  | succ fuel ih =>
    unfold fmtIntegerLoop
    split
    · rename_i h10
      have h1 : u / 10 ≠ 0 := by omega
      have h2 : u / 10 ≤ fuel := by omega
      rw [ih (u / 10) _ h1 h2]
      have h3 : u - u / 10 * 10 = u % 10 := by omega
      have h4 : Nat.digits 10 u = (u % 10) :: Nat.digits 10 (u / 10) :=
        Nat.digits_def' (by norm_num) (by omega)
      rw [h3, h4]
      simp
    · rename_i h10
      rw [Nat.digits_of_lt 10 u hu (by omega)]
      rfl

theorem decimal_zero : decimal 0 = ascii "0" := rfl

theorem decimal_eq (u : Nat) (hu : u ≠ 0) :
    decimal u = (Nat.digits 10 u).reverse.map digitByte := by
  unfold decimal
  rw [fmtIntegerLoop_eq u u [] hu (le_refl u), List.append_nil]

theorem digitByte_val (d : Nat) (hd : d < 10) : (digitByte d).val = 48 + d := by
  unfold digitByte
  simp only [Fin.ofNat, Fin.val_mk]
  omega

theorem decimal_digits (u : Nat) : ∀ b ∈ decimal u, 48 ≤ b.val ∧ b.val ≤ 57 := by
  intro b hb
  by_cases hu : u = 0
  · subst hu
    rw [decimal_zero] at hb
    have : b = 48 := by simpa [ascii] using hb
    subst this
    decide
  · rw [decimal_eq u hu] at hb
    simp only [List.mem_map, List.mem_reverse] at hb
    obtain ⟨d, hd, rfl⟩ := hb
    have := Nat.digits_lt_base (by norm_num : 1 < 10) hd
    rw [digitByte_val d this]
    omega

theorem decimal_ne_nil (u : Nat) : decimal u ≠ [] := by
  by_cases hu : u = 0
  · subst hu; rw [decimal_zero]; decide
  · rw [decimal_eq u hu]
    simp only [ne_eq, List.map_eq_nil_iff, List.reverse_eq_nil_iff]
    exact Nat.digits_ne_nil_iff_ne_zero.2 hu

theorem decimal_no_slash (u : Nat) : (47 : Byte) ∉ decimal u := by
  intro h
  exact absurd (decimal_digits u 47 h).1 (by decide)

theorem decimal_injective (u v : Nat) (h : decimal u = decimal v) : u = v := by
  have key : ∀ a : Nat, a ≠ 0 → decimal a ≠ ascii "0" := by
    intro a ha h0
    rw [decimal_eq a ha] at h0
    have hlen := congrArg List.length h0
    simp only [List.length_map, List.length_reverse] at hlen
    have h1 : (ascii "0").length = 1 := rfl
    rw [h1] at hlen
    obtain ⟨d, hd⟩ := List.length_eq_one.1 hlen
    rw [hd] at h0
    have hd10 : d < 10 := Nat.digits_lt_base (by norm_num : 1 < 10) (by rw [hd]; simp)
    have hv : (digitByte d).val = 48 := by
      have : [digitByte d] = ascii "0" := by simpa using h0
      have h48 : digitByte d = 48 := by simpa [ascii] using this
      rw [h48]; rfl
    rw [digitByte_val d hd10] at hv
    have hd0 : d = 0 := by omega
    subst hd0
    have hlast := Nat.getLast_digit_ne_zero 10 ha
    simp [hd] at hlast
  by_cases hu : u = 0
  · subst hu
    by_contra hne
    exact key v (fun h0 => hne h0.symm) (by rw [← h, decimal_zero])
  · by_cases hv : v = 0
    · subst hv
      exact absurd (by rw [h, decimal_zero]) (key u hu)
    · rw [decimal_eq u hu, decimal_eq v hv] at h
      have hinj : Function.Injective (fun l : List Nat => l.reverse) :=
        List.reverse_injective
      have hmap : ∀ l1 l2 : List Nat, (∀ d ∈ l1, d < 10) → (∀ d ∈ l2, d < 10) →
          l1.map digitByte = l2.map digitByte → l1 = l2 := by
        intro l1
        induction l1 with
        | nil => intro l2 _ _ h; cases l2 <;> simp_all
        | cons a l1 ih =>
          intro l2 h1 h2 h
          cases l2 with
          | nil => simp at h
          | cons b l2 =>
            simp only [List.map_cons, List.cons.injEq] at h
            have ha := digitByte_val a (h1 a (by simp))
            have hb := digitByte_val b (h2 b (by simp))
            have hab : a = b := by
              have := congrArg Fin.val h.1
              omega
            rw [hab, ih l2 (fun d hd => h1 d (by simp [hd])) (fun d hd => h2 d (by simp [hd])) h.2]
      have := hmap _ _ (fun d hd => Nat.digits_lt_base (by norm_num : 1 < 10)
          (List.mem_reverse.1 hd))
        (fun d hd => Nat.digits_lt_base (by norm_num : 1 < 10) (List.mem_reverse.1 hd)) h
      exact Nat.digits_inj_iff.1 (List.reverse_injective this)

theorem append_slash_inj (l1 l2 r1 r2 : GoString) (h1 : (47 : Byte) ∉ l1) (h2 : (47 : Byte) ∉ l2)
    (h : l1 ++ 47 :: r1 = l2 ++ 47 :: r2) : l1 = l2 ∧ r1 = r2 := by
  induction l1 generalizing l2 with
  | nil =>
    cases l2 with
    | nil => simpa using h
    | cons b l2 =>
      simp only [List.nil_append, List.cons_append, List.cons.injEq] at h
      exact absurd (by rw [← h.1]; simp) h2
  | cons a l1 ih =>
    cases l2 with
    | nil =>
      simp only [List.nil_append, List.cons_append, List.cons.injEq] at h
      exact absurd (by rw [h.1]; simp) h1
    | cons b l2 =>
      simp only [List.cons_append, List.cons.injEq] at h
      obtain ⟨rfl, h⟩ := h
      obtain ⟨rfl, rfl⟩ := ih l2 (fun hm => h1 (List.mem_cons_of_mem _ hm))
        (fun hm => h2 (List.mem_cons_of_mem _ hm)) h
      exact ⟨rfl, rfl⟩

end Decimal

section PathClaims

variable {Req Resp Err Rd ω : Type}

/-- Claim C4. For every service identifier, version number and name,
`BigQueryConfig.Get`, `Update` and `Delete` request the same path,
`"/service/" ++ serviceID ++ "/version/" ++ decimal(version) ++ "/logging/bigquery/" ++ name`,
with the verbs `GET`, `PUT` and `DELETE`; the identifier and the name are copied in
unchanged, the version is rendered by its base-10 digits, most significant first, without
sign or padding (`0` as the single digit `0`); and the path is the path of `List` and
`Create` for the same identifier and version followed by `/` and the name. -/
theorem bigquery_item_path (c : Client Req Resp Err Rd ω) (w : ω) (serviceID : GoString)
    (version : Nat) (name : GoString) (bq : Option BigQuery) :
    LogIs (BigQueryConfig.Get c.traced serviceID version name (w, [])).2.2
        (Event.NewRequest (ascii "GET")
          (ascii "/service/" ++ serviceID ++ ascii "/version/" ++ decimal version ++
            ascii "/logging/bigquery/" ++ name) none)
        .bigQuery BigQuery.zero ∧
    LogIs (BigQueryConfig.Update c.traced serviceID version name bq (w, [])).2.2
        (Event.NewJSONRequest (ascii "PUT")
          (ascii "/service/" ++ serviceID ++ ascii "/version/" ++ decimal version ++
            ascii "/logging/bigquery/" ++ name) (.bigQuery bq))
        .bigQuery BigQuery.zero ∧
    LogIs (BigQueryConfig.Delete c.traced serviceID version name (w, [])).2.2
        (Event.NewRequest (ascii "DELETE")
          (ascii "/service/" ++ serviceID ++ ascii "/version/" ++ decimal version ++
            ascii "/logging/bigquery/" ++ name) none)
        .nil () ∧
    (∃ collection : GoString,
      LogIs (BigQueryConfig.List c.traced serviceID version (w, [])).2.2
        (Event.NewRequest (ascii "GET") collection none) .bigQueries none ∧
      LogIs (BigQueryConfig.Create c.traced serviceID version bq (w, [])).2.2
        (Event.NewJSONRequest (ascii "POST") collection (.bigQuery bq))
        .bigQuery BigQuery.zero ∧
      ascii "/service/" ++ serviceID ++ ascii "/version/" ++ decimal version ++
          ascii "/logging/bigquery/" ++ name = collection ++ ascii "/" ++ name) ∧
    decimal version =
      (if version = 0 then ascii "0" else (Nat.digits 10 version).reverse.map digitByte) := by
  refine ⟨?_, ?_, ?_, ⟨ascii "/service/" ++ serviceID ++ ascii "/version/" ++
    decimal version ++ ascii "/logging/bigquery", ?_, ?_, ?_⟩, ?_⟩
  · obtain ⟨b, d, -, -, ht, -⟩ := run_BigQueryConfig_Get c serviceID version name w
    rw [ht]
    exact (recordRun_singleAttempt (isBuilder_NewRequest _ _ _) _ _ b d).2
  · obtain ⟨b, d, -, -, ht, -⟩ := run_BigQueryConfig_Update c serviceID version name bq w
    rw [ht]
    exact (recordRun_singleAttempt (isBuilder_NewJSONRequest _ _ _) _ _ b d).2
  · obtain ⟨b, d, -, -, ht, -⟩ := run_BigQueryConfig_Delete c serviceID version name w
    rw [ht]
    exact (statusRun_singleAttempt (isBuilder_NewRequest _ _ _) b d).2
  · obtain ⟨b, d, -, -, ht, -⟩ := run_BigQueryConfig_List c serviceID version w
    rw [ht]
    exact (listRun_singleAttempt (isBuilder_NewRequest _ _ _) _ _ _ _ b d).2
  · obtain ⟨b, d, -, -, ht, -⟩ := run_BigQueryConfig_Create c serviceID version bq w
    rw [ht]
    exact (recordRun_singleAttempt (isBuilder_NewJSONRequest _ _ _) _ _ b d).2
  · have h : ascii "/logging/bigquery/" = ascii "/logging/bigquery" ++ ascii "/" := rfl
    rw [h]
    simp only [List.append_assoc]
  · split
    · rename_i h0
      rw [h0]; rfl
    · rename_i h0
      exact decimal_eq version h0

/-- Claim C5 as stated fails for `VersionConfig.List`: for the service identifier `abc`
its request path is `/service/abc/version`, which is not
`/service/abc/version/{v}/{collection}` for any version number and any non-empty
collection path. -/
theorem version_list_path_counterexample :
    (VersionConfig.List failingTransport.traced (ascii "abc") ((), [])).2.2.head? =
        some (Event.NewRequest (ascii "GET") (ascii "/service/abc/version") none
          (some 1) none) ∧
    ¬ ∃ (v : Nat) (collection : GoString), collection ≠ [] ∧
        LogIs (VersionConfig.List failingTransport.traced (ascii "abc") ((), [])).2.2
          (Event.NewRequest (ascii "GET")
            (ascii "/service/" ++ ascii "abc" ++ ascii "/version/" ++ decimal v ++
              ascii "/" ++ collection) none)
          .versions none := by
  refine ⟨rfl, ?_⟩
  rintro ⟨v, collection, hne, req, err, h⟩
  have hlog : (VersionConfig.List failingTransport.traced (ascii "abc") ((), [])).2.2 =
      [Event.NewRequest (ascii "GET") (ascii "/service/abc/version") none (some 1) none,
        Event.Do (some 1) .versions none none (some 2) (some 3)] := rfl
  rw [hlog] at h
  have hpath : ascii "/service/abc/version" =
      ascii "/service/" ++ ascii "abc" ++ ascii "/version/" ++ decimal v ++
        ascii "/" ++ collection := by
    rcases h with h | ⟨out, resp, err2, h⟩
    · cases h
    · simp only [List.cons.injEq, Event.NewRequest.injEq] at h
      exact h.1.2.1
  have hlen := congrArg List.length hpath
  have h1 : (ascii "/service/abc/version").length = 20 := rfl
  have h2 : (ascii "/service/").length = 9 := rfl
  have h3 : (ascii "abc").length = 3 := rfl
  have h4 : (ascii "/version/").length = 9 := rfl
  have h5 : (ascii "/").length = 1 := rfl
  simp only [List.length_append, h1, h2, h3, h4, h5] at hlen
  omega

/-- Claim C5, amended. `BigQueryConfig.List` issues a `GET` request for
`/service/{serviceID}/version/{version}/{collection}` with the non-empty collection path
`logging/bigquery`; `VersionConfig.List`, which takes no version number, issues a `GET`
request for `/service/{serviceID}/version`. -/
theorem list_paths (c : Client Req Resp Err Rd ω) (w : ω) (serviceID : GoString)
    (version : Nat) :
    LogIs (BigQueryConfig.List c.traced serviceID version (w, [])).2.2
      (Event.NewRequest (ascii "GET")
        (ascii "/service/" ++ serviceID ++ ascii "/version/" ++ decimal version ++
          ascii "/" ++ ascii "logging/bigquery") none)
      .bigQueries none ∧
    ascii "logging/bigquery" ≠ [] ∧
    LogIs (VersionConfig.List c.traced serviceID (w, [])).2.2
      (Event.NewRequest (ascii "GET") (ascii "/service/" ++ serviceID ++ ascii "/version") none)
      .versions none := by
  refine ⟨?_, by decide, ?_⟩
  · obtain ⟨b, d, -, -, ht, -⟩ := run_BigQueryConfig_List c serviceID version w
    rw [ht]
    have h : ascii "/service/" ++ serviceID ++ ascii "/version/" ++ decimal version ++
        ascii "/" ++ ascii "logging/bigquery" =
        ascii "/service/" ++ serviceID ++ ascii "/version/" ++ decimal version ++
        ascii "/logging/bigquery" := by
      have h' : ascii "/logging/bigquery" = ascii "/" ++ ascii "logging/bigquery" := rfl
      rw [h']
      simp only [List.append_assoc]
    rw [h]
    exact (listRun_singleAttempt (isBuilder_NewRequest _ _ _) _ _ _ _ b d).2
  · obtain ⟨b, d, -, -, ht, -⟩ := run_VersionConfig_List c serviceID w
    rw [ht]
    exact (listRun_singleAttempt (isBuilder_NewRequest _ _ _) _ _ _ _ b d).2

theorem item_path_injective (serviceID1 serviceID2 : GoString)
    (version1 version2 : Nat) (name1 name2 : GoString)
    (h1 : (47 : Byte) ∉ serviceID1) (h2 : (47 : Byte) ∉ serviceID2)
    (h : ascii "/service/" ++ serviceID1 ++ ascii "/version/" ++ decimal version1 ++
          ascii "/logging/bigquery/" ++ name1 =
        ascii "/service/" ++ serviceID2 ++ ascii "/version/" ++ decimal version2 ++
          ascii "/logging/bigquery/" ++ name2) :
    serviceID1 = serviceID2 ∧ version1 = version2 ∧ name1 = name2 := by
  have hv : ascii "/version/" = 47 :: ascii "version/" := rfl
  have hl : ascii "/logging/bigquery/" = 47 :: ascii "logging/bigquery/" := rfl
  rw [hv, hl] at h
  simp only [List.append_assoc, List.cons_append] at h
  have h' := List.append_cancel_left h
  obtain ⟨hs, h'⟩ := append_slash_inj _ _ _ _ h1 h2 h'
  have h'' := List.append_cancel_left h'
  obtain ⟨hd, h''⟩ := append_slash_inj _ _ _ _ (decimal_no_slash _) (decimal_no_slash _) h''
  exact ⟨hs, decimal_injective _ _ hd, List.append_cancel_left h''⟩

/-- Claim C9. The item path requested by `BigQueryConfig.Get`, `Update` and `Delete`
identifies its resource key whenever the service identifiers contain no `/`: when two
calls of `Get` (of `Update`, of `Delete`), in any worlds and with any records, hand the
same URL to the request builder, they were made with equal service identifiers, equal
version numbers and equal names (names may hold any bytes). -/
theorem bigquery_item_path_injective (c : Client Req Resp Err Rd ω) (w1 w2 : ω)
    (serviceID1 serviceID2 : GoString) (version1 version2 : Nat) (name1 name2 : GoString)
    (bq1 bq2 : Option BigQuery)
    (h1 : (47 : Byte) ∉ serviceID1) (h2 : (47 : Byte) ∉ serviceID2) :
    (requestedURL (BigQueryConfig.Get c.traced serviceID1 version1 name1 (w1, [])).2.2 =
        requestedURL (BigQueryConfig.Get c.traced serviceID2 version2 name2 (w2, [])).2.2 →
      serviceID1 = serviceID2 ∧ version1 = version2 ∧ name1 = name2) ∧
    (requestedURL (BigQueryConfig.Update c.traced serviceID1 version1 name1 bq1 (w1, [])).2.2 =
        requestedURL
          (BigQueryConfig.Update c.traced serviceID2 version2 name2 bq2 (w2, [])).2.2 →
      serviceID1 = serviceID2 ∧ version1 = version2 ∧ name1 = name2) ∧
    (requestedURL (BigQueryConfig.Delete c.traced serviceID1 version1 name1 (w1, [])).2.2 =
        requestedURL (BigQueryConfig.Delete c.traced serviceID2 version2 name2 (w2, [])).2.2 →
      serviceID1 = serviceID2 ∧ version1 = version2 ∧ name1 = name2) := by
  refine ⟨?_, ?_, ?_⟩
  · intro h
    obtain ⟨b, d, -, -, ht, -⟩ := run_BigQueryConfig_Get c serviceID1 version1 name1 w1
    obtain ⟨b', d', -, -, ht', -⟩ := run_BigQueryConfig_Get c serviceID2 version2 name2 w2
    rw [ht, ht', requestedURL_recordRun_NewRequest, requestedURL_recordRun_NewRequest] at h
    exact item_path_injective _ _ _ _ _ _ h1 h2 (Option.some.inj h)
  · intro h
    obtain ⟨b, d, -, -, ht, -⟩ := run_BigQueryConfig_Update c serviceID1 version1 name1 bq1 w1
    obtain ⟨b', d', -, -, ht', -⟩ :=
      run_BigQueryConfig_Update c serviceID2 version2 name2 bq2 w2
    rw [ht, ht', requestedURL_recordRun_NewJSONRequest,
      requestedURL_recordRun_NewJSONRequest] at h
    exact item_path_injective _ _ _ _ _ _ h1 h2 (Option.some.inj h)
  · intro h
    obtain ⟨b, d, -, -, ht, -⟩ := run_BigQueryConfig_Delete c serviceID1 version1 name1 w1
    obtain ⟨b', d', -, -, ht', -⟩ := run_BigQueryConfig_Delete c serviceID2 version2 name2 w2
    rw [ht, ht', requestedURL_statusRun_NewRequest, requestedURL_statusRun_NewRequest] at h
    exact item_path_injective _ _ _ _ _ _ h1 h2 (Option.some.inj h)

/-- Claim C9 at two calls of `Get` with the service identifier `svc`, version 12 and the
name `a/b`: both hand `/service/svc/version/12/logging/bigquery/a/b` to the builder. -/
theorem bigquery_item_path_injective_witness :
    (47 : Byte) ∉ ascii "svc" ∧
      requestedURL
          (BigQueryConfig.Get failingTransport.traced (ascii "svc") 12 (ascii "a/b")
            ((), [])).2.2 =
        some (ascii "/service/svc/version/12/logging/bigquery/a/b") ∧
      (ascii "svc" = ascii "svc" ∧ 12 = 12 ∧ ascii "a/b" = ascii "a/b") :=
  ⟨by decide, rfl,
    (bigquery_item_path_injective failingTransport () () (ascii "svc") (ascii "svc") 12 12
      (ascii "a/b") (ascii "a/b") none none (by decide) (by decide)).1 rfl⟩

end PathClaims

/-! ## Correctness of `sort.Stable` -/

section SortBasics

variable {ε κ : Type} [LinearOrder κ]

theorem except_ok_bind {α β : Type} (a : α) (f : α → Except Panic β) :
    (Except.ok a >>= f) = f a := rfl

theorem except_pure {α : Type} (a : α) : (pure a : Except Panic α) = Except.ok a := rfl

theorem ite_bind_fold {α β : Type} (c : Prop) [Decidable c] (x y : Except Panic α)
    (f : α → Except Panic β) :
    (if c then x >>= f else y >>= f) = ((if c then x else y) >>= f) := by
  split <;> rfl

theorem getElem?_mid (L : List ε) (x : ε) (R : List ε) :
    (L ++ x :: R)[L.length]? = some x := by
  rw [List.getElem?_append_right (le_refl _), Nat.sub_self]
  exact List.getElem?_cons_zero

theorem swap_lt {data : sort.Interface (List ε)} {k : ε → κ} {good : ε → Prop}
    (hm : ListModel data k good) (L1 L2 L3 : List ε) (x y : ε) (i j : Nat)
    (hi : i = L1.length) (hj : j = L1.length + 1 + L2.length) :
    data.Swap (L1 ++ x :: (L2 ++ y :: L3)) i j = .ok (L1 ++ y :: (L2 ++ x :: L3)) := by
  subst hi hj
  have h1 : (L1 ++ x :: (L2 ++ y :: L3))[L1.length]? = some x := getElem?_mid _ _ _
  have h2 : (L1 ++ x :: (L2 ++ y :: L3))[L1.length + 1 + L2.length]? = some y := by
    have := getElem?_mid (L1 ++ x :: L2) y L3
    have e : (L1 ++ x :: L2).length = L1.length + 1 + L2.length := by
      simp only [List.length_append, List.length_cons]; omega
    rw [e] at this
    simpa only [List.append_assoc, List.cons_append] using this
  rw [hm.swap _ _ _ x y h1 h2]
  congr 1
  have e1 : (L1 ++ x :: (L2 ++ y :: L3)).set L1.length y = L1 ++ y :: (L2 ++ y :: L3) := by
    simp
  rw [e1]
  have e2 : L1 ++ y :: (L2 ++ y :: L3) = (L1 ++ y :: L2) ++ y :: L3 := by simp
  have e3 : L1.length + 1 + L2.length = (L1 ++ y :: L2).length := by simp; omega
  rw [e2, e3]
  simp

theorem swap_gt {data : sort.Interface (List ε)} {k : ε → κ} {good : ε → Prop}
    (hm : ListModel data k good) (L1 L2 L3 : List ε) (x y : ε) (i j : Nat)
    (hi : i = L1.length) (hj : j = L1.length + 1 + L2.length) :
    data.Swap (L1 ++ x :: (L2 ++ y :: L3)) j i = .ok (L1 ++ y :: (L2 ++ x :: L3)) := by
  subst hi hj
  have h1 : (L1 ++ x :: (L2 ++ y :: L3))[L1.length]? = some x := getElem?_mid _ _ _
  have h2 : (L1 ++ x :: (L2 ++ y :: L3))[L1.length + 1 + L2.length]? = some y := by
    have := getElem?_mid (L1 ++ x :: L2) y L3
    have e : (L1 ++ x :: L2).length = L1.length + 1 + L2.length := by
      simp only [List.length_append, List.length_cons]; omega
    rw [e] at this
    simpa only [List.append_assoc, List.cons_append] using this
  rw [hm.swap _ _ _ y x h2 h1]
  congr 1
  have e2 : L1 ++ x :: (L2 ++ y :: L3) = (L1 ++ x :: L2) ++ y :: L3 := by simp
  have e3 : L1.length + 1 + L2.length = (L1 ++ x :: L2).length := by simp; omega
  rw [e2, e3]
  simp

theorem less_at {data : sort.Interface (List ε)} {k : ε → κ} {good : ε → Prop}
    (hm : ListModel data k good) (s : List ε) (hg : ∀ z ∈ s, good z) (i j : Nat) (x y : ε)
    (hx : s[i]? = some x) (hy : s[j]? = some y) :
    data.Less s i j = .ok (decide (k x < k y)) :=
  hm.less s i j x y hx hy (hg x (List.getElem?_mem hx)) (hg y (List.getElem?_mem hy))

theorem getElem?_at (s L R : List ε) (x : ε) (i : Nat) (hs : s = L ++ x :: R)
    (hi : i = L.length) : s[i]? = some x := by
  subst hs hi
  exact getElem?_mid _ _ _

end SortBasics

section InsertionSort

variable {ε κ : Type} [LinearOrder κ]

theorem insertionSortInner_spec {data : sort.Interface (List ε)} {k : ε → κ}
    {good : ε → Prop} (hm : ListModel data k good) (fuel : Nat) :
    ∀ (pre S1 : List ε) (x : ε) (R : List ε) (a j : Nat),
      a = pre.length → j = pre.length + S1.length → S1.length < fuel →
      (∀ z ∈ pre ++ (S1 ++ x :: R), good z) →
      S1.Pairwise (fun u v => k u ≤ k v) →
      ∃ L1 L2, S1 = L1 ++ L2 ∧
        sort.insertionSortInner data fuel (pre ++ (S1 ++ x :: R)) a j =
          .ok (pre ++ (L1 ++ x :: (L2 ++ R))) ∧
        (∀ z ∈ L1, k z ≤ k x) ∧ (∀ z ∈ L2, k x < k z) := by
  induction fuel with
  | zero => intro pre S1 x R a j _ _ hf; omega
  | succ fuel ih =>
    intro pre S1 x R a j ha hj hf hg hs
    rcases List.eq_nil_or_concat S1 with rfl | ⟨S, y, hS1⟩
    · refine ⟨[], [], rfl, ?_, by simp, by simp⟩
      have : ¬ j > a := by simp at hj; omega
      simp only [sort.insertionSortInner, this, if_false]
      rfl
    · rw [List.concat_eq_append] at hS1
      subst hS1
      have hja : j > a := by simp at hj; omega
      have hx : (pre ++ (S ++ [y] ++ x :: R))[j]? = some x :=
        getElem?_at _ (pre ++ (S ++ [y])) R x j (by simp) (by simp at hj ⊢; omega)
      have hy : (pre ++ (S ++ [y] ++ x :: R))[j - 1]? = some y :=
        getElem?_at _ (pre ++ S) (x :: R) y (j - 1) (by simp) (by simp at hj ⊢; omega)
      have hless := less_at hm _ hg j (j - 1) x y hx hy
      simp only [sort.insertionSortInner, hja, if_true, hless, except_ok_bind]
      by_cases hlt : k x < k y
      · simp only [hlt, decide_True, if_true]
        have hsw : data.Swap (pre ++ (S ++ [y] ++ x :: R)) j (j - 1) =
            .ok (pre ++ (S ++ x :: (y :: R))) := by
          have := swap_gt hm (pre ++ S) [] R y x (j - 1) j (by simp at hj ⊢; omega)
            (by simp at hj ⊢; omega)
          simpa using this
        rw [hsw, except_ok_bind]
        have hs' : S.Pairwise (fun u v => k u ≤ k v) := (List.pairwise_append.1 hs).1
        obtain ⟨L1, L2, hS, hrun, h1, h2⟩ := ih pre S x (y :: R) a (j - 1) ha
          (by simp at hj ⊢; omega) (by simp at hf; omega)
          (fun z hz => hg z (by simp at hz ⊢; tauto)) hs'
        refine ⟨L1, L2 ++ [y], by rw [hS]; simp, ?_, h1, ?_⟩
        · rw [hrun]; simp
        · intro z hz
          rcases List.mem_append.1 hz with hz | hz
          · exact h2 z hz
          · simp at hz; subst hz; exact hlt
      · simp only [hlt, decide_False, if_false, Bool.false_eq_true]
        refine ⟨S ++ [y], [], by simp, by simp [except_pure], ?_, by simp⟩
        intro z hz
        have hyx : k y ≤ k x := not_lt.1 hlt
        rcases List.mem_append.1 hz with hz | hz
        · have := (List.pairwise_append.1 hs).2.2 z hz y (by simp)
          exact le_trans this hyx
        · simp at hz; subst hz; exact hyx

theorem stableSorted_refl_of_sorted (k : ε → κ) (l : List ε)
    (h : l.Pairwise (fun u v => k u ≤ k v)) : StableSorted k l l :=
  ⟨List.Perm.refl _, h, fun _ => rfl⟩

theorem stableSorted_insert (k : ε → κ) (S0 L1 L2 : List ε) (x : ε)
    (h : StableSorted k (L1 ++ L2) S0) (h1 : ∀ z ∈ L1, k z ≤ k x) (h2 : ∀ z ∈ L2, k x < k z) :
    StableSorted k (L1 ++ x :: L2) (S0 ++ [x]) := by
  obtain ⟨hp, hs, hf⟩ := h
  refine ⟨?_, ?_, ?_⟩
  · have e1 : (L1 ++ x :: L2).Perm (x :: (L1 ++ L2)) := List.perm_middle
    have e2 : (x :: (L1 ++ L2)).Perm (x :: S0) := List.Perm.cons x hp
    have e3 : (x :: S0).Perm (S0 ++ [x]) := (List.perm_append_singleton x S0).symm
    exact e1.trans (e2.trans e3)
  · rw [List.pairwise_append] at hs ⊢
    refine ⟨hs.1, ?_, ?_⟩
    · rw [List.pairwise_cons]
      exact ⟨fun z hz => le_of_lt (h2 z hz), hs.2.1⟩
    · intro u hu v hv
      rcases List.mem_cons.1 hv with rfl | hv
      · exact h1 u hu
      · exact hs.2.2 u hu v hv
  · intro c
    have hc := hf c
    rw [List.filter_append] at hc
    rw [List.filter_append, List.filter_append, ← hc, List.filter_cons]
    by_cases hx : k x = c
    · have hL2 : L2.filter (fun z => decide (k z = c)) = [] := by
        rw [List.filter_eq_nil_iff]
        intro z hz
        have := h2 z hz
        simp only [decide_eq_true_eq]
        intro hzc
        rw [hzc, ← hx] at this
        exact lt_irrefl _ this
      simp [hx, hL2]
    · simp [hx]

theorem insertionSortOuter_spec {data : sort.Interface (List ε)} {k : ε → κ}
    {good : ε → Prop} (hm : ListModel data k good) (fuel : Nat) :
    ∀ (pre S T post S0 : List ε) (a b i : Nat),
      a = pre.length → i = a + S.length → b = a + S.length + T.length → T.length < fuel →
      (∀ z ∈ pre ++ (S ++ (T ++ post)), good z) →
      StableSorted k S S0 →
      ∃ M, sort.insertionSortOuter data fuel (pre ++ (S ++ (T ++ post))) a b i =
          .ok (pre ++ (M ++ post)) ∧ StableSorted k M (S0 ++ T) := by
  induction fuel with
  | zero => intro pre S T post S0 a b i _ _ _ hf; omega
  | succ fuel ih =>
    intro pre S T post S0 a b i ha hi hb hf hg hS
    cases T with
    | nil =>
      refine ⟨S, ?_, by simpa using hS⟩
      have : ¬ i < b := by simp at hb; omega
      simp only [sort.insertionSortOuter, this, if_false]
      rfl
    | cons x T =>
      have hib : i < b := by simp at hb; omega
      obtain ⟨L1, L2, hSeq, hrun, h1, h2⟩ := insertionSortInner_spec hm (i - a + 1) pre S x
        (T ++ post) a i ha (by omega) (by omega) (by simpa using hg) hS.2.1
      simp only [sort.insertionSortOuter, hib, if_true, List.cons_append, hrun, except_ok_bind]
      have hS' : StableSorted k (L1 ++ x :: L2) (S0 ++ [x]) :=
        stableSorted_insert k S0 L1 L2 x (hSeq ▸ hS) h1 h2
      obtain ⟨M, hM, hMs⟩ := ih pre (L1 ++ x :: L2) T post (S0 ++ [x]) a b (i + 1) ha
        (by rw [hSeq] at hi; simp at hi ⊢; omega) (by rw [hSeq] at hb; simp at hb ⊢; omega)
        (by simp at hf; omega)
        (fun z hz => hg z (by rw [hSeq]; simp at hz ⊢; tauto)) hS'
      refine ⟨M, ?_, by simpa using hMs⟩
      rw [← hM]
      simp

theorem insertionSort_spec {data : sort.Interface (List ε)} {k : ε → κ}
    {good : ε → Prop} (hm : ListModel data k good) (pre X post : List ε) (a b : Nat)
    (ha : a = pre.length) (hb : b = a + X.length)
    (hg : ∀ z ∈ pre ++ (X ++ post), good z) :
    ∃ M, sort.insertionSort data (pre ++ (X ++ post)) a b = .ok (pre ++ (M ++ post)) ∧
      StableSorted k M X := by
  cases X with
  | nil =>
    refine ⟨[], ?_, stableSorted_refl_of_sorted k [] List.Pairwise.nil⟩
    have : ¬ a + 1 < b := by simp at hb; omega
    simp only [sort.insertionSort, sort.insertionSortOuter, this, if_false]
    rfl
  | cons x T =>
    obtain ⟨M, hM, hMs⟩ := insertionSortOuter_spec hm (b - a + 1) pre [x] T post [x] a b (a + 1)
      ha (by simp) (by simp at hb ⊢; omega) (by simp at hb; omega) (by simpa using hg)
      (stableSorted_refl_of_sorted k [x] (List.pairwise_singleton _ _))
    exact ⟨M, by simpa [sort.insertionSort] using hM, by simpa using hMs⟩

end InsertionSort

section Rotate

variable {ε κ : Type} [LinearOrder κ]

theorem swapRangeLoop_spec {data : sort.Interface (List ε)} {k : ε → κ}
    {good : ε → Prop} (hm : ListModel data k good) (fuel : Nat) :
    ∀ (P X Mid Y R : List ε) (a b n i : Nat),
      a + i = P.length → b + i = P.length + X.length + Mid.length → X.length = Y.length →
      n = i + X.length → X.length < fuel →
      sort.swapRangeLoop data fuel (P ++ (X ++ (Mid ++ (Y ++ R)))) a b n i =
        .ok (P ++ (Y ++ (Mid ++ (X ++ R)))) := by
  induction fuel with
  | zero => intro P X Mid Y R a b n i _ _ _ _ hf; omega
  | succ fuel ih =>
    intro P X Mid Y R a b n i ha hb hxy hn hf
    cases X with
    | nil =>
      have hY : Y = [] := List.length_eq_zero.1 (by simpa using hxy.symm)
      subst hY
      have : ¬ i < n := by simp at hn; omega
      simp only [sort.swapRangeLoop, this, if_false]
      rfl
    | cons x X =>
      cases Y with
      | nil => simp at hxy
      | cons y Y =>
        have hin : i < n := by simp at hn; omega
        have hsw : data.Swap (P ++ (x :: X ++ (Mid ++ (y :: Y ++ R)))) (a + i) (b + i) =
            .ok (P ++ y :: ((X ++ Mid) ++ x :: (Y ++ R))) := by
          have := swap_lt hm P (X ++ Mid) (Y ++ R) x y (a + i) (b + i) ha
            (by simp at hb ⊢; omega)
          simpa using this
        simp only [sort.swapRangeLoop, hin, if_true, hsw, except_ok_bind]
        have := ih (P ++ [y]) X (Mid ++ [x]) Y R a b n (i + 1) (by simp; omega)
          (by simp at hb ⊢; omega) (by simpa using hxy) (by simp at hn; omega)
          (by simp at hf; omega)
        simpa using this

theorem swapRange_spec {data : sort.Interface (List ε)} {k : ε → κ}
    {good : ε → Prop} (hm : ListModel data k good) (P X Mid Y R : List ε) (a b n : Nat)
    (ha : a = P.length) (hb : b = P.length + X.length + Mid.length) (hx : n = X.length)
    (hy : n = Y.length) :
    sort.swapRange data (P ++ (X ++ (Mid ++ (Y ++ R)))) a b n =
      .ok (P ++ (Y ++ (Mid ++ (X ++ R)))) :=
  swapRangeLoop_spec hm (n + 1) P X Mid Y R a b n 0 (by omega) (by omega) (by omega)
    (by omega) (by omega)

theorem rotateLoop_spec {data : sort.Interface (List ε)} {k : ε → κ}
    {good : ε → Prop} (hm : ListModel data k good) (fuel : Nat) :
    ∀ (P X Y R : List ε) (m i j : Nat),
      m = P.length + X.length → i = X.length → j = Y.length → 0 < i → 0 < j →
      i + j < fuel + 1 + 1 →
      sort.rotateLoop data fuel (P ++ (X ++ (Y ++ R))) m i j = .ok (P ++ (Y ++ (X ++ R))) := by
  induction fuel with
  | zero => intro P X Y R m i j _ _ _ hi hj hf; omega
  | succ fuel ih =>
    intro P X Y R m i j hm' hi hj hi0 hj0 hf
    by_cases hij : i = j
    · have hne : ¬ i ≠ j := fun h => h hij
      simp only [sort.rotateLoop, hne, if_false]
      have := swapRange_spec hm P X [] Y R (m - i) m i (by omega) (by simp; omega) hi
        (by omega)
      simpa using this
    · by_cases hgt : i > j
      · simp only [sort.rotateLoop, ne_eq, hij, not_false_eq_true, if_true, hgt]
        obtain ⟨X1, X2, rfl, hl1⟩ : ∃ X1 X2, X = X1 ++ X2 ∧ X1.length = j :=
          ⟨X.take j, X.drop j, (List.take_append_drop j X).symm, by
            rw [List.length_take]; omega⟩
        have hl2 : X2.length = i - j := by simp at hi; omega
        have hsw := swapRange_spec hm P X1 X2 Y R (m - i) m j (by simp at hm'; omega)
          (by simp at hm'; omega) hl1.symm hj
        have hs : P ++ (X1 ++ X2 ++ (Y ++ R)) = P ++ (X1 ++ (X2 ++ (Y ++ R))) := by simp
        rw [hs, hsw, except_ok_bind]
        have := ih (P ++ Y) X2 X1 R m (i - j) j (by simp at hm' ⊢; omega)
          hl2.symm hl1.symm (by omega) hj0 (by omega)
        have e : P ++ (Y ++ (X2 ++ (X1 ++ R))) = (P ++ Y) ++ (X2 ++ (X1 ++ R)) := by simp
        rw [e, this]
        simp
      · have hlt : i < j := by omega
        simp only [sort.rotateLoop, ne_eq, hij, not_false_eq_true, if_true, hgt, if_false]
        obtain ⟨Y1, Y2, rfl, hl1⟩ : ∃ Y1 Y2, Y = Y1 ++ Y2 ∧ Y1.length = j - i :=
          ⟨Y.take (j - i), Y.drop (j - i), (List.take_append_drop (j - i) Y).symm, by
            rw [List.length_take]; omega⟩
        have hl2 : Y2.length = i := by simp at hj; omega
        have hsw := swapRange_spec hm P X Y1 Y2 R (m - i) (m + j - i) i (by omega) (by omega)
          hi hl2.symm
        have hs : P ++ (X ++ (Y1 ++ Y2 ++ R)) = P ++ (X ++ (Y1 ++ (Y2 ++ R))) := by simp
        rw [hs, hsw, except_ok_bind]
        have := ih P Y2 Y1 (X ++ R) m i (j - i) (by omega)
          hl2.symm hl1.symm hi0 (by omega) (by omega)
        rw [this]
        simp

theorem rotate_spec {data : sort.Interface (List ε)} {k : ε → κ}
    {good : ε → Prop} (hm : ListModel data k good) (P X Y R : List ε) (a m b : Nat)
    (ha : a = P.length) (hm' : m = a + X.length) (hb : b = m + Y.length)
    (hX : X ≠ []) (hY : Y ≠ []) :
    sort.rotate data (P ++ (X ++ (Y ++ R))) a m b = .ok (P ++ (Y ++ (X ++ R))) := by
  have h1 : 0 < X.length := List.length_pos.2 hX
  have h2 : 0 < Y.length := List.length_pos.2 hY
  exact rotateLoop_spec hm ((m - a) + (b - m) + 1) P X Y R m (m - a) (b - m) (by omega) (by omega)
    (by omega) (by omega) (by omega) (by omega)

end Rotate

section Search

variable {ε κ : Type} [LinearOrder κ]

theorem less_get {data : sort.Interface (List ε)} {k : ε → κ} {good : ε → Prop}
    (hm : ListModel data k good) (s : List ε) (hg : ∀ z ∈ s, good z) (p q : Nat)
    (hp : p < s.length) (hq : q < s.length) :
    ∃ x y, s[p]? = some x ∧ s[q]? = some y ∧ data.Less s p q = .ok (decide (k x < k y)) :=
  ⟨s[p], s[q], List.getElem?_eq_getElem hp, List.getElem?_eq_getElem hq,
    less_at hm s hg p q s[p] s[q] (List.getElem?_eq_getElem hp) (List.getElem?_eq_getElem hq)⟩

theorem searchLow_spec {data : sort.Interface (List ε)} {k : ε → κ} {good : ε → Prop}
    (hm : ListModel data k good) (s : List ε) (hg : ∀ z ∈ s, good z) (a i0 j0 : Nat)
    (ha : a < s.length) (hj0 : j0 ≤ s.length) (fuel : Nat) :
    ∀ (i j : Nat), i0 ≤ i → i ≤ j → j ≤ j0 → j - i < fuel →
      (i0 < i → LtAt k s (i - 1) a) → (j < j0 → LeAt k s a j) →
      ∃ r, sort.searchLow data fuel s a i j = .ok r ∧ i0 ≤ r ∧ r ≤ j0 ∧
        (i0 < r → LtAt k s (r - 1) a) ∧ (r < j0 → LeAt k s a r) := by
  induction fuel with
  | zero => intro i j _ _ _ hf; omega
  | succ fuel ih =>
    intro i j hi hij hj hf hP hQ
    by_cases hlt : i < j
    · have hh1 : i ≤ (i + j) / 2 := by omega
      have hh2 : (i + j) / 2 < j := by omega
      obtain ⟨x, y, hx, hy, hless⟩ := less_get hm s hg ((i + j) / 2) a (by omega) ha
      simp only [sort.searchLow, hlt, if_true, hless, except_ok_bind]
      by_cases hxy : k x < k y
      · simp only [hxy, decide_True, if_true]
        exact ih ((i + j) / 2 + 1) j (by omega) (by omega) hj (by omega)
          (fun _ => ⟨x, y, by simpa using hx, hy, hxy⟩) hQ
      · simp only [hxy, decide_False, Bool.false_eq_true, if_false]
        exact ih i ((i + j) / 2) hi hh1 (by omega) (by omega) hP
          (fun _ => ⟨y, x, hy, hx, not_lt.1 hxy⟩)
    · have hij' : i = j := by omega
      subst hij'
      refine ⟨i, ?_, hi, hj, hP, hQ⟩
      simp only [sort.searchLow, hlt, if_false]
      rfl

theorem searchHigh_spec {data : sort.Interface (List ε)} {k : ε → κ} {good : ε → Prop}
    (hm : ListModel data k good) (s : List ε) (hg : ∀ z ∈ s, good z) (m i0 j0 : Nat)
    (hm' : m < s.length) (hj0 : j0 ≤ s.length) (fuel : Nat) :
    ∀ (i j : Nat), i0 ≤ i → i ≤ j → j ≤ j0 → j - i < fuel →
      (i0 < i → LeAt k s (i - 1) m) → (j < j0 → LtAt k s m j) →
      ∃ r, sort.searchHigh data fuel s m i j = .ok r ∧ i0 ≤ r ∧ r ≤ j0 ∧
        (i0 < r → LeAt k s (r - 1) m) ∧ (r < j0 → LtAt k s m r) := by
  induction fuel with
  | zero => intro i j _ _ _ hf; omega
  | succ fuel ih =>
    intro i j hi hij hj hf hP hQ
    by_cases hlt : i < j
    · have hh1 : i ≤ (i + j) / 2 := by omega
      have hh2 : (i + j) / 2 < j := by omega
      obtain ⟨x, y, hx, hy, hless⟩ := less_get hm s hg m ((i + j) / 2) hm' (by omega)
      simp only [sort.searchHigh, hlt, if_true, hless, except_ok_bind]
      by_cases hxy : k x < k y
      · simp only [hxy, decide_True, Bool.not_true, Bool.false_eq_true, if_false]
        exact ih i ((i + j) / 2) hi hh1 (by omega) (by omega) hP
          (fun _ => ⟨x, y, hx, hy, hxy⟩)
      · simp only [hxy, decide_False, Bool.not_false, if_true]
        exact ih ((i + j) / 2 + 1) j (by omega) (by omega) hj (by omega)
          (fun _ => ⟨y, x, by simpa using hy, hx, not_lt.1 hxy⟩) hQ
    · have hij' : i = j := by omega
      subst hij'
      refine ⟨i, ?_, hi, hj, hP, hQ⟩
      simp only [sort.searchHigh, hlt, if_false]
      rfl

theorem searchSym_spec {data : sort.Interface (List ε)} {k : ε → κ} {good : ε → Prop}
    (hm : ListModel data k good) (s : List ε) (hg : ∀ z ∈ s, good z) (p i0 j0 : Nat)
    (hj0 : j0 ≤ s.length) (hp : ∀ c, i0 ≤ c → c < j0 → p - c < s.length) (fuel : Nat) :
    ∀ (i j : Nat), i0 ≤ i → i ≤ j → j ≤ j0 → j - i < fuel →
      (i0 < i → LeAt k s (i - 1) (p - (i - 1))) → (j < j0 → LtAt k s (p - j) j) →
      ∃ r, sort.searchSym data fuel s p i j = .ok r ∧ i0 ≤ r ∧ r ≤ j0 ∧
        (i0 < r → LeAt k s (r - 1) (p - (r - 1))) ∧ (r < j0 → LtAt k s (p - r) r) := by
  induction fuel with
  | zero => intro i j _ _ _ hf; omega
  | succ fuel ih =>
    intro i j hi hij hj hf hP hQ
    by_cases hlt : i < j
    · have hh1 : i ≤ (i + j) / 2 := by omega
      have hh2 : (i + j) / 2 < j := by omega
      obtain ⟨x, y, hx, hy, hless⟩ := less_get hm s hg (p - (i + j) / 2) ((i + j) / 2)
        (hp _ (by omega) (by omega)) (by omega)
      simp only [sort.searchSym, hlt, if_true, hless, except_ok_bind]
      by_cases hxy : k x < k y
      · simp only [hxy, decide_True, Bool.not_true, Bool.false_eq_true, if_false]
        exact ih i ((i + j) / 2) hi hh1 (by omega) (by omega) hP
          (fun _ => ⟨x, y, hx, hy, hxy⟩)
      · simp only [hxy, decide_False, Bool.not_false, if_true]
        exact ih ((i + j) / 2 + 1) j (by omega) (by omega) hj (by omega)
          (fun _ => ⟨y, x, by simpa using hy, by simpa using hx, not_lt.1 hxy⟩) hQ
    · have hij' : i = j := by omega
      subst hij'
      refine ⟨i, ?_, hi, hj, hP, hQ⟩
      simp only [sort.searchSym, hlt, if_false]
      rfl

end Search

section MergeHelpers

variable {ε κ : Type} [LinearOrder κ]

theorem swapUp_spec {data : sort.Interface (List ε)} {k : ε → κ} {good : ε → Prop}
    (hm : ListModel data k good) (fuel : Nat) :
    ∀ (P B1 R : List ε) (x : ε) (j i : Nat),
      j = P.length → i = P.length + B1.length + 1 → B1.length < fuel →
      sort.swapUp data fuel (P ++ x :: (B1 ++ R)) j i = .ok (P ++ (B1 ++ x :: R)) := by
  induction fuel with
  | zero => intro P B1 R x j i _ _ hf; omega
  | succ fuel ih =>
    intro P B1 R x j i hj hi hf
    cases B1 with
    | nil =>
      have : ¬ j < i - 1 := by simp at hi; omega
      simp only [sort.swapUp, this, if_false]
      rfl
    | cons y B1 =>
      have hlt : j < i - 1 := by simp at hi; omega
      have hsw : data.Swap (P ++ x :: (y :: B1 ++ R)) j (j + 1) =
          .ok (P ++ y :: (x :: (B1 ++ R))) := by
        have := swap_lt hm P [] (B1 ++ R) x y j (j + 1) hj (by simp; omega)
        simpa using this
      simp only [sort.swapUp, hlt, if_true, hsw, except_ok_bind]
      have := ih (P ++ [y]) B1 R x (j + 1) i (by simp; omega) (by simp at hi ⊢; omega)
        (by simp at hf; omega)
      simpa using this

theorem swapDown_spec {data : sort.Interface (List ε)} {k : ε → κ} {good : ε → Prop}
    (hm : ListModel data k good) (fuel : Nat) :
    ∀ (P A2 R : List ε) (y : ε) (j i : Nat),
      i = P.length → j = P.length + A2.length → A2.length < fuel →
      sort.swapDown data fuel (P ++ (A2 ++ y :: R)) j i = .ok (P ++ y :: (A2 ++ R)) := by
  induction fuel with
  | zero => intro P A2 R y j i _ _ hf; omega
  | succ fuel ih =>
    intro P A2 R y j i hi hj hf
    rcases List.eq_nil_or_concat A2 with rfl | ⟨A, z, hA⟩
    · have : ¬ j > i := by simp at hj; omega
      simp only [sort.swapDown, this, if_false]
      rfl
    · rw [List.concat_eq_append] at hA
      subst hA
      have hgt : j > i := by simp at hj; omega
      have hsw : data.Swap (P ++ (A ++ [z] ++ y :: R)) j (j - 1) =
          .ok (P ++ (A ++ y :: (z :: R))) := by
        have := swap_gt hm (P ++ A) [] R z y (j - 1) j (by simp at hj ⊢; omega)
          (by simp at hj ⊢; omega)
        simpa using this
      simp only [sort.swapDown, hgt, if_true, hsw, except_ok_bind]
      have := ih P A (z :: R) y (j - 1) i hi (by simp at hj ⊢; omega) (by simp at hf; omega)
      simpa using this

theorem getElem?_segment (P L R : List ε) (i : Nat) (h1 : P.length ≤ i)
    (h2 : i < P.length + L.length) : (P ++ (L ++ R))[i]? = L[i - P.length]? := by
  rw [List.getElem?_append_right h1, List.getElem?_append_left (by omega)]

theorem sorted_take_le (k : ε → κ) (L : List ε) (hs : L.Pairwise (fun u v => k u ≤ k v))
    (d : Nat) (u : ε) (hu : L[d]? = some u) : ∀ z ∈ L.take (d + 1), k z ≤ k u := by
  intro z hz
  obtain ⟨i, hi, rfl⟩ := List.mem_iff_getElem.1 hz
  rw [List.length_take] at hi
  obtain ⟨hd, rfl⟩ := List.getElem?_eq_some.1 hu
  rw [List.getElem_take]
  rcases Nat.lt_or_ge i d with h | h
  · exact List.pairwise_iff_getElem.1 hs i d (by omega) hd h
  · have : i = d := by omega
    subst this
    exact le_refl _

theorem sorted_drop_ge (k : ε → κ) (L : List ε) (hs : L.Pairwise (fun u v => k u ≤ k v))
    (d : Nat) (u : ε) (hu : L[d]? = some u) : ∀ z ∈ L.drop d, k u ≤ k z := by
  intro z hz
  obtain ⟨i, hi, rfl⟩ := List.mem_iff_getElem.1 hz
  rw [List.length_drop] at hi
  obtain ⟨hd, rfl⟩ := List.getElem?_eq_some.1 hu
  rw [List.getElem_drop]
  rcases Nat.eq_zero_or_pos i with h | h
  · subst h
    exact le_refl _
  · exact List.pairwise_iff_getElem.1 hs d (d + i) hd (by omega) (by omega)

theorem stableSorted_insert_front (k : ε → κ) (B1 B2 : List ε) (x : ε)
    (hs : (B1 ++ B2).Pairwise (fun u v => k u ≤ k v))
    (h1 : ∀ z ∈ B1, k z < k x) (h2 : ∀ z ∈ B2, k x ≤ k z) :
    StableSorted k (B1 ++ x :: B2) ([x] ++ (B1 ++ B2)) := by
  refine ⟨?_, ?_, ?_⟩
  · exact List.perm_middle
  · rw [List.pairwise_append] at hs ⊢
    refine ⟨hs.1, ?_, ?_⟩
    · rw [List.pairwise_cons]
      exact ⟨h2, hs.2.1⟩
    · intro u hu v hv
      rcases List.mem_cons.1 hv with rfl | hv
      · exact le_of_lt (h1 u hu)
      · exact hs.2.2 u hu v hv
  · intro c
    rw [List.filter_append, List.filter_append, List.filter_append, List.filter_cons]
    by_cases hx : k x = c
    · have hB1 : B1.filter (fun z => decide (k z = c)) = [] := by
        rw [List.filter_eq_nil_iff]
        intro z hz
        have := h1 z hz
        simp only [decide_eq_true_eq]
        intro hzc
        rw [hzc, ← hx] at this
        exact lt_irrefl _ this
      simp [hx, hB1]
    · simp [hx]

theorem stableSorted_symMerge (k : ε → κ) (A1 A2 B1 B2 M1 M2 : List ε)
    (hA : (A1 ++ A2).Pairwise (fun u v => k u ≤ k v))
    (hB : (B1 ++ B2).Pairwise (fun u v => k u ≤ k v))
    (h1 : StableSorted k M1 (A1 ++ B1)) (h2 : StableSorted k M2 (A2 ++ B2))
    (c1 : ∀ x ∈ A1, ∀ y ∈ B2, k x ≤ k y) (c2 : ∀ y ∈ B1, ∀ x ∈ A2, k y < k x) :
    StableSorted k (M1 ++ M2) ((A1 ++ A2) ++ (B1 ++ B2)) := by
  obtain ⟨hp1, hs1, hf1⟩ := h1
  obtain ⟨hp2, hs2, hf2⟩ := h2
  refine ⟨?_, ?_, ?_⟩
  · have e1 : (M1 ++ M2).Perm ((A1 ++ B1) ++ (A2 ++ B2)) := List.Perm.append hp1 hp2
    have e2 : ((A1 ++ B1) ++ (A2 ++ B2)).Perm ((A1 ++ A2) ++ (B1 ++ B2)) := by
      simp only [List.append_assoc]
      refine List.Perm.append_left A1 ?_
      rw [← List.append_assoc, ← List.append_assoc]
      exact List.Perm.append_right B2 List.perm_append_comm
    exact e1.trans e2
  · rw [List.pairwise_append]
    refine ⟨hs1, hs2, ?_⟩
    intro u hu v hv
    have hu' := hp1.subset hu
    have hv' := hp2.subset hv
    rw [List.pairwise_append] at hA hB
    rcases List.mem_append.1 hu' with hu' | hu' <;> rcases List.mem_append.1 hv' with hv' | hv'
    · exact hA.2.2 u hu' v hv'
    · exact c1 u hu' v hv'
    · exact le_of_lt (c2 u hu' v hv')
    · exact hB.2.2 u hu' v hv'
  · intro c
    have e : B1.filter (fun z => decide (k z = c)) ++ A2.filter (fun z => decide (k z = c)) =
        A2.filter (fun z => decide (k z = c)) ++ B1.filter (fun z => decide (k z = c)) := by
      by_cases hex : ∃ y ∈ B1, k y = c
      · obtain ⟨y, hy, hyc⟩ := hex
        have : A2.filter (fun z => decide (k z = c)) = [] := by
          rw [List.filter_eq_nil_iff]
          intro z hz
          have := c2 y hy z hz
          simp only [decide_eq_true_eq]
          intro hzc
          rw [hzc, hyc] at this
          exact lt_irrefl _ this
        rw [this]; simp
      · have : B1.filter (fun z => decide (k z = c)) = [] := by
          rw [List.filter_eq_nil_iff]
          intro z hz
          simp only [decide_eq_true_eq]
          intro hzc
          exact hex ⟨z, hz, hzc⟩
        rw [this]; simp
    have g1 := hf1 c
    have g2 := hf2 c
    rw [List.filter_append] at g1 g2
    rw [List.filter_append, g1, g2]
    simp only [List.filter_append, List.append_assoc]
    rw [← List.append_assoc (List.filter _ B1), e]
    simp only [List.append_assoc]

end MergeHelpers

section SymMerge

variable {ε κ : Type} [LinearOrder κ]

theorem symMerge_left_one {data : sort.Interface (List ε)} {k : ε → κ} {good : ε → Prop}
    (hm : ListModel data k good) (pre B post : List ε) (x : ε) (a m b : Nat)
    (ha : a = pre.length) (hm' : m = a + 1) (hb : b = m + B.length)
    (hg : ∀ z ∈ pre ++ ([x] ++ (B ++ post)), good z)
    (hB : B.Pairwise (fun u v => k u ≤ k v)) :
    ∃ M, (do
        let i ← sort.searchLow data (b - m + 1) (pre ++ ([x] ++ (B ++ post))) a m b
        sort.swapUp data (i - a + 1) (pre ++ ([x] ++ (B ++ post))) a i) =
          .ok (pre ++ (M ++ post)) ∧
      StableSorted k M ([x] ++ B) := by
  have hxa : (pre ++ ([x] ++ (B ++ post)))[a]? = some x :=
    getElem?_at _ pre (B ++ post) x a (by simp) ha
  have hlen : (pre ++ ([x] ++ (B ++ post))).length = b + post.length := by
    simp; omega
  obtain ⟨r, hr, hr1, hr2, hP, hQ⟩ := searchLow_spec hm _ hg a m b (by omega) (by omega)
    (b - m + 1) m b (le_refl _) (by omega) (le_refl _) (by omega)
    (fun h => absurd h (lt_irrefl _)) (fun h => absurd h (lt_irrefl _))
  have hseg : ∀ i, m ≤ i → i < b → (pre ++ ([x] ++ (B ++ post)))[i]? = B[i - m]? := by
    intro i h1 h2
    have := getElem?_segment (pre ++ [x]) B post i (by simp; omega) (by simp; omega)
    simp only [List.append_assoc, List.length_append, List.length_singleton] at this
    rw [this]
    congr 1
    omega
  have h1 : ∀ z ∈ B.take (r - m), k z < k x := by
    intro z hz
    rcases Nat.eq_or_lt_of_le hr1 with h | h
    · rw [← h] at hz; simp at hz
    · obtain ⟨u, v, hu, hv, huv⟩ := hP h
      rw [hxa] at hv
      cases hv
      rw [hseg (r - 1) (by omega) (by omega)] at hu
      have := sorted_take_le k B hB (r - 1 - m) u hu z
        (by rw [show r - 1 - m + 1 = r - m by omega]; exact hz)
      exact lt_of_le_of_lt this huv
  have h2 : ∀ z ∈ B.drop (r - m), k x ≤ k z := by
    intro z hz
    rcases Nat.eq_or_lt_of_le hr2 with h | h
    · rw [h, hb] at hz; simp at hz
    · obtain ⟨u, v, hu, hv, huv⟩ := hQ h
      rw [hxa] at hu
      cases hu
      rw [hseg r (by omega) (by omega)] at hv
      exact le_trans huv (sorted_drop_ge k B hB (r - m) v hv z hz)
  have hs : pre ++ ([x] ++ (B ++ post)) =
      pre ++ x :: (B.take (r - m) ++ (B.drop (r - m) ++ post)) := by
    rw [← List.append_assoc (B.take (r - m)), List.take_append_drop]
    rfl
  have hup := swapUp_spec hm (r - a + 1) pre (B.take (r - m)) (B.drop (r - m) ++ post) x a r ha
    (by rw [List.length_take]; omega) (by rw [List.length_take]; omega)
  refine ⟨B.take (r - m) ++ x :: B.drop (r - m), ?_, ?_⟩
  · rw [hr, except_ok_bind, hs, hup]
    simp
  · have := stableSorted_insert_front k (B.take (r - m)) (B.drop (r - m)) x
      (by rw [List.take_append_drop]; exact hB) h1 h2
    rwa [List.take_append_drop] at this

theorem symMerge_right_one {data : sort.Interface (List ε)} {k : ε → κ} {good : ε → Prop}
    (hm : ListModel data k good) (pre A post : List ε) (y : ε) (a m b : Nat)
    (ha : a = pre.length) (hm' : m = a + A.length) (hb : b = m + 1)
    (hg : ∀ z ∈ pre ++ (A ++ ([y] ++ post)), good z)
    (hA : A.Pairwise (fun u v => k u ≤ k v)) :
    ∃ M, (do
        let i ← sort.searchHigh data (m - a + 1) (pre ++ (A ++ ([y] ++ post))) m a m
        sort.swapDown data (m - i + 1) (pre ++ (A ++ ([y] ++ post))) m i) =
          .ok (pre ++ (M ++ post)) ∧
      StableSorted k M (A ++ [y]) := by
  have hym : (pre ++ (A ++ ([y] ++ post)))[m]? = some y :=
    getElem?_at _ (pre ++ A) post y m (by simp) (by simp; omega)
  have hlen : (pre ++ (A ++ ([y] ++ post))).length = b + post.length := by
    simp; omega
  obtain ⟨r, hr, hr1, hr2, hP, hQ⟩ := searchHigh_spec hm _ hg m a m (by omega) (by omega)
    (m - a + 1) a m (le_refl _) (by omega) (le_refl _) (by omega)
    (fun h => absurd h (lt_irrefl _)) (fun h => absurd h (lt_irrefl _))
  have hseg : ∀ i, a ≤ i → i < m → (pre ++ (A ++ ([y] ++ post)))[i]? = A[i - a]? := by
    intro i h1 h2
    have := getElem?_segment pre A ([y] ++ post) i (by omega) (by omega)
    rw [this, ha]
  have h1 : ∀ z ∈ A.take (r - a), k z ≤ k y := by
    intro z hz
    rcases Nat.eq_or_lt_of_le hr1 with h | h
    · rw [← h] at hz; simp at hz
    · obtain ⟨u, v, hu, hv, huv⟩ := hP h
      rw [hym] at hv
      cases hv
      rw [hseg (r - 1) (by omega) (by omega)] at hu
      have := sorted_take_le k A hA (r - 1 - a) u hu z
        (by rw [show r - 1 - a + 1 = r - a by omega]; exact hz)
      exact le_trans this huv
  have h2 : ∀ z ∈ A.drop (r - a), k y < k z := by
    intro z hz
    rcases Nat.eq_or_lt_of_le hr2 with h | h
    · rw [h, hm'] at hz; simp at hz
    · obtain ⟨u, v, hu, hv, huv⟩ := hQ h
      rw [hym] at hu
      cases hu
      rw [hseg r (by omega) (by omega)] at hv
      exact lt_of_lt_of_le huv (sorted_drop_ge k A hA (r - a) v hv z hz)
  have hs : pre ++ (A ++ ([y] ++ post)) =
      (pre ++ A.take (r - a)) ++ (A.drop (r - a) ++ y :: post) := by
    rw [List.append_assoc, ← List.append_assoc (A.take (r - a)), List.take_append_drop]
    rfl
  have hdown := swapDown_spec hm (m - r + 1) (pre ++ A.take (r - a)) (A.drop (r - a)) post y m r
    (by rw [List.length_append, List.length_take]; omega)
    (by rw [List.length_append, List.length_take, List.length_drop]; omega)
    (by rw [List.length_drop]; omega)
  refine ⟨A.take (r - a) ++ y :: A.drop (r - a), ?_, ?_⟩
  · rw [hr, except_ok_bind, hs, hdown]
    simp
  · exact stableSorted_insert k A (A.take (r - a)) (A.drop (r - a)) y
      (by rw [List.take_append_drop]; exact stableSorted_refl_of_sorted k A hA) h1 h2

theorem stableSorted_append_nil_or (k : ε → κ) (X Y : List ε)
    (hX : X.Pairwise (fun u v => k u ≤ k v)) (hY : Y.Pairwise (fun u v => k u ≤ k v))
    (h : X = [] ∨ Y = []) : StableSorted k (X ++ Y) (X ++ Y) := by
  apply stableSorted_refl_of_sorted
  rcases h with rfl | rfl
  · simpa using hY
  · simpa using hX

theorem symMerge_cross (k : ε → κ) (pre A B post : List ε) (a m b mid start0 r0 start : Nat)
    (ha : a = pre.length) (hm' : m = a + A.length) (hb : b = m + B.length)
    (hA : A.Pairwise (fun u v => k u ≤ k v)) (hB : B.Pairwise (fun u v => k u ≤ k v))
    (hmid1 : a + 2 ≤ mid) (hmid2 : mid + 2 ≤ b) (hmid3 : 2 * mid ≤ a + b)
    (hmid4 : a + b ≤ 2 * mid + 1)
    (p1 : a ≤ start0) (p2 : mid + m ≤ start0 + b) (p3 : start0 = a ∨ start0 + b = mid + m)
    (p4 : r0 ≤ m) (p5 : r0 ≤ mid) (p6 : r0 = m ∨ r0 = mid)
    (hs1 : start0 ≤ start) (hs2 : start ≤ r0)
    (hP : start0 < start →
      LeAt k (pre ++ (A ++ (B ++ post))) (start - 1) (mid + m - 1 - (start - 1)))
    (hQ : start < r0 → LtAt k (pre ++ (A ++ (B ++ post))) (mid + m - 1 - start) start) :
    (∀ x ∈ A.take (start - a), ∀ y ∈ B.drop (mid + m - start - m), k x ≤ k y) ∧
    (∀ y ∈ B.take (mid + m - start - m), ∀ x ∈ A.drop (start - a), k y < k x) := by
  have hsegA : ∀ i, a ≤ i → i < m → (pre ++ (A ++ (B ++ post)))[i]? = A[i - a]? := by
    intro i h1 h2
    have := getElem?_segment pre A (B ++ post) i (by omega) (by omega)
    rw [this, ha]
  have hsegB : ∀ i, m ≤ i → i < b → (pre ++ (A ++ (B ++ post)))[i]? = B[i - m]? := by
    intro i h1 h2
    have := getElem?_segment (pre ++ A) B post i (by simp; omega) (by simp; omega)
    simp only [List.append_assoc, List.length_append] at this
    rw [this]
    congr 1
    omega
  constructor
  · intro x hx y hy
    by_cases e1 : start = a
    · rw [e1] at hx; simp at hx
    · by_cases e2 : b ≤ mid + m - start
      · rw [List.drop_eq_nil_of_le (by omega)] at hy; simp at hy
      · obtain ⟨u, v, hu, hv, huv⟩ := hP (by omega)
        rw [hsegA (start - 1) (by omega) (by omega)] at hu
        rw [hsegB _ (by omega) (by omega)] at hv
        have g1 := sorted_take_le k A hA (start - 1 - a) u hu x
          (by rw [show start - 1 - a + 1 = start - a by omega]; exact hx)
        have g2 := sorted_drop_ge k B hB (mid + m - 1 - (start - 1) - m) v hv y
          (by rw [show mid + m - 1 - (start - 1) - m = mid + m - start - m by omega]
              exact hy)
        exact le_trans g1 (le_trans huv g2)
  · intro y hy x hx
    by_cases e1 : m ≤ start
    · rw [List.drop_eq_nil_of_le (by omega)] at hx; simp at hx
    · by_cases e2 : mid + m - start - m = 0
      · rw [e2] at hy; simp at hy
      · obtain ⟨u, v, hu, hv, huv⟩ := hQ (by omega)
        rw [hsegB _ (by omega) (by omega)] at hu
        rw [hsegA start (by omega) (by omega)] at hv
        have g1 := sorted_take_le k B hB (mid + m - 1 - start - m) u hu y
          (by rw [show mid + m - 1 - start - m + 1 = mid + m - start - m by omega]
              exact hy)
        have g2 := sorted_drop_ge k A hA (start - a) v hv x hx
        exact lt_of_le_of_lt g1 (lt_of_lt_of_le huv g2)

theorem symMerge_rotate {data : sort.Interface (List ε)} {k : ε → κ} {good : ε → Prop}
    (hm : ListModel data k good) (pre A1 A2 B1 B2 post : List ε) (start m e : Nat)
    (h1 : start = pre.length + A1.length) (h2 : m = start + A2.length)
    (h3 : e = m + B1.length) :
    (if start < m ∧ m < e then
        sort.rotate data (pre ++ (A1 ++ A2 ++ (B1 ++ B2 ++ post))) start m e
      else pure (pre ++ (A1 ++ A2 ++ (B1 ++ B2 ++ post)))) =
      .ok (pre ++ (A1 ++ (B1 ++ (A2 ++ (B2 ++ post))))) := by
  by_cases hc : start < m ∧ m < e
  · rw [if_pos hc]
    have := rotate_spec hm (pre ++ A1) A2 B1 (B2 ++ post) start m e
      (by simp; omega) h2 h3
      (fun h => by rw [h] at h2; simp at h2; omega)
      (fun h => by rw [h] at h3; simp at h3; omega)
    simpa using this
  · rw [if_neg hc, except_pure]
    have : A2 = [] ∨ B1 = [] := by
      by_cases h : start < m
      · right
        exact List.length_eq_zero.1 (by omega)
      · left
        exact List.length_eq_zero.1 (by omega)
    rcases this with rfl | rfl <;> simp

theorem symMerge_rec {data : sort.Interface (List ε)} {k : ε → κ} {good : ε → Prop}
    (fuel : Nat)
    (ih : ∀ (pre A B post : List ε) (a m b : Nat),
      a = pre.length → m = a + A.length → b = m + B.length → A ≠ [] → B ≠ [] →
      A.length + B.length < fuel →
      (∀ z ∈ pre ++ (A ++ (B ++ post)), good z) →
      A.Pairwise (fun u v => k u ≤ k v) → B.Pairwise (fun u v => k u ≤ k v) →
      ∃ M, sort.symMerge data fuel (pre ++ (A ++ (B ++ post))) a m b =
          .ok (pre ++ (M ++ post)) ∧ StableSorted k M (A ++ B))
    (pre A B post : List ε) (a m b : Nat)
    (ha : a = pre.length) (hm' : m = a + A.length) (hb : b = m + B.length)
    (hf : A.length + B.length < fuel)
    (hg : ∀ z ∈ pre ++ (A ++ (B ++ post)), good z)
    (hA : A.Pairwise (fun u v => k u ≤ k v)) (hB : B.Pairwise (fun u v => k u ≤ k v)) :
    ∃ M, (if a < m ∧ m < b then sort.symMerge data fuel (pre ++ (A ++ (B ++ post))) a m b
        else pure (pre ++ (A ++ (B ++ post)))) = .ok (pre ++ (M ++ post)) ∧
      StableSorted k M (A ++ B) := by
  by_cases hc : a < m ∧ m < b
  · rw [if_pos hc]
    exact ih pre A B post a m b ha hm' hb
      (fun h => by rw [h] at hm'; simp at hm'; omega)
      (fun h => by rw [h] at hb; simp at hb; omega) hf hg hA hB
  · rw [if_neg hc, except_pure]
    refine ⟨A ++ B, by simp, stableSorted_append_nil_or k A B hA hB ?_⟩
    by_cases h : a < m
    · right
      exact List.length_eq_zero.1 (by omega)
    · left
      exact List.length_eq_zero.1 (by omega)

theorem symMerge_tail {data : sort.Interface (List ε)} {k : ε → κ} {good : ε → Prop}
    (hm : ListModel data k good) (fuel : Nat)
    (ih : ∀ (pre A B post : List ε) (a m b : Nat),
      a = pre.length → m = a + A.length → b = m + B.length → A ≠ [] → B ≠ [] →
      A.length + B.length < fuel →
      (∀ z ∈ pre ++ (A ++ (B ++ post)), good z) →
      A.Pairwise (fun u v => k u ≤ k v) → B.Pairwise (fun u v => k u ≤ k v) →
      ∃ M, sort.symMerge data fuel (pre ++ (A ++ (B ++ post))) a m b =
          .ok (pre ++ (M ++ post)) ∧ StableSorted k M (A ++ B))
    (pre A1 A2 B1 B2 post : List ε) (a m b mid start e : Nat)
    (ha : a = pre.length) (h1 : start = a + A1.length) (h2 : m = start + A2.length)
    (h3 : e = m + B1.length) (h4 : b = e + B2.length) (h5 : mid = start + B1.length)
    (h6 : a < mid) (h7 : mid < b)
    (hf : (A1 ++ A2).length + (B1 ++ B2).length < fuel + 1)
    (hg : ∀ z ∈ pre ++ (A1 ++ A2 ++ (B1 ++ B2 ++ post)), good z)
    (hA : (A1 ++ A2).Pairwise (fun u v => k u ≤ k v))
    (hB : (B1 ++ B2).Pairwise (fun u v => k u ≤ k v))
    (hc1 : ∀ x ∈ A1, ∀ y ∈ B2, k x ≤ k y) (hc2 : ∀ y ∈ B1, ∀ x ∈ A2, k y < k x) :
    ∃ M, ((if start < m ∧ m < e then
            sort.rotate data (pre ++ (A1 ++ A2 ++ (B1 ++ B2 ++ post))) start m e
          else pure (pre ++ (A1 ++ A2 ++ (B1 ++ B2 ++ post)))) >>= fun s =>
        (if a < start ∧ start < mid then sort.symMerge data fuel s a start mid
          else pure s) >>= fun s =>
        if mid < e ∧ e < b then sort.symMerge data fuel s mid e b else pure s) =
          .ok (pre ++ (M ++ post)) ∧
      StableSorted k M (A1 ++ A2 ++ (B1 ++ B2)) := by
  have hA' := List.pairwise_append.1 hA
  have hB' := List.pairwise_append.1 hB
  have hlen : (A1 ++ A2).length + (B1 ++ B2).length =
      A1.length + A2.length + (B1.length + B2.length) := by
    simp only [List.length_append]
  rw [symMerge_rotate hm pre A1 A2 B1 B2 post start m e (by omega) h2 h3, except_ok_bind]
  have hg1 : ∀ z ∈ pre ++ (A1 ++ (B1 ++ (A2 ++ (B2 ++ post)))), good z := by
    intro z hz
    apply hg z
    simp only [List.mem_append] at hz ⊢
    rcases hz with h | h | h | h | h | h <;> simp only [h, true_or, or_true]
  obtain ⟨M1, hM1run, hM1⟩ := symMerge_rec fuel ih pre A1 B1 (A2 ++ (B2 ++ post)) a start mid
    ha h1 h5 (by omega) hg1 hA'.1 hB'.1
  rw [hM1run, except_ok_bind]
  have hM1len : M1.length = A1.length + B1.length := by
    have := hM1.1.length_eq
    simpa using this
  have hg2 : ∀ z ∈ (pre ++ M1) ++ (A2 ++ (B2 ++ post)), good z := by
    intro z hz
    apply hg z
    simp only [List.mem_append] at hz ⊢
    rcases hz with (hz | hz) | hz | hz | hz
    · exact Or.inl hz
    · have := hM1.1.subset hz
      simp only [List.mem_append] at this
      rcases this with h | h <;> simp only [h, true_or, or_true]
    · simp only [hz, true_or, or_true]
    · simp only [hz, true_or, or_true]
    · simp only [hz, true_or, or_true]
  obtain ⟨M2, hM2run, hM2⟩ := symMerge_rec fuel ih (pre ++ M1) A2 B2 post mid e b
    (by rw [List.length_append]; omega) (by omega) h4 (by omega) hg2 hA'.2.1 hB'.2.1
  refine ⟨M1 ++ M2, ?_, stableSorted_symMerge k A1 A2 B1 B2 M1 M2 hA hB hM1 hM2 hc1 hc2⟩
  simp only [List.append_assoc] at hM2run ⊢
  exact hM2run

theorem symMerge_spec {data : sort.Interface (List ε)} {k : ε → κ} {good : ε → Prop}
    (hm : ListModel data k good) (fuel : Nat) :
    ∀ (pre A B post : List ε) (a m b : Nat),
      a = pre.length → m = a + A.length → b = m + B.length → A ≠ [] → B ≠ [] →
      A.length + B.length < fuel →
      (∀ z ∈ pre ++ (A ++ (B ++ post)), good z) →
      A.Pairwise (fun u v => k u ≤ k v) → B.Pairwise (fun u v => k u ≤ k v) →
      ∃ M, sort.symMerge data fuel (pre ++ (A ++ (B ++ post))) a m b =
          .ok (pre ++ (M ++ post)) ∧ StableSorted k M (A ++ B) := by
  induction fuel with
  | zero => intro pre A B post a m b _ _ _ _ _ hf; omega
  | succ fuel ih =>
    intro pre A B post a m b ha hm' hb hAne hBne hf hg hA hB
    have hAl : 0 < A.length := List.length_pos.2 hAne
    have hBl : 0 < B.length := List.length_pos.2 hBne
    simp only [sort.symMerge]
    by_cases c1 : m - a = 1
    · rw [if_pos c1]
      obtain ⟨x, rfl⟩ := List.length_eq_one.1 (show A.length = 1 by omega)
      exact symMerge_left_one hm pre B post x a m b ha (by omega) hb hg hB
    · rw [if_neg c1]
      by_cases c2 : b - m = 1
      · rw [if_pos c2]
        obtain ⟨y, rfl⟩ := List.length_eq_one.1 (show B.length = 1 by omega)
        exact symMerge_right_one hm pre A post y a m b ha hm' (by omega) hg hA
      · rw [if_neg c2]
        generalize hmid : (a + b) / 2 = mid
        have hmid1 : a + 2 ≤ mid := by omega
        have hmid2 : mid + 2 ≤ b := by omega
        have hmid3 : 2 * mid ≤ a + b := by omega
        have hmid4 : a + b ≤ 2 * mid + 1 := by omega
        clear hmid c1 c2
        obtain ⟨start0, r0, hs0, hr0, p1, p2, p3, p4, p5, p6⟩ :
            ∃ start0 r0, (if m > mid then mid + m - b else a) = start0 ∧
              (if m > mid then mid else m) = r0 ∧ a ≤ start0 ∧ mid + m ≤ start0 + b ∧
              (start0 = a ∨ start0 + b = mid + m) ∧ r0 ≤ m ∧ r0 ≤ mid ∧
              (r0 = m ∨ r0 = mid) := by
          by_cases hmm : m > mid
          · exact ⟨mid + m - b, mid, by simp [hmm], by simp [hmm], by omega, by omega,
              by omega, by omega, by omega, by omega⟩
          · exact ⟨a, m, by simp [hmm], by simp [hmm], by omega, by omega,
              by omega, by omega, by omega, by omega⟩
        rw [hs0, hr0]
        clear hs0 hr0
        have hlen : (pre ++ (A ++ (B ++ post))).length = b + post.length := by
          simp; omega
        obtain ⟨start, hrun, hs1, hs2, hP, hQ⟩ := searchSym_spec hm _ hg (mid + m - 1)
          start0 r0 (by omega) (fun c h1 h2 => by omega) (r0 - start0 + 1) start0 r0
          (le_refl _) (by omega) (le_refl _) (by omega)
          (fun h => absurd h (lt_irrefl _)) (fun h => absurd h (lt_irrefl _))
        rw [hrun, except_ok_bind]
        clear hrun hlen
        obtain ⟨hc1, hc2⟩ := symMerge_cross k pre A B post a m b mid start0 r0 start ha hm' hb
          hA hB hmid1 hmid2 hmid3 hmid4 p1 p2 p3 p4 p5 p6 hs1 hs2 hP hQ
        clear hP hQ
        obtain ⟨A1, A2, hAeq, hA1⟩ : ∃ A1 A2, A = A1 ++ A2 ∧ A1.length = start - a :=
          ⟨A.take (start - a), A.drop (start - a), (List.take_append_drop _ A).symm, by
            rw [List.length_take]; omega⟩
        obtain ⟨B1, B2, hBeq, hB1⟩ : ∃ B1 B2, B = B1 ++ B2 ∧
            B1.length = mid + m - start - m :=
          ⟨B.take (mid + m - start - m), B.drop (mid + m - start - m),
            (List.take_append_drop _ B).symm, by rw [List.length_take]; omega⟩
        have e1 : A.take (start - a) = A1 := by rw [hAeq, ← hA1]; simp
        have e2 : B.drop (mid + m - start - m) = B2 := by rw [hBeq, ← hB1]; simp
        have e3 : A.drop (start - a) = A2 := by rw [hAeq, ← hA1]; simp
        have e4 : B.take (mid + m - start - m) = B1 := by rw [hBeq, ← hB1]; simp
        rw [e1, e2] at hc1
        rw [e3, e4] at hc2
        clear e1 e2 e3 e4
        subst hAeq hBeq
        have hA2 : A2.length = m - start := by simp at hm'; omega
        have hB2 : B2.length = b - (mid + m - start) := by simp at hb; omega
        simp only [ite_bind_fold]
        exact symMerge_tail hm fuel ih pre A1 A2 B1 B2 post a m b mid start (mid + m - start)
          ha (by omega) (by omega) (by omega) (by omega) (by omega) (by omega) (by omega)
          hf hg hA hB hc1 hc2

end SymMerge

section Stable

variable {ε κ : Type} [LinearOrder κ]

theorem stableSorted_congr (k : ε → κ) (M X Y : List ε) (h : StableSorted k M X)
    (hp : X.Perm Y)
    (hf : ∀ c : κ, X.filter (fun x => decide (k x = c)) = Y.filter (fun x => decide (k x = c))) :
    StableSorted k M Y :=
  ⟨h.1.trans hp, h.2.1, fun c => (h.2.2 c).trans (hf c)⟩

theorem stableSorted_merge_of (k : ε → κ) (M c cs o os : List ε)
    (h : StableSorted k M (c ++ cs)) (h1 : StableSorted k c o) (h2 : StableSorted k cs os) :
    StableSorted k M (o ++ os) := by
  apply stableSorted_congr k M (c ++ cs) (o ++ os) h (List.Perm.append h1.1 h2.1)
  intro x
  rw [List.filter_append, List.filter_append, h1.2.2 x, h2.2.2 x]

theorem blocked_length (k : ε → κ) (bs : Nat) (cur orig : List ε) (h : Blocked k bs cur orig) :
    cur.length = orig.length := by
  induction h with
  | last c o _ hs => exact hs.1.length_eq
  | cons c o cs os _ hs _ ih =>
    rw [List.length_append, List.length_append, hs.1.length_eq, ih]

theorem blocked_perm (k : ε → κ) (bs : Nat) (cur orig : List ε) (h : Blocked k bs cur orig) :
    cur.Perm orig := by
  induction h with
  | last c o _ hs => exact hs.1
  | cons c o cs os _ hs _ ih => exact List.Perm.append hs.1 ih

theorem blocked_nil (k : ε → κ) (bs : Nat) (cur orig : List ε) (h : Blocked k bs cur orig)
    (hc : cur = []) : orig = [] := by
  have := blocked_length k bs cur orig h
  rw [hc] at this
  exact List.length_eq_zero.1 this.symm

theorem blocked_small (k : ε → κ) (bs : Nat) (cur orig : List ε) (h : Blocked k bs cur orig)
    (hl : cur.length ≤ bs) : StableSorted k cur orig := by
  cases h with
  | last _ _ _ hs => exact hs
  | cons c o cs os hc hs hb =>
    have hcs : cs = [] := List.length_eq_zero.1 (by simp at hl; omega)
    have hos : os = [] := blocked_nil k bs cs os hb hcs
    subst hcs hos
    simpa using hs

theorem blocked_uncons (k : ε → κ) (bs : Nat) (cur orig : List ε)
    (h : Blocked k bs cur orig) (hl : bs ≤ cur.length) :
    ∃ c o cs os, cur = c ++ cs ∧ orig = o ++ os ∧ c.length = bs ∧ StableSorted k c o ∧
      Blocked k bs cs os := by
  cases h with
  | last _ _ hc hs =>
    exact ⟨cur, orig, [], [], by simp, by simp, by omega, hs,
      Blocked.last [] [] (by simp) (stableSorted_refl_of_sorted k [] List.Pairwise.nil)⟩
  | cons c o cs os hc hs hb => exact ⟨c, o, cs, os, rfl, rfl, hc, hs, hb⟩

theorem stableBlocks_spec {data : sort.Interface (List ε)} {k : ε → κ} {good : ε → Prop}
    (hm : ListModel data k good) (bs n : Nat) (hbs : 0 < bs) (fuel : Nat) :
    ∀ (pre rest : List ε) (a b : Nat),
      a = pre.length → b = a + bs → n = a + rest.length → rest.length < fuel →
      (∀ z ∈ pre ++ rest, good z) →
      ∃ done odone tail, sort.stableBlocks data bs n fuel (pre ++ rest) a b =
          .ok (pre ++ (done ++ tail), a + done.length) ∧
        rest = odone ++ tail ∧ rest.length = done.length + tail.length ∧ tail.length < bs ∧
        (∀ z ∈ pre ++ (done ++ tail), good z) ∧
        ∀ tail', StableSorted k tail' tail → Blocked k bs (done ++ tail') (odone ++ tail) := by
  induction fuel with
  | zero => intro pre rest a b _ _ _ hf; omega
  | succ fuel ih =>
    intro pre rest a b ha hb hn hf hg
    by_cases hc : b ≤ n
    · obtain ⟨X, rest', rfl, hX⟩ : ∃ X rest', rest = X ++ rest' ∧ X.length = bs :=
        ⟨rest.take bs, rest.drop bs, (List.take_append_drop _ _).symm, by
          rw [List.length_take]; omega⟩
      obtain ⟨X', hrun, hX'⟩ := insertionSort_spec hm pre X rest' a b ha (by omega)
        (by simpa using hg)
      have hX'len : X'.length = bs := by rw [hX'.1.length_eq, hX]
      have hg' : ∀ z ∈ (pre ++ X') ++ rest', good z := by
        intro z hz
        apply hg z
        simp only [List.mem_append] at hz ⊢
        rcases hz with (hz | hz) | hz
        · exact Or.inl hz
        · exact Or.inr (Or.inl (hX'.1.subset hz))
        · exact Or.inr (Or.inr hz)
      obtain ⟨done, odone, tail, hrun', hrest, hlen, htail, hg'', hblk⟩ := ih (pre ++ X') rest' b
        (b + bs) (by rw [List.length_append]; omega) rfl
        (by simp at hn; omega) (by simp at hf; omega) hg'
      refine ⟨X' ++ done, X ++ odone, tail, ?_, by rw [hrest]; simp,
        by simp only [List.length_append]; omega, htail, ?_, ?_⟩
      · simp only [sort.stableBlocks, hc, if_true]
        rw [List.append_assoc, hrun, except_ok_bind]
        have e : pre ++ (X' ++ rest') = (pre ++ X') ++ rest' := by simp
        rw [e, hrun']
        simp only [List.append_assoc, List.length_append]
        congr 2
        omega
      · simpa using hg''
      · intro tail' ht
        have := Blocked.cons X' X (done ++ tail') (odone ++ tail) hX'len hX' (hblk tail' ht)
        simpa using this
    · refine ⟨[], [], rest, ?_, rfl, by simp, by omega, by simpa using hg, ?_⟩
      · simp only [sort.stableBlocks, hc, if_false]
        rfl
      · intro tail' ht
        exact Blocked.last _ _ (by rw [List.nil_append, ht.1.length_eq]; omega)
          (by simpa using ht)

theorem stableMergePass_spec {data : sort.Interface (List ε)} {k : ε → κ} {good : ε → Prop}
    (hm : ListModel data k good) (bs n : Nat) (hbs : 0 < bs) (fuel : Nat) :
    ∀ (pre cur orig : List ε) (a b : Nat),
      a = pre.length → b = a + 2 * bs → n = a + cur.length → cur.length < fuel →
      (∀ z ∈ pre ++ cur, good z) → Blocked k bs cur orig →
      ∃ done tail otail, sort.stableMergePass data bs n fuel (pre ++ cur) a b =
          .ok (pre ++ (done ++ tail), a + done.length) ∧
        cur.length = done.length + tail.length ∧ tail.length < 2 * bs ∧
        Blocked k bs tail otail ∧
        (∀ z ∈ pre ++ (done ++ tail), good z) ∧
        ∀ tail', StableSorted k tail' otail → Blocked k (2 * bs) (done ++ tail') orig := by
  induction fuel with
  | zero => intro pre cur orig a b _ _ _ hf; omega
  | succ fuel ih =>
    intro pre cur orig a b ha hb hn hf hg hblk
    by_cases hc : b ≤ n
    · obtain ⟨c, o, cs, os, rfl, rfl, hcl, hco, hblk1⟩ := blocked_uncons k bs cur orig hblk
        (by omega)
      obtain ⟨c2, o2, cs2, os2, rfl, rfl, hcl2, hco2, hblk2⟩ := blocked_uncons k bs cs os hblk1
        (by simp at hn; omega)
      obtain ⟨M, hrun, hM⟩ := symMerge_spec hm (b - a + 1) pre c c2 cs2 a (a + bs) b ha
        (by omega) (by omega) (fun h => by rw [h] at hcl; simp at hcl; omega)
        (fun h => by rw [h] at hcl2; simp at hcl2; omega) (by omega)
        (by simpa using hg) hco.2.1 hco2.2.1
      have hM' : StableSorted k M (o ++ o2) := stableSorted_merge_of k M c c2 o o2 hM hco hco2
      have hMlen : M.length = 2 * bs := by
        rw [hM.1.length_eq, List.length_append]; omega
      have hg' : ∀ z ∈ (pre ++ M) ++ cs2, good z := by
        intro z hz
        apply hg z
        simp only [List.mem_append] at hz ⊢
        rcases hz with (hz | hz) | hz
        · exact Or.inl hz
        · have := hM.1.subset hz
          simp only [List.mem_append] at this
          rcases this with h | h <;> simp only [h, true_or, or_true]
        · simp only [hz, true_or, or_true]
      obtain ⟨done, tail, otail, hrun', hlen, htail, hbt, hg'', hcont⟩ := ih (pre ++ M) cs2 os2
        b (b + 2 * bs) (by rw [List.length_append]; omega) rfl
        (by simp at hn; omega) (by simp at hf; omega) hg' hblk2
      refine ⟨M ++ done, tail, otail, ?_, by simp; omega, htail, hbt, by simpa using hg'', ?_⟩
      · simp only [sort.stableMergePass, hc, if_true]
        simp only [List.append_assoc]
        rw [hrun, except_ok_bind]
        have e : pre ++ (M ++ cs2) = (pre ++ M) ++ cs2 := by simp
        rw [e, hrun']
        simp only [List.append_assoc, List.length_append]
        congr 2
        omega
      · intro tail' ht
        have := Blocked.cons M (o ++ o2) (done ++ tail') os2 hMlen hM' (hcont tail' ht)
        simpa using this
    · refine ⟨[], cur, orig, ?_, by simp, by omega, hblk, by simpa using hg, ?_⟩
      · simp only [sort.stableMergePass, hc, if_false]
        rfl
      · intro tail' ht
        have h1 := blocked_length k bs cur orig hblk
        exact Blocked.last _ _ (by rw [List.nil_append, ht.1.length_eq]; omega)
          (by simpa using ht)

theorem stableMerge_spec {data : sort.Interface (List ε)} {k : ε → κ} {good : ε → Prop}
    (hm : ListModel data k good) (n : Nat) (fuel : Nat) :
    ∀ (cur orig : List ε) (bs : Nat),
      0 < bs → n = cur.length → n - bs < fuel → (∀ z ∈ cur, good z) → Blocked k bs cur orig →
      ∃ out, sort.stableMerge data n fuel cur bs = .ok out ∧ StableSorted k out orig := by
  induction fuel with
  | zero => intro cur orig bs _ _ hf; omega
  | succ fuel ih =>
    intro cur orig bs hbs hn hf hg hblk
    by_cases hc : bs < n
    · obtain ⟨done, tail, otail, hrun, hlen, htail, hbt, hg', hcont⟩ :=
        stableMergePass_spec hm bs n hbs (n + 1) [] cur orig 0 (2 * bs) rfl (by omega)
          (by omega) (by omega) (by simpa using hg) hblk
      simp only [List.nil_append, Nat.zero_add] at hrun hg'
      simp only [sort.stableMerge, hc, if_true, hrun, except_ok_bind]
      obtain ⟨tail', hrun2, ht'⟩ : ∃ tail',
          (if done.length + bs < n then
            sort.symMerge data (n - done.length + 1) (done ++ tail) done.length
              (done.length + bs) n
          else pure (done ++ tail)) = .ok (done ++ tail') ∧ StableSorted k tail' otail := by
        by_cases hc2 : done.length + bs < n
        · rw [if_pos hc2]
          obtain ⟨c, o, cs, os, rfl, rfl, hcl, hco, hblk1⟩ := blocked_uncons k bs tail otail hbt
            (by omega)
          have hcs : StableSorted k cs os := blocked_small k bs cs os hblk1
            (by simp at htail; omega)
          obtain ⟨M, hrunM, hM⟩ := symMerge_spec hm (n - done.length + 1) done c cs []
            done.length (done.length + bs) n rfl (by omega) (by simp at hlen; omega)
            (fun h => by rw [h] at hcl; simp at hcl; omega)
            (fun h => by rw [h] at hlen; simp at hlen; omega)
            (by simp at hlen; omega) (by simpa using hg') hco.2.1 hcs.2.1
          refine ⟨M, ?_, stableSorted_merge_of k M c cs o os hM hco hcs⟩
          simpa using hrunM
        · rw [if_neg hc2]
          exact ⟨tail, rfl, blocked_small k bs tail otail hbt (by omega)⟩
      rw [ite_bind_fold, hrun2, except_ok_bind]
      have hblk' : Blocked k (bs * 2) (done ++ tail') orig := by
        rw [Nat.mul_comm]
        exact hcont tail' ht'
      have hlen' : (done ++ tail').length = n := by
        rw [List.length_append, ht'.1.length_eq, ← blocked_length k bs tail otail hbt]
        omega
      have hg'' : ∀ z ∈ done ++ tail', good z := by
        intro z hz
        apply hg' z
        simp only [List.mem_append] at hz ⊢
        rcases hz with hz | hz
        · exact Or.inl hz
        · exact Or.inr ((blocked_perm k bs tail otail hbt).symm.subset (ht'.1.subset hz))
      exact ih (done ++ tail') orig (bs * 2) (by omega) hlen'.symm (by omega) hg'' hblk'
    · refine ⟨cur, ?_, blocked_small k bs cur orig hblk (by omega)⟩
      simp only [sort.stableMerge, hc, if_false]
      rfl

theorem stable_spec {data : sort.Interface (List ε)} {k : ε → κ} {good : ε → Prop}
    (hm : ListModel data k good) (s : List ε) (hg : ∀ z ∈ s, good z) :
    ∃ out, sort.Stable data s = .ok out ∧ StableSorted k out s := by
  obtain ⟨done, odone, tail, hrun, hrest, hlen, htail, hg', hcont⟩ :=
    stableBlocks_spec hm 20 s.length (by norm_num) (s.length + 1) [] s 0 20 rfl rfl
      (by omega) (by omega) (by simpa using hg)
  simp only [List.nil_append, Nat.zero_add] at hrun hg'
  obtain ⟨tail', hrun2, ht'⟩ := insertionSort_spec hm done tail [] done.length s.length rfl
    hlen (by simpa using hg')
  simp only [List.append_nil] at hrun2
  have hblk : Blocked k 20 (done ++ tail') s := by
    have := hcont tail' ht'
    rwa [← hrest] at this
  have hg'' : ∀ z ∈ done ++ tail', good z := by
    intro z hz
    apply hg' z
    simp only [List.mem_append] at hz ⊢
    rcases hz with hz | hz
    · exact Or.inl hz
    · exact Or.inr (ht'.1.subset hz)
  obtain ⟨out, hrun3, hout⟩ := stableMerge_spec hm s.length (s.length + 1) (done ++ tail') s 20
    (by norm_num) (by rw [List.length_append, ht'.1.length_eq]; omega) (by omega) hg'' hblk
  refine ⟨out, ?_, hout⟩
  simp only [sort.Stable, sort.stable, hm.len, hrun, except_ok_bind, hrun2, hrun3]

end Stable

section Instances

variable {Req Resp Err Rd ω : Type}

theorem index_ok {α : Type} (s : List α) (i : Nat) (x : α) (h : s[i]? = some x) :
    index s i = .ok x := by
  simp only [index, h]

theorem bqsByName_model :
    ListModel bqsByName (ptrKey BigQuery.Name []) (fun p => p ≠ none) where
  len _ := rfl
  swap s i j x y hx hy := by
    simp only [bqsByName, index_ok s i x hx, index_ok s j y hy, except_ok_bind, except_pure]
  less s i j x y hx hy gx gy := by
    obtain ⟨r, rfl⟩ := Option.ne_none_iff_exists'.1 gx
    obtain ⟨r', rfl⟩ := Option.ne_none_iff_exists'.1 gy
    simp only [bqsByName, index_ok s i _ hx, index_ok s j _ hy, except_ok_bind, except_pure,
      deref, ptrKey]

theorem versionsByNumber_model :
    ListModel versionsByNumber (ptrKey Version.Number 0) (fun p => p ≠ none) where
  len _ := rfl
  swap s i j x y hx hy := by
    simp only [versionsByNumber, index_ok s i x hx, index_ok s j y hy, except_ok_bind,
      except_pure]
  less s i j x y hx hy gx gy := by
    obtain ⟨r, rfl⟩ := Option.ne_none_iff_exists'.1 gx
    obtain ⟨r', rfl⟩ := Option.ne_none_iff_exists'.1 gy
    simp only [versionsByNumber, index_ok s i _ hx, index_ok s j _ hy, except_ok_bind,
      except_pure, deref, ptrKey]

theorem stableSorted_map_some {ρ κ : Type} [LinearOrder κ] (key : ρ → κ) (d : κ)
    (out : List (Option ρ)) (recs : List ρ)
    (h : StableSorted (ptrKey key d) out (recs.map some)) :
    ∃ sorted, out = sorted.map some ∧ StableSorted key sorted recs := by
  obtain ⟨hp, hs, hf⟩ := h
  have hall : ∀ p ∈ out, ∃ r, p = some r := by
    intro p hp'
    have := hp.subset hp'
    simp only [List.mem_map] at this
    obtain ⟨r, _, rfl⟩ := this
    exact ⟨r, rfl⟩
  have hout : out = (out.filterMap id).map some := by
    clear hp hs hf
    induction out with
    | nil => rfl
    | cons p out ih =>
      obtain ⟨r, rfl⟩ := hall p (List.mem_cons_self _ _)
      have := ih (fun q hq => hall q (List.mem_cons_of_mem _ hq))
      simp only [List.filterMap_cons, id_eq, List.map_cons]
      rw [← this]
  refine ⟨out.filterMap id, hout, ?_, ?_, ?_⟩
  · have := hp.filterMap id
    simpa [List.filterMap_map] using this
  · rw [hout, List.pairwise_map] at hs
    exact hs
  · intro c
    have := hf c
    rw [hout, List.filter_map, List.filter_map] at this
    exact List.map_injective_iff.2 (Option.some_injective _) this

end Instances

section ListClaims

variable {Req Resp Err Rd ω : Type}

theorem listRun_ok_of_sort {ev : Option Req → Option Err → Event Req Resp Err Rd}
    (k : Kind) (v nilSlice : k.Pointee)
    (srt : k.Pointee → Except Panic k.Pointee) (b : (Option Req × Option Err) × ω)
    (d : (k.Pointee × Option Resp × Option Err) × ω)
    (h : b.1.2 = none → d.1.2.2 = none → ∃ sorted, srt d.1.1 = .ok sorted) :
    ∃ ret, (listRun ev k v nilSlice srt b d).1 = .ok ret := by
  obtain ⟨⟨req', _ | e1⟩, w1⟩ := b
  · obtain ⟨⟨t, r1, _ | e2⟩, w2⟩ := d
    · obtain ⟨sorted, hs⟩ := h rfl rfl
      simp only [] at hs
      exact ⟨(sorted, r1, none), by simp only [listRun, hs]⟩
    · exact ⟨_, rfl⟩
  · exact ⟨_, rfl⟩

theorem listRun_do_mem (ev : Option Req → Option Err → Event Req Resp Err Rd)
    (k : Kind) (v nilSlice : k.Pointee)
    (srt : k.Pointee → Except Panic k.Pointee) (b : (Option Req × Option Err) × ω)
    (d : (k.Pointee × Option Resp × Option Err) × ω) (hb : b.1.2 = none) :
    Event.Do b.1.1 k v d.1.1 d.1.2.1 d.1.2.2 ∈ (listRun ev k v nilSlice srt b d).2.2 := by
  obtain ⟨⟨req', _ | e1⟩, w1⟩ := b
  · obtain ⟨⟨t, r1, _ | e2⟩, w2⟩ := d <;> simp [listRun]
  · cases hb

theorem sortSlice_spec {ρ κ : Type} [LinearOrder κ] {data : sort.Interface (List (Option ρ))}
    (key : ρ → κ) (d : κ) (hm : ListModel data (ptrKey key d) (fun p => p ≠ none))
    (s : Slice (Option ρ)) (recs : List ρ) (h : s.elems = recs.map some) :
    ∃ sorted, sortSlice data s = .ok (s.withElems (sorted.map some)) ∧
      StableSorted key sorted recs := by
  obtain ⟨out, hrun, hout⟩ := stable_spec hm (recs.map some) (by
    intro z hz
    simp only [List.mem_map] at hz
    obtain ⟨r, _, rfl⟩ := hz
    exact Option.some_ne_none r)
  obtain ⟨sorted, rfl, hs⟩ := stableSorted_map_some key d out recs hout
  exact ⟨sorted, by simp only [sortSlice, h, hrun], hs⟩

theorem elems_eq_map_some {ρ : Type} (l : List (Option ρ)) (h : ∀ p ∈ l, p ≠ none) :
    ∃ recs : List ρ, l = recs.map some := by
  induction l with
  | nil => exact ⟨[], rfl⟩
  | cons p l ih =>
    obtain ⟨r, rfl⟩ := Option.ne_none_iff_exists'.1 (h p (List.mem_cons_self _ _))
    obtain ⟨recs, rfl⟩ := ih (fun q hq => h q (List.mem_cons_of_mem _ hq))
    exact ⟨r :: recs, rfl⟩

/-- Claim C1 as stated fails when the decoded sequence holds a nil pointer: on a
successful call (the builder and the transport return no error) that decodes a record
followed by `nil`, `BigQueryConfig.List` does not return a sorted sequence, it panics with
a nil dereference in `Less`. -/
theorem list_nil_element_counterexample :
    nilElementClient.NewRequest (ascii "GET")
        (ascii "/service/" ++ [] ++ ascii "/version/" ++ decimal 0 ++
          ascii "/logging/bigquery") none () = ((some 1, none), ()) ∧
    nilElementClient.Do (some 1) .bigQueries none () =
      ((some [some { BigQuery.zero with Name := ascii "a" }, none], some 2, none), ()) ∧
    Event.Do (some 1) .bigQueries none
        (some [some { BigQuery.zero with Name := ascii "a" }, none]) (some 2) none ∈
      (BigQueryConfig.List nilElementClient.traced [] 0 ((), [])).2.2 ∧
    (BigQueryConfig.List nilElementClient [] 0 ()).1 = .error Panic.nilDereference :=
  ⟨rfl, rfl, List.Mem.tail _ (List.Mem.head _), rfl⟩

/-- Claim C1, amended. For every input: when the request builder of the client returns no
error and the transport `Do`, called on the built request with a pointer to a nil slice,
returns no error and leaves in the target a sequence `out` whose elements are all non-nil
(the records `recs`), `BigQueryConfig.List` returns that sequence stably sorted by `Name`
(byte-wise lexicographic order) and `VersionConfig.List` returns it stably sorted by
`Number`: a permutation of the decoded sequence, keys non-decreasing, records of equal key
in their decoded order; the response is the transport's and the error is nil. -/
theorem list_stably_sorted (c : Client Req Resp Err Rd ω) (w : ω) :
    (∀ (serviceID : GoString) (version : Nat) (req : Option Req) (w1 : ω)
        (out : Slice (Option BigQuery)) (resp : Option Resp) (w2 : ω)
        (recs : List BigQuery),
      c.NewRequest (ascii "GET")
          (ascii "/service/" ++ serviceID ++ ascii "/version/" ++ decimal version ++
            ascii "/logging/bigquery") none w = ((req, none), w1) →
      c.Do req .bigQueries none w1 = ((out, resp, none), w2) →
      out.elems = recs.map some →
      ∃ sorted, BigQueryConfig.List c serviceID version w =
          (.ok (out.withElems (sorted.map some), resp, none), w2) ∧
        StableSorted BigQuery.Name sorted recs) ∧
    (∀ (serviceID : GoString) (req : Option Req) (w1 : ω)
        (out : Slice (Option Version)) (resp : Option Resp) (w2 : ω)
        (recs : List Version),
      c.NewRequest (ascii "GET") (ascii "/service/" ++ serviceID ++ ascii "/version") none w =
        ((req, none), w1) →
      c.Do req .versions none w1 = ((out, resp, none), w2) →
      out.elems = recs.map some →
      ∃ sorted, VersionConfig.List c serviceID w =
          (.ok (out.withElems (sorted.map some), resp, none), w2) ∧
        StableSorted Version.Number sorted recs) := by
  constructor
  · intro serviceID version req w1 out resp w2 recs hb hd helems
    obtain ⟨b, d, hbe, hde, ht, hu⟩ := run_BigQueryConfig_List c serviceID version w
    rw [hb] at hbe
    subst hbe
    have hde' := hde.trans hd
    subst hde'
    obtain ⟨sorted, hs, hss⟩ := sortSlice_spec BigQuery.Name [] bqsByName_model out recs helems
    refine ⟨sorted, ?_, hss⟩
    rw [hu, ht]
    simp only [unlogged, listRun, hs]
  · intro serviceID req w1 out resp w2 recs hb hd helems
    obtain ⟨b, d, hbe, hde, ht, hu⟩ := run_VersionConfig_List c serviceID w
    rw [hb] at hbe
    subst hbe
    have hde' := hde.trans hd
    subst hde'
    obtain ⟨sorted, hs, hss⟩ := sortSlice_spec Version.Number 0 versionsByNumber_model out recs
      helems
    refine ⟨sorted, ?_, hss⟩
    rw [hu, ht]
    simp only [unlogged, listRun, hs]

/-- Claim C1 at decoded names `b`, `a`, `b`: the result is `a`, the first `b`, the
second `b`. -/
theorem list_stably_sorted_witness :
    babClient.NewRequest (ascii "GET")
        (ascii "/service/" ++ [] ++ ascii "/version/" ++ decimal 0 ++
          ascii "/logging/bigquery") none () = ((some 1, none), ()) ∧
    babClient.Do (some 1) .bigQueries none () =
      ((some [some { BigQuery.zero with Name := ascii "b", Format := ascii "first" },
          some { BigQuery.zero with Name := ascii "a" },
          some { BigQuery.zero with Name := ascii "b", Format := ascii "second" }],
        some 2, none), ()) ∧
    BigQueryConfig.List babClient [] 0 () =
      (.ok (some [some { BigQuery.zero with Name := ascii "a" },
          some { BigQuery.zero with Name := ascii "b", Format := ascii "first" },
          some { BigQuery.zero with Name := ascii "b", Format := ascii "second" }],
        some 2, none), ()) ∧
    ∃ sorted, BigQueryConfig.List babClient [] 0 () =
        (.ok (some (sorted.map some), some 2, none), ()) ∧
      StableSorted BigQuery.Name sorted
        [{ BigQuery.zero with Name := ascii "b", Format := ascii "first" },
          { BigQuery.zero with Name := ascii "a" },
          { BigQuery.zero with Name := ascii "b", Format := ascii "second" }] :=
  ⟨rfl, rfl, rfl,
    (list_stably_sorted babClient ()).1 [] 0 (some 1) () _ (some 2) () _ rfl rfl rfl⟩

theorem index_ok_iff {α : Type} (s : List α) (i : Nat) (x : α) :
    index s i = .ok x ↔ s[i]? = some x := by
  unfold index
  cases h : s[i]? with
  | none => simp
  | some y => simp

theorem deref_ok_iff {α : Type} (p : Option α) (x : α) : deref p = .ok x ↔ p = some x := by
  cases p <;> simp [deref]

theorem bind_ok_iff {α β : Type} (m : Except Panic α) (f : α → Except Panic β) (y : β) :
    (m >>= f) = .ok y ↔ ∃ x, m = .ok x ∧ f x = .ok y := by
  cases m with
  | error e => simp [bind, Except.bind]
  | ok x => simp [bind, Except.bind]

/-- Claim C10. The ordering step of `BigQueryConfig.List` and `VersionConfig.List` is safe
on well-formed decoded data. `Less(i, j)` returns exactly when `i` and `j` are below
`Len()` and both elements are non-nil, `Swap(i, j)` returns only when `i` and `j` are
below `Len()`; any other call panics, and a panic aborts the sort. For every sequence of
non-nil records (the empty one included) `sort.Stable` returns, so every `Less` and `Swap`
it performed was in range and dereferenced no nil record; and a `List` call whose decoded
slice (nil, empty or not) holds no nil pointer returns without panic. -/
theorem sort_safe (c : Client Req Resp Err Rd ω) (w : ω) :
    (∀ recs : List BigQuery, ∃ out, sort.Stable bqsByName (recs.map some) = .ok out) ∧
    (∀ recs : List Version, ∃ out, sort.Stable versionsByNumber (recs.map some) = .ok out) ∧
    (∀ (s : List (Option BigQuery)) (i j : Nat) (r : Bool), bqsByName.Less s i j = .ok r →
      i < bqsByName.Len s ∧ j < bqsByName.Len s ∧
        ∃ x y, s[i]? = some (some x) ∧ s[j]? = some (some y)) ∧
    (∀ (s s' : List (Option BigQuery)) (i j : Nat), bqsByName.Swap s i j = .ok s' →
      i < bqsByName.Len s ∧ j < bqsByName.Len s) ∧
    (∀ (s : List (Option Version)) (i j : Nat) (r : Bool),
      versionsByNumber.Less s i j = .ok r →
      i < versionsByNumber.Len s ∧ j < versionsByNumber.Len s ∧
        ∃ x y, s[i]? = some (some x) ∧ s[j]? = some (some y)) ∧
    (∀ (s s' : List (Option Version)) (i j : Nat), versionsByNumber.Swap s i j = .ok s' →
      i < versionsByNumber.Len s ∧ j < versionsByNumber.Len s) ∧
    (∀ (serviceID : GoString) (version : Nat),
      (∀ (req : Option Req) (v out : Slice (Option BigQuery)) (resp : Option Resp)
          (err : Option Err),
        Event.Do req .bigQueries v out resp err ∈
            (BigQueryConfig.List c.traced serviceID version (w, [])).2.2 →
          ∀ p ∈ out.elems, p ≠ none) →
      ∃ ret, (BigQueryConfig.List c serviceID version w).1 = .ok ret) ∧
    (∀ (serviceID : GoString),
      (∀ (req : Option Req) (v out : Slice (Option Version)) (resp : Option Resp)
          (err : Option Err),
        Event.Do req .versions v out resp err ∈
            (VersionConfig.List c.traced serviceID (w, [])).2.2 →
          ∀ p ∈ out.elems, p ≠ none) →
      ∃ ret, (VersionConfig.List c serviceID w).1 = .ok ret) := by
  refine ⟨?_, ?_, ?_, ?_, ?_, ?_, ?_, ?_⟩
  · intro recs
    obtain ⟨sorted, hs, -⟩ := sortSlice_spec BigQuery.Name [] bqsByName_model
      (some (recs.map some)) recs rfl
    simp only [sortSlice, Slice.elems] at hs
    cases h : sort.Stable bqsByName (recs.map some) with
    | error e => rw [h] at hs; cases hs
    | ok out => exact ⟨out, rfl⟩
  · intro recs
    obtain ⟨sorted, hs, -⟩ := sortSlice_spec Version.Number 0 versionsByNumber_model
      (some (recs.map some)) recs rfl
    simp only [sortSlice, Slice.elems] at hs
    cases h : sort.Stable versionsByNumber (recs.map some) with
    | error e => rw [h] at hs; cases hs
    | ok out => exact ⟨out, rfl⟩
  · intro s i j r h
    simp only [bqsByName, bind_ok_iff, index_ok_iff, deref_ok_iff] at h
    obtain ⟨p, hp, x, rfl, q, hq, y, rfl, -⟩ := h
    exact ⟨(List.getElem?_eq_some.1 hp).1, (List.getElem?_eq_some.1 hq).1, x, y, hp, hq⟩
  · intro s s' i j h
    simp only [bqsByName, bind_ok_iff, index_ok_iff] at h
    obtain ⟨x, hx, y, hy, -⟩ := h
    exact ⟨(List.getElem?_eq_some.1 hy).1, (List.getElem?_eq_some.1 hx).1⟩
  · intro s i j r h
    simp only [versionsByNumber, bind_ok_iff, index_ok_iff, deref_ok_iff] at h
    obtain ⟨p, hp, x, rfl, q, hq, y, rfl, -⟩ := h
    exact ⟨(List.getElem?_eq_some.1 hp).1, (List.getElem?_eq_some.1 hq).1, x, y, hp, hq⟩
  · intro s s' i j h
    simp only [versionsByNumber, bind_ok_iff, index_ok_iff] at h
    obtain ⟨x, hx, y, hy, -⟩ := h
    exact ⟨(List.getElem?_eq_some.1 hy).1, (List.getElem?_eq_some.1 hx).1⟩
  · intro serviceID version hall
    obtain ⟨b, d, -, -, ht, hu⟩ := run_BigQueryConfig_List c serviceID version w
    rw [hu, ht]
    rw [ht] at hall
    simp only [unlogged]
    refine listRun_ok_of_sort .bigQueries none none (sortSlice bqsByName) b d ?_
    intro hb _
    have hmem := listRun_do_mem (Event.NewRequest (ascii "GET")
      (ascii "/service/" ++ serviceID ++ ascii "/version/" ++ decimal version ++
        ascii "/logging/bigquery") (none : Option Rd) : _ → _ → Event Req Resp Err Rd)
      .bigQueries none none (sortSlice bqsByName) b d hb
    obtain ⟨recs, hrecs⟩ := elems_eq_map_some _ (hall _ _ _ _ _ hmem)
    obtain ⟨sorted, hs, -⟩ := sortSlice_spec BigQuery.Name [] bqsByName_model d.1.1 recs hrecs
    exact ⟨_, hs⟩
  · intro serviceID hall
    obtain ⟨b, d, -, -, ht, hu⟩ := run_VersionConfig_List c serviceID w
    rw [hu, ht]
    rw [ht] at hall
    simp only [unlogged]
    refine listRun_ok_of_sort .versions none none (sortSlice versionsByNumber) b d ?_
    intro hb _
    have hmem := listRun_do_mem (Event.NewRequest (ascii "GET")
      (ascii "/service/" ++ serviceID ++ ascii "/version") (none : Option Rd) :
        _ → _ → Event Req Resp Err Rd)
      .versions none none (sortSlice versionsByNumber) b d hb
    obtain ⟨recs, hrecs⟩ := elems_eq_map_some _ (hall _ _ _ _ _ hmem)
    obtain ⟨sorted, hs, -⟩ := sortSlice_spec Version.Number 0 versionsByNumber_model d.1.1 recs
      hrecs
    exact ⟨_, hs⟩

/-- Claim C10 at a client that decodes three non-nil records: `BigQueryConfig.List`
returns without panic. -/
theorem sort_safe_witness :
    (∀ (req : Option Nat) (v out : Slice (Option BigQuery)) (resp : Option Nat)
        (err : Option Nat),
      Event.Do req .bigQueries v out resp err ∈
          (BigQueryConfig.List babClient.traced [] 0 ((), [])).2.2 →
        ∀ p ∈ out.elems, p ≠ none) ∧
    ∃ ret, (BigQueryConfig.List babClient [] 0 ()).1 = .ok ret :=
  have h : ∀ (req : Option Nat) (v out : Slice (Option BigQuery)) (resp : Option Nat)
      (err : Option Nat),
      Event.Do req .bigQueries v out resp err ∈
          (BigQueryConfig.List babClient.traced [] 0 ((), [])).2.2 →
        ∀ p ∈ out.elems, p ≠ none := by
    intro req v out resp err hmem
    have hlog : (BigQueryConfig.List babClient.traced [] 0 ((), [])).2.2 =
        [Event.NewRequest (ascii "GET") (ascii "/service//version/0/logging/bigquery") none
            (some 1) none,
          Event.Do (some 1) .bigQueries none
            (some [some { BigQuery.zero with Name := ascii "b", Format := ascii "first" },
              some { BigQuery.zero with Name := ascii "a" },
              some { BigQuery.zero with Name := ascii "b", Format := ascii "second" }])
            (some 2) none] := rfl
    rw [hlog] at hmem
    simp only [List.mem_cons, List.mem_singleton, List.not_mem_nil, or_false] at hmem
    rcases hmem with hmem | hmem
    · cases hmem
    · cases hmem
      intro p hp
      simp only [Slice.elems, List.mem_cons, List.mem_singleton, List.not_mem_nil,
        or_false] at hp
      rcases hp with rfl | rfl | rfl <;> exact Option.some_ne_none _
  ⟨h, (sort_safe babClient ()).2.2.2.2.2.2.1 [] 0 h⟩

end ListClaims
